import Mathlib

/-! The connection-level command processor (`app/server/cmd_conn.go`)

A shallow embedding of `CmdConn.OnData`, `sendQueued`, `execute`, `cmdGroup.clear`,
`sendToWorker` and the worker goroutine's loop, and of `Parse` and `Marshal` of the commands
`RaftRemove` and `RaftBootstrap` (`app/cmd`), followed by theorems about them.

Conventions of the embedding.

* Go byte slices and strings are `List UInt8`.
* Groups are handled through pointers in the source. No group is ever reachable from two
  places that are both used afterwards, except the goroutine's captured variable, which is
  modelled explicitly (`cmdConnWorker.task`). Groups are therefore values, and a function that
  mutates a group returns the new group.
* A run that does not return normally yields a `Fault`: an index out of range (`panic`), a
  receive on an empty channel (`blocked`) or an exhausted loop budget (`fuel`).
* `int32` and `uint64` arithmetic wraps.
-/

namespace Kiru

/-- A Go byte slice or string. -/
abbrev Bytes := List UInt8

/-- The bytes of an ASCII string literal. -/
def ascii (s : String) : Bytes := s.toList.map (fun ch => ch.toNat.toUInt8)

/-- Conversion to `int32` (two's complement wrap-around): a value in the range is unchanged,
any other one is `(n + 2^31) % 2^32 - 2^31`, which is also the value of that formula in the
range (`int32_wrap`). The range test comes first so that the conversion of a length reduces
without arithmetic on the two large constants. -/
def int32 (n : Int) : Int :=
  match n with
  | Int.ofNat m =>
    if m < 2147483648 then Int.ofNat m
    else (Int.ofNat m + 2147483648) % 4294967296 - 2147483648
  | Int.negSucc m =>
    if m < 2147483648 then Int.negSucc m
    else (Int.negSucc m + 2147483648) % 4294967296 - 2147483648

/-- Conversion to `uint64`. -/
def uint64 (n : Nat) : Nat := n % 18446744073709551616

/-- The `uint64` expression `n - 1`, which wraps at zero. -/
def uint64pred (n : Nat) : Nat := if n = 0 then 18446744073709551615 else n - 1

/-- Ways in which a run fails to return normally. -/
inductive Fault where
  | panic
  | blocked
  | fuel
deriving DecidableEq, Repr

deriving instance DecidableEq for Except

/-! ## RESP encoders (`common/redcon`) -/

/-- The two bytes CR LF. -/
def crlf : Bytes := [13, 10]

/-- Modelled from the spec: `redcon.AppendOK` is not under src/; the reply is the simple
string `+OK\r\n`. -/
def AppendOK (out : Bytes) : Bytes := out ++ ascii "+OK" ++ crlf

/-- Modelled from the spec: `redcon.AppendQueued` is not under src/; the acknowledgement is
`+QUEUED\r\n`. -/
def AppendQueued (out : Bytes) : Bytes := out ++ ascii "+QUEUED" ++ crlf

/-- Decimal digits of a natural number. -/
def natDigits (n : Nat) : Bytes := ascii (toString n)

/-- Decimal rendering of an integer, as `strconv.Itoa`. -/
def itoa (n : Int) : Bytes :=
  if n < 0 then ascii "-" ++ natDigits n.natAbs else natDigits n.natAbs

/-- Modelled from the spec: `redcon.AppendArray` is not under src/; the header of an array of
`n` elements is `*<n>\r\n`. -/
def AppendArray (out : Bytes) (n : Int) : Bytes := out ++ ascii "*" ++ itoa n ++ crlf

/-- Modelled from the spec: `redcon.AppendError` is not under src/; an error reply is
`-<msg>\r\n`. -/
def AppendError (out : Bytes) (msg : Bytes) : Bytes := out ++ ascii "-" ++ msg ++ crlf

/-! ## Commands and groups -/

/-- What the connection observes of an `api.Command`: the two flags and the reply that
executing it produces. -/
structure Command where
  IsWorker : Bool
  IsError : Bool
  reply : Bytes
deriving DecidableEq, Repr

/-- Modelled from the spec: `api.Err` is not under src/; an error command carries a message,
answers `IsError` with true and replies with its error string. -/
def Err (msg : Bytes) : Command :=
  { IsWorker := false, IsError := true, reply := AppendError [] msg }

/-- Modelled from the spec: `api.Ok` is not under src/; it replies `+OK`. -/
def Ok : Command :=
  { IsWorker := false, IsError := false, reply := AppendOK [] }

/-- Modelled from the spec: `Context.AppendCommand` is not under src/; it appends the
command's RESP-encoded reply to the buffer. -/
def AppendCommand (out : Bytes) (command : Command) : Bytes := out ++ command.reply

/-- The struct `cmdGroup`; a fresh `&cmdGroup{}` has every field zero. -/
structure cmdGroup where
  isMulti : Bool := false
  isWorker : Bool := false
  qidx : Int := 0
  list : List Command := []
deriving DecidableEq, Repr

/-- The method `cmdGroup.clear`. -/
def cmdGroup.clear (c : cmdGroup) : cmdGroup :=
  { c with isMulti := false, isWorker := false, qidx := -1, list := [] }

/-- The method `cmdGroup.size`. -/
def cmdGroup.size (c : cmdGroup) : Int := int32 c.list.length

/-- The indexing expression `list[i]` for an `int32` index: out of range is a panic. -/
def index (list : List Command) (i : Int) : Except Fault Command :=
  if i < 0 then .error .panic
  else match list.get? i.toNat with
    | some command => .ok command
    | none => .error .panic

/-- The `for i := group.qidx; i < group.size(); i++` loop of `sendQueued`, entered with `n`
iterations left before `i` reaches the size; the result is the output, the group and the
boolean that `sendQueued` returns. -/
def sendQueuedLoop (group : cmdGroup) : Nat → Int → Bytes → Except Fault (Bytes × cmdGroup × Bool)
  | 0, _, out => .ok (out, { group with qidx := group.size }, true)
  | n + 1, i, out =>
    match index group.list i with
    | .error e => .error e
    | .ok command =>
      if command.IsError then
        .ok (AppendCommand out command, group.clear, false)
      else
        sendQueuedLoop group n (int32 (i + 1)) (AppendQueued out)

/-- The method `CmdConn.sendQueued`. -/
def sendQueued (out : Bytes) (group : cmdGroup) : Except Fault (Bytes × cmdGroup × Bool) :=
  let (out, group) :=
    if group.qidx = -1 then (AppendOK out, { group with qidx := 0 }) else (out, group)
  if group.size = 0 then
    .ok (out, group, true)
  else
    sendQueuedLoop group (group.size - group.qidx).toNat group.qidx out

/-- The loop `for _, command := range group.list` of `execute`. -/
def appendAll (out : Bytes) (list : List Command) : Bytes :=
  list.foldl AppendCommand out

/-- The method `CmdConn.execute`; the group is returned as `sendQueued` left it. -/
def execute (out : Bytes) (group : cmdGroup) : Except Fault (Bytes × cmdGroup) :=
  if group.isMulti then
    match sendQueued out group with
    | .error e => .error e
    | .ok (out, group, ok) =>
      if !ok then
        .ok (out, group)
      else
        .ok (appendAll (AppendArray out group.size) group.list, group)
  else
    .ok (appendAll out group.list, group)

/-! ## The connection -/

/-- The type `evio.Action`; `None` is the spec's `Continue`. -/
inductive Action where
  | None
  | Detach
  | Close
  | Shutdown
deriving DecidableEq, Repr

/-- The constant `loopOwner`: the event loop (the spec's Reactor) owns the connection. -/
def loopOwner : Int := 0

/-- The constant `workerOwner`. -/
def workerOwner : Int := 1

/-- The struct `connStats`. -/
structure connStats where
  wakes : Nat := 0
  commands : Nat := 0
  commandsWorker : Nat := 0
  workerDur : Int := 0
  ingress : Nat := 0
  egress : Nat := 0
deriving DecidableEq, Repr

/-- A value travelling on the worker channel: the sentinel `stopMsg` or a group. -/
inductive workerMsg where
  | stop
  | group (g : cmdGroup)
deriving DecidableEq, Repr

/-- The struct `cmdConnWorker`. `ch` and `outCh` are the two FIFO channels, oldest element
first. `isOpen` is the field `open`. `task` is the background goroutine: `none` when none is
running, otherwise the value of the variable `group` that its closure captured, which is the
argument of the `sendToWorker` call that started it. -/
structure cmdConnWorker where
  counter : Int := 0
  ch : List workerMsg := []
  wakeSnapshot : Nat := 0
  wakes : Nat := 0
  isOpen : Bool := false
  outCh : List Bytes := []
  outCount : Int := 0
  task : Option cmdGroup := none
deriving DecidableEq, Repr

/-- The struct `CmdConn`, with the fields `Action` and `Reason` of the embedded
`api.Context`. `ev` tells whether the evio connection is non-nil. -/
structure CmdConn where
  Action : Action := Action.None
  Reason : Option Bytes := none
  ev : Bool := true
  leftovers : Bytes := []
  ownership : Int := loopOwner
  backlog : List cmdGroup := []
  next : Option cmdGroup := none
  worker : cmdConnWorker := {}
  stats : connStats := {}
deriving DecidableEq, Repr

/-- The results of `redcon.ParseNextCommand` that `OnData` uses: `leftover` is the unconsumed
input and `err` the message of the error, if any. -/
structure ParseOut where
  packet : Bytes
  complete : Bool
  args : List Bytes
  leftover : Bytes
  err : Option Bytes

/-- The collaborators of a connection that are not under src/: the RESP codec
`redcon.ParseNextCommand`, the global registry `api.ParseCommand`, the optional `Parse` hook
of the connection's `api.Context`, `strings.ToLower`, and the result of `evio.Conn.Wake`. -/
structure Env where
  ParseNextCommand : Bytes → ParseOut
  ParseCommand : Bytes → List Bytes → Option Command
  Parse : Option (Bytes → List Bytes → Option Command)
  ToLower : Bytes → Bytes
  Wake : Option Bytes

/-- The method `CmdConn.wake`. -/
def wake (env : Env) (c : CmdConn) : CmdConn :=
  if c.ev then
    match env.Wake with
    | some err => { c with Reason := some err, Action := Action.Close }
    | none => c
  else c

/-- The method `CmdConn.sendToWorker`, as far as the calling thread runs it: the counter, the
start of the goroutine when the worker is not open, and the send. `wg.Wait()` cannot return
while an earlier goroutine is still running. -/
def sendToWorker (c : CmdConn) (msg : workerMsg) : Except Fault CmdConn :=
  let w := { c.worker with counter := int32 (c.worker.counter + 1) }
  if !w.isOpen then
    match w.task, msg with
    | some _, _ => .error .blocked
    | none, .group g =>
      .ok { c with worker := { w with isOpen := true, task := some g, ch := w.ch ++ [msg] } }
    | none, .stop =>
      .ok { c with worker := { w with isOpen := true, task := some {}, ch := w.ch ++ [msg] } }
  else
    .ok { c with worker := { w with ch := w.ch ++ [msg] } }

/-- One iteration of the goroutine's `for` loop in `sendToWorker`: receive a message, and
unless it is the stop sentinel, execute and clear the captured `group`, publish the buffer,
and hand the ownership back when the counter reaches zero. -/
def workerStep (env : Env) (c : CmdConn) : Except Fault CmdConn :=
  match c.worker.task with
  | none => .error .blocked
  | some group =>
    match c.worker.ch with
    | [] => .error .blocked
    | .stop :: ch =>
      .ok { c with worker :=
        { c.worker with ch := ch, counter := int32 (c.worker.counter - 1), task := none } }
    | .group _ :: ch =>
      match execute [] group with
      | .error e => .error e
      | .ok (b, group) =>
        let group := group.clear
        let count := int32 (c.worker.counter - 1)
        let wakes := uint64 (c.worker.wakes + 1)
        let c := { c with worker :=
          { c.worker with
            ch := ch, task := some group, counter := count,
            outCount := int32 (c.worker.outCount + 1),
            outCh := c.worker.outCh ++ [b],
            wakes := wakes } }
        let c := if count = 0 then { c with ownership := loopOwner } else c
        if c.worker.wakeSnapshot = uint64pred wakes then
          .ok (wake env c)
        else
          .ok c

/-- The goroutine's loop run for `n` iterations. -/
def workerRun (env : Env) : Nat → CmdConn → Except Fault CmdConn
  | 0, c => .ok c
  | n + 1, c =>
    match workerStep env c with
    | .error e => .error e
    | .ok c => workerRun env n c

/-! ## `OnData` -/

/-- The head of `OnData`: the choice of the parse input. With an empty `in` the leftovers are
assigned to the parameter `in`, which is not read again, and `input` stays nil. The result
is the connection and `input`. -/
def takeInput (c : CmdConn) (data : Bytes) : CmdConn × Bytes :=
  if data.length = 0 then
    ({ c with leftovers := [] }, [])
  else
    let c := { c with stats := { c.stats with ingress := uint64 (c.stats.ingress + data.length) } }
    if c.leftovers.length > 0 then
      ({ c with leftovers := [] }, c.leftovers ++ data)
    else
      (c, data)

/-- The loop `for i := int32(0); i < outCount; i++` of `OnData`: `n` receives from the output
channel, each non-empty buffer appended to `out`. -/
def recvOut : Nat → List Bytes → Bytes → Except Fault (List Bytes × Bytes)
  | 0, outCh, out => .ok (outCh, out)
  | n + 1, outCh, out =>
    match outCh with
    | [] => .error .blocked
    | b :: outCh => recvOut n outCh (if b.length > 0 then out ++ b else out)

/-- The block of `OnData` that compares the wake counters and flushes the worker's writes;
`out` is still nil when it runs. -/
def flushWrites (c : CmdConn) : Except Fault (CmdConn × Bytes) :=
  let wakeSnapshot := c.worker.wakeSnapshot
  let wakes := c.worker.wakes
  if wakeSnapshot < wakes then
    let c := { c with
      stats := { c.stats with wakes := uint64 (c.stats.wakes + 1) },
      worker := { c.worker with wakeSnapshot := wakes } }
    let outCount : Int := c.worker.outCount
    if outCount > 0 then
      match recvOut outCount.toNat c.worker.outCh [] with
      | .error e => .error e
      | .ok (outCh, out) =>
        .ok ({ c with worker :=
          { c.worker with outCh := outCh, outCount := int32 (c.worker.outCount + -outCount) } },
          out)
    else
      .ok (c, [])
  else
    .ok (c, [])

/-- The tail of the parse loop's body, after the `switch`: resolve the command unless the
variable `command` already holds one, and append it to `next`. The variable is declared
before the loop and never reset. The result is `next` and `command`. -/
def resolve (env : Env) (next : cmdGroup) (command : Option Command) (packet : Bytes)
    (args : List Bytes) : cmdGroup × Option Command :=
  let command :=
    match command with
    | some cmd => some cmd
    | none =>
      match env.Parse with
      | none => env.ParseCommand packet args
      | some parse => parse packet args
  let command :=
    match command with
    | some cmd => cmd
    | none => Err (ascii "ERR command '" ++ args.headD [] ++ ascii "' not found")
  ({ next with isWorker := command.IsWorker, list := next.list ++ [command] }, some command)

/-- The body of the parse loop for a complete frame with at least one argument: the
`switch len(args)` with the three control words, then `resolve`. The result is the backlog,
`next` and `command`. -/
def parseFrame (env : Env) (backlog : List cmdGroup) (next : cmdGroup)
    (command : Option Command) (packet : Bytes) (args : List Bytes) :
    List cmdGroup × cmdGroup × Option Command :=
  match args with
  | [name] =>
    if env.ToLower name = ascii "multi" then
      if next.isMulti then
        (backlog, { next with list := next.list ++ [Err (ascii "ERR multi cannot nest")] }, command)
      else
        let (backlog, next) :=
          if next.size > 0 then (backlog ++ [next], ({} : cmdGroup)) else (backlog, next)
        (backlog, { next with isMulti := true, qidx := -1 }, command)
    else if env.ToLower name = ascii "exec" then
      if next.isMulti then
        (backlog ++ [next], {}, command)
      else
        (backlog, { next with list := next.list ++ [Err (ascii "ERR exec not expected")] }, command)
    else if env.ToLower name = ascii "discard" then
      if next.isMulti then
        (backlog, { list := [Ok] }, command)
      else
        (backlog, { next with list := next.list ++ [Err (ascii "ERR discard not expected")] },
          command)
    else
      let (next, command) := resolve env next command packet args
      (backlog, next, command)
  | _ =>
    let (next, command) := resolve env next command packet args
    (backlog, next, command)

/-- The parse loop of `OnData` (label `Parse`), one frame per unit of `fuel`. The result is
the backlog, `next`, the unconsumed `input`, and the codec's error if the loop left through
the error return rather than to `AfterParse`. -/
def parseLoop (env : Env) : Nat → List cmdGroup → cmdGroup → Bytes → Option Command →
    Except Fault (List cmdGroup × cmdGroup × Bytes × Option Bytes)
  | 0, _, _, _, _ => .error .fuel
  | fuel + 1, backlog, next, input, command =>
    let r := env.ParseNextCommand input
    match r.err with
    | some err => .ok (backlog, next, r.leftover, some err)
    | none =>
      if !r.complete then
        .ok (backlog, next, r.leftover, none)
      else
        match r.args with
        | [] => .ok (backlog, next, r.leftover, none)
        | args =>
          let (backlog, next, command) := parseFrame env backlog next command r.packet args
          parseLoop env fuel backlog next r.leftover command

/-- The block after the label `AfterParse`: push or run `next`. The result is the output,
the backlog and `next`. -/
def closeNext (out : Bytes) (backlog : List cmdGroup) (next : cmdGroup) :
    Except Fault (Bytes × List cmdGroup × cmdGroup) :=
  if next.size > 0 then
    if !next.isMulti then
      if !next.isWorker && backlog.length = 0 then
        match execute out next with
        | .error e => .error e
        | .ok (out, next) => .ok (out, backlog, next.clear)
      else
        .ok (out, backlog ++ [next], {})
    else
      .ok (out, backlog, next)
  else
    .ok (out, backlog, next)

/-- The loop labelled `bl`: reply to the commands before the first worker command and slice
the group's list down to the rest. The second argument is the part of the list not yet
visited. -/
def runLeading (group : cmdGroup) : List Command → Bytes → Bytes × cmdGroup
  | [], out => (out, group)
  | command :: rest, out =>
    if command.IsWorker then
      (out, { group with list := command :: rest })
    else
      runLeading group rest (AppendCommand out command)

/-- How one pass of the loop labelled `loop` ends: by `goto loop`, by `break loop` with the
ownership set to the worker, or at the end of the range. -/
inductive loopExit where
  | restart
  | transfer
  | done
deriving DecidableEq, Repr

/-- The body of the loop labelled `loop` for one group. The exit `done` stands for the end
of the body, after which the range goes on with the next group; the group is returned as the
body left it. -/
def drainGroup (group : cmdGroup) (out : Bytes) : Except Fault (loopExit × cmdGroup × Bytes) :=
  if group.isWorker then
    if group.isMulti then
      match sendQueued out group with
      | .error e => .error e
      | .ok (out, group, ok) =>
        if !ok then .ok (.restart, group, out) else .ok (.transfer, group, out)
    else
      let (out, group) := runLeading group group.list out
      .ok (.transfer, group, out)
  else
    if group.isMulti then
      match sendQueued out group with
      | .error e => .error e
      | .ok (out, group, ok) =>
        if !ok then .ok (.restart, group, out)
        else
          match execute out group with
          | .error e => .error e
          | .ok (out, group) => .ok (.done, group, out)
    else
      match execute out group with
      | .error e => .error e
      | .ok (out, group) => .ok (.done, group, out)

/-- One pass of `for index, group = range c.backlog`: `seen` are the groups before `index`
as the pass left them, the third argument the groups from `index` on. The result carries the
backlog as the pass leaves it (sliced to `c.backlog[index:]` on a transfer) and the output. -/
def drainPass (seen : List cmdGroup) : List cmdGroup → Bytes →
    Except Fault (loopExit × List cmdGroup × Bytes)
  | [], out => .ok (.done, seen, out)
  | group :: rest, out =>
    match drainGroup group out with
    | .error e => .error e
    | .ok (exit, group, out) =>
      match exit with
      | .done => drainPass (seen ++ [group]) rest out
      | .restart => .ok (.restart, seen ++ group :: rest, out)
      | .transfer => .ok (.transfer, group :: rest, out)

/-- The loop labelled `loop` with its `goto loop` restarts, one pass per unit of `fuel`. -/
def drain : Nat → List cmdGroup → Bytes → Except Fault (loopExit × List cmdGroup × Bytes)
  | 0, _, _ => .error .fuel
  | fuel + 1, backlog, out =>
    match drainPass [] backlog out with
    | .error e => .error e
    | .ok (.restart, backlog, out) => drain fuel backlog out
    | .ok r => .ok r

/-- The loop `for _, group := range c.backlog { c.sendToWorker(group) }`. -/
def transferAll (c : CmdConn) : List cmdGroup → Except Fault CmdConn
  | [] => .ok c
  | group :: rest =>
    match sendToWorker c (.group group) with
    | .error e => .error e
    | .ok c => transferAll c rest

/-- The call `out, _ = c.sendQueued(out, c.next)` made when `c.next.isMulti`. -/
def ackNext (out : Bytes) (next : cmdGroup) : Except Fault (Bytes × cmdGroup) :=
  if next.isMulti then
    match sendQueued out next with
    | .error e => .error e
    | .ok (out, next, _) => .ok (out, next)
  else
    .ok (out, next)

/-- The block `if ownership == loopOwner` of `OnData`; `ownership` is the snapshot taken at
entry and `c.backlog`, `c.next` hold what `closeNext` left. -/
def dispatch (fuel : Nat) (ownership : Int) (c : CmdConn) (next : cmdGroup) (out : Bytes) :
    Except Fault (CmdConn × cmdGroup × Bytes) :=
  if ownership = loopOwner then
    if c.backlog.length > 0 then
      match drain fuel c.backlog out with
      | .error e => .error e
      | .ok (exit, backlog, out) =>
        if exit = .transfer then
          match transferAll { c with ownership := workerOwner, backlog := backlog } backlog with
          | .error e => .error e
          | .ok c => .ok ({ c with backlog := [] }, next, out)
        else
          match ackNext out next with
          | .error e => .error e
          | .ok (out, next) => .ok ({ c with backlog := [] }, next, out)
    else
      match ackNext out next with
      | .error e => .error e
      | .ok (out, next) => .ok (c, next, out)
  else
    .ok (c, next, out)

/-- The method `CmdConn.OnData`. `fuel` bounds the frames parsed and the passes of the
backlog loop. -/
def OnData (env : Env) (fuel : Nat) (c : CmdConn) (data : Bytes) :
    Except Fault (CmdConn × Bytes × Action) :=
  let action := c.Action
  let ownership := c.ownership
  let (c, input) := takeInput c data
  match flushWrites c with
  | .error e => .error e
  | .ok (c, out) =>
    let next : cmdGroup := c.next.getD {}
    let c := { c with next := some next }
    if action = Action.Close then
      .ok (c, out, action)
    else
      let parsed :=
        if input.length > 0 then parseLoop env fuel c.backlog next input none
        else .ok (c.backlog, next, input, none)
      match parsed with
      | .error e => .error e
      | .ok (backlog, next, _, some err) =>
        .ok ({ c with backlog := backlog, next := some next, Action := Action.Close,
                      Reason := some err },
          AppendError out err, Action.Close)
      | .ok (backlog, next, input, none) =>
        match closeNext out backlog next with
        | .error e => .error e
        | .ok (out, backlog, next) =>
          match dispatch fuel ownership { c with backlog := backlog } next out with
          | .error e => .error e
          | .ok (c, next, out) =>
            let c := { c with next := some next }
            let c := if input.length > 0 then { c with leftovers := c.leftovers ++ input } else c
            let c := { c with stats := { c.stats with egress := uint64 (c.stats.egress + out.length) } }
            .ok (c, out, action)

/-! ## A concrete environment

A RESP codec for requests that are arrays of bulk strings, an ASCII `ToLower` and a small
registry; they instantiate `Env` where a theorem is applied to literal wire bytes. -/

/-- Result of scanning a piece of a frame: more input is needed, the input is malformed, or a
value was read and `rest` follows it. -/
inductive Scan (α : Type) where
  | more
  | bad
  | got (a : α) (rest : Bytes)

/-- Read a decimal number terminated by CR LF. -/
def readNumber : Bytes → Nat → Scan Nat
  | [], _ => .more
  | b :: rest, acc =>
    if b = 13 then
      match rest with
      | [] => .more
      | b2 :: rest2 => if b2 = 10 then .got acc rest2 else .bad
    else if 48 ≤ b ∧ b ≤ 57 then readNumber rest (acc * 10 + (b.toNat - 48))
    else .bad

/-- Read one bulk string `$<len>\r\n<data>\r\n`. -/
def readBulk : Bytes → Scan Bytes
  | [] => .more
  | b :: rest =>
    if b = 36 then
      match readNumber rest 0 with
      | .more => .more
      | .bad => .bad
      | .got n rest =>
        if rest.length < n + 2 then .more
        else if (rest.drop n).take 2 = crlf then .got (rest.take n) (rest.drop (n + 2))
        else .bad
    else .bad

/-- Read `n` bulk strings. -/
def readBulks : Nat → Bytes → Scan (List Bytes)
  | 0, input => .got [] input
  | n + 1, input =>
    match readBulk input with
    | .more => .more
    | .bad => .bad
    | .got arg rest =>
      match readBulks n rest with
      | .more => .more
      | .bad => .bad
      | .got args rest => .got (arg :: args) rest

/-- Modelled from the spec: the RESP codec is not under src/; a request is an array of bulk
strings, an incomplete frame is reported with the whole input as its tail, and a malformed
frame is an error. -/
def respCodec (input : Bytes) : ParseOut :=
  let incomplete : ParseOut :=
    { packet := [], complete := false, args := [], leftover := input, err := none }
  let malformed : ParseOut :=
    { packet := [], complete := false, args := [], leftover := input,
      err := some (ascii "ERR Protocol error") }
  match input with
  | [] => incomplete
  | b :: rest =>
    if b = 42 then
      match readNumber rest 0 with
      | .more => incomplete
      | .bad => malformed
      | .got n rest =>
        match readBulks n rest with
        | .more => incomplete
        | .bad => malformed
        | .got args rest =>
          { packet := input.take (input.length - rest.length), complete := true, args := args,
            leftover := rest, err := none }
    else malformed

/-- Lower-casing of the ASCII letters, the behaviour of `strings.ToLower` on ASCII text. -/
def asciiLower (name : Bytes) : Bytes :=
  name.map (fun b => if 65 ≤ b ∧ b ≤ 90 then b + 32 else b)

/-- A fast command replying `+PONG`. -/
def pingCmd : Command :=
  { IsWorker := false, IsError := false, reply := ascii "+PONG" ++ crlf }

/-- A fast command replying the integer 1. -/
def oneCmd : Command :=
  { IsWorker := false, IsError := false, reply := ascii ":1" ++ crlf }

/-- A worker command replying `+DONE`. -/
def slowCmd : Command :=
  { IsWorker := true, IsError := false, reply := ascii "+DONE" ++ crlf }

/-- A registry with the three commands `PING`, `ONE` and `SLOW`. -/
def demoRegistry (_packet : Bytes) (args : List Bytes) : Option Command :=
  match args with
  | [] => none
  | name :: _ =>
    if asciiLower name = ascii "ping" then some pingCmd
    else if asciiLower name = ascii "one" then some oneCmd
    else if asciiLower name = ascii "slow" then some slowCmd
    else none

/-- The environment made of `respCodec`, `demoRegistry` and `asciiLower`, with no `Parse`
hook and a `Wake` that succeeds. -/
def demoEnv : Env :=
  { ParseNextCommand := respCodec, ParseCommand := demoRegistry, Parse := none,
    ToLower := asciiLower, Wake := none }

/-- The wire bytes of a request: an array of bulk strings. -/
def frame (args : List String) : Bytes :=
  ascii "*" ++ natDigits args.length ++ crlf ++
    (args.map (fun a => ascii "$" ++ natDigits a.length ++ crlf ++ ascii a ++ crlf)).flatten

/-! ## Runs and sample inputs -/

/-- Successive `OnData` calls, one per chunk, with no worker step in between; the result is
the final connection and the output of each call. -/
def feed (env : Env) (fuel : Nat) : CmdConn → List Bytes → Except Fault (CmdConn × List Bytes)
  | c, [] => .ok (c, [])
  | c, data :: rest =>
    match OnData env fuel c data with
    | .error e => .error e
    | .ok (c, out, _) =>
      match feed env fuel c rest with
      | .error e => .error e
      | .ok (c, outs) => .ok (c, out :: outs)

/-- A non-MULTI worker group holding `SLOW`. -/
def slowGroup : cmdGroup := { isWorker := true, list := [slowCmd] }

/-- A non-MULTI worker group holding `SLOW` and `PING`. -/
def slowPingGroup : cmdGroup := { isWorker := true, list := [slowCmd, pingCmd] }

/-- A MULTI group holding `PING`, no acknowledgement sent yet. -/
def multiPing : cmdGroup := { isMulti := true, qidx := -1, list := [pingCmd] }

/-- A MULTI group holding an error command, no acknowledgement sent yet. -/
def multiBad : cmdGroup := { isMulti := true, qidx := -1, list := [Err (ascii "ERR bad")] }

/-- A MULTI group holding `PING` and `ONE`, no acknowledgement sent yet. -/
def multiPingOne : cmdGroup := { isMulti := true, qidx := -1, list := [pingCmd, oneCmd] }

/-- A MULTI group whose second command is an error command. -/
def multiPingBadOne : cmdGroup :=
  { isMulti := true, qidx := -1, list := [pingCmd, Err (ascii "ERR bad"), oneCmd] }

/-- A MULTI group without commands, no acknowledgement sent yet. -/
def multiEmpty : cmdGroup := { isMulti := true, qidx := -1 }

/-- A non-MULTI worker group holding `PING`, `SLOW` and `ONE`. -/
def mixedGroup : cmdGroup := { isWorker := true, list := [pingCmd, slowCmd, oneCmd] }

/-- The connection that `OnData` leaves after one `SLOW` frame on a fresh connection. -/
def afterSlow : CmdConn :=
  { ownership := workerOwner, next := some {},
    worker := { counter := 1, ch := [.group slowGroup], isOpen := true, task := some slowGroup },
    stats := { ingress := 14 } }

/-- Two `SLOW` requests on a fresh connection with the worker running in between: `OnData`
with the first, one worker iteration, `OnData` with the second, one worker iteration, and the
wake call with no data. The result is the three outputs and the final connection. -/
def slowTwice : Except Fault (List Bytes × CmdConn) :=
  match OnData demoEnv 4 {} (frame ["SLOW"]) with
  | .error e => .error e
  | .ok (c, out1, _) =>
    match workerStep demoEnv c with
    | .error e => .error e
    | .ok c =>
      match OnData demoEnv 4 c (frame ["SLOW"]) with
      | .error e => .error e
      | .ok (c, out2, _) =>
        match workerStep demoEnv c with
        | .error e => .error e
        | .ok c =>
          match OnData demoEnv 4 c [] with
          | .error e => .error e
          | .ok (c, out3, _) => .ok ([out1, out2, out3], c)

/-- The bytes that running a group produces: what `execute` appends to an empty buffer. -/
def outputOf (group : cmdGroup) : Bytes :=
  match execute [] group with
  | .ok (out, _) => out
  | .error _ => []

/-- A group that `sendQueued` does not abort: fewer than 2^31 commands and, for a MULTI group,
a cursor between `-1` and the size with no error command from `max(qidx,0)` on. -/
def noAbort (group : cmdGroup) : Prop :=
  group.list.length < 2147483648 ∧
    (group.isMulti = true → -1 ≤ group.qidx ∧ group.qidx ≤ group.size ∧
      ∀ command ∈ group.list.drop (max group.qidx 0).toNat, command.IsError = false)

/-! ## The phases of `OnData`, the step model and further sample inputs -/

/-- The variable `maxCommandBacklog`; no function of the source reads it. -/
def maxCommandBacklog : Nat := 10000

deriving instance DecidableEq for ParseOut

/-- The last statements of `OnData`, from the check for leftovers to the egress counter: the
connection that the call leaves, given what `dispatch` returned and the unconsumed input. -/
def finishCall (c : CmdConn) (next : cmdGroup) (input out : Bytes) : CmdConn :=
  let c := { c with next := some next }
  let c := if input.length > 0 then { c with leftovers := c.leftovers ++ input } else c
  { c with stats := { c.stats with egress := uint64 (c.stats.egress + out.length) } }

/-- The parse step of `OnData`: the parse loop when there is input, nothing otherwise. -/
def parseInput (env : Env) (fuel : Nat) (backlog : List cmdGroup) (next : cmdGroup)
    (input : Bytes) : Except Fault (List cmdGroup × cmdGroup × Bytes × Option Bytes) :=
  if input.length > 0 then parseLoop env fuel backlog next input none
  else .ok (backlog, next, input, none)

/-- The codec result that ends the parse loop without an error: an incomplete frame or a
frame without arguments. -/
def stops (r : ParseOut) : Prop := r.err = none ∧ (r.complete = false ∨ r.args = [])

/-- The frame is one of the control words: a single argument that `ToLower` maps to `multi`,
`exec` or `discard`. -/
def isControl (env : Env) (args : List Bytes) : Prop :=
  ∃ name, args = [name] ∧
    (env.ToLower name = ascii "multi" ∨ env.ToLower name = ascii "exec" ∨
      env.ToLower name = ascii "discard")

/-- The command that the parse loop resolves for a frame when its variable `command` is
still nil: the `Parse` hook or the registry, else the error command for an unknown name. -/
def lookup (env : Env) (packet : Bytes) (args : List Bytes) : Command :=
  (resolve env {} none packet args).1.list.headD Ok

/-- A loop-owned connection at rest: action `None`, empty backlog, an empty group under
construction that is neither MULTI nor worker-bound, and no wake pending. -/
def idle (c : CmdConn) : Prop :=
  c.Action = Action.None ∧ c.ownership = loopOwner ∧ c.backlog = [] ∧
    (c.next.getD {}).list = [] ∧ (c.next.getD {}).isMulti = false ∧
    (c.next.getD {}).isWorker = false ∧ c.worker.wakes ≤ c.worker.wakeSnapshot

/-- The frame of `PING` cut into chunks of one byte. -/
def pingBytewise : List Bytes := (frame ["PING"]).map (fun b => [b])

/-- A worker-owned connection whose backlog holds one group more than `maxCommandBacklog`. -/
def overfullConn : CmdConn :=
  { ownership := workerOwner, backlog := List.replicate (maxCommandBacklog + 1) slowGroup }

/-- One step of the connection's step model: one call of `OnData`, with any data, or one
iteration of the worker's loop, the latter only in a state that `ok` admits. -/
inductive Step (env : Env) (ok : CmdConn → Prop) : CmdConn → CmdConn → Prop where
  | onData (fuel : Nat) (data : Bytes) (c c2 : CmdConn) (out : Bytes) (a : Action) :
      OnData env fuel c data = .ok (c2, out, a) → Step env ok c c2
  | worker (c c2 : CmdConn) : ok c → workerStep env c = .ok c2 → Step env ok c c2

/-- The states that the step model reaches from `c0`. -/
inductive Reachable (env : Env) (ok : CmdConn → Prop) (c0 : CmdConn) : CmdConn → Prop where
  | start : Reachable env ok c0 c0
  | step (c c2 : CmdConn) : Reachable env ok c0 c → Step env ok c c2 → Reachable env ok c0 c2

/-- The counter `wakes` is below the largest `uint64`: the next increment does not wrap. -/
def wakesFit (c : CmdConn) : Prop := c.worker.wakes + 1 < 18446744073709551616

/-- The output queue holds fewer buffers than the largest `int32`: the next increment of
`outCount` does not wrap. -/
def outFits (c : CmdConn) : Prop := c.worker.outCh.length + 1 < 2147483648

/-- Both counters have room for one more worker iteration. -/
def countersFit (c : CmdConn) : Prop := wakesFit c ∧ outFits c

/-- The hand-off state of the worker: `outCount` is the number of queued buffers, the
snapshot is not ahead of `wakes`, and the queue is empty when the two are equal. -/
def handOff (c : CmdConn) : Prop :=
  c.worker.outCount = c.worker.outCh.length ∧ c.worker.wakeSnapshot ≤ c.worker.wakes ∧
    (c.worker.wakeSnapshot = c.worker.wakes → c.worker.outCh = [])

/-- Two worker records agree on the wake counters, the output queue and its count. -/
def sameOut (a b : cmdConnWorker) : Prop :=
  a.wakes = b.wakes ∧ a.wakeSnapshot = b.wakeSnapshot ∧ a.outCh = b.outCh ∧
    a.outCount = b.outCount

/-- The connection after one `SLOW` frame on a fresh connection and one iteration of the
worker's loop: the reply of `SLOW` waits in the output queue. -/
def slowServed : CmdConn :=
  { ownership := loopOwner, next := some {},
    worker := { counter := 0, ch := [], wakes := 1, isOpen := true,
                outCh := [ascii "+DONE\r\n"], outCount := 1, task := some { qidx := -1 } },
    stats := { ingress := 14 } }

/-- The error that the codec reports when it is asked frame by frame, within `n` frames:
every frame in front of the failing one is complete and carries at least one argument. An
incomplete frame or a frame without arguments ends the walk without an error. -/
def firstError (env : Env) : Nat → Bytes → Option Bytes
  | 0, _ => none
  | n + 1, input =>
    match (env.ParseNextCommand input).err with
    | some err => some err
    | none =>
      if (env.ParseNextCommand input).complete = true ∧ (env.ParseNextCommand input).args ≠ []
      then firstError env n (env.ParseNextCommand input).leftover
      else none

/-- The number of MULTI groups in a backlog. -/
def multiCount (backlog : List cmdGroup) : Nat := backlog.countP (fun g => g.isMulti)

/-- A group whose cursor and size are representable: the cursor is at least -1 and the list
has fewer than 2^31 commands. -/
def wellFormed (g : cmdGroup) : Prop := -1 ≤ g.qidx ∧ g.list.length < 2147483648

/-! ## The commands `RaftRemove` and `RaftBootstrap` (`app/cmd`) -/

/-- The digit loop of `strconv.Atoi`: every byte must be a decimal digit. -/
def atoiDigits : Bytes → Nat → Option Nat
  | [], acc => some acc
  | b :: rest, acc =>
    if 48 ≤ b ∧ b ≤ 57 then atoiDigits rest (acc * 10 + (b.toNat - 48)) else none

/-- Modelled from the Go library: `strconv.Atoi` is not under src/. An optional sign, then at
least one decimal digit and nothing else; a value outside the 64-bit `int` is an error. The
result is `none` where `Atoi` returns an error. -/
def atoi (s : Bytes) : Option Int :=
  match s with
  | [] => none
  | b :: rest =>
    let neg := decide (b = 45)
    let digits := if b = 45 ∨ b = 43 then rest else s
    if digits = [] then none
    else
      match atoiDigits digits 0 with
      | none => none
      | some n =>
        if neg then
          if n ≤ 9223372036854775808 then some (-(n : Int)) else none
        else
          if n < 9223372036854775808 then some (n : Int) else none

/-- Modelled from the spec: `redcon.AppendBulkString` is not under src/; a bulk string is
`$<len>\r\n<data>\r\n`. -/
def AppendBulkString (out : Bytes) (s : Bytes) : Bytes :=
  out ++ ascii "$" ++ natDigits s.length ++ crlf ++ s ++ crlf

/-- Modelled from the spec: `redcon.AppendBulkInt32` is not under src/; the number is sent as
the bulk string of its decimal rendering. -/
def AppendBulkInt32 (out : Bytes) (n : Int) : Bytes := AppendBulkString out (itoa n)

/-- The RESP request that carries the given arguments: an array of bulk strings. -/
def bulkArray (args : List Bytes) : Bytes :=
  args.foldl AppendBulkString (AppendArray [] args.length)

/-- The struct `api.RaftID`, two `int32` fields. -/
structure RaftID where
  Schema : Int := 0
  Slice : Int := 0
deriving DecidableEq, Repr

/-- The variable `api.GlobalRaftID`, not under src/: schema and slice -1, as the comments in
`Parse` state. -/
def GlobalRaftID : RaftID := { Schema := -1, Slice := -1 }

/-- The struct `RaftRemove`, without the cached service. -/
structure RaftRemove where
  ID : RaftID := {}
  Address : Bytes := []
deriving DecidableEq, Repr

/-- The method `RaftRemove.Marshal`; `name` is the constant `api.RaftRemoveName`, which is
not under src/. -/
def RaftRemove.Marshal (name : Bytes) (buf : Bytes) (c : RaftRemove) : Bytes :=
  if c.ID.Schema < 0 then
    let buf := AppendArray buf 2
    let buf := AppendBulkString buf name
    AppendBulkString buf c.Address
  else
    let buf := AppendArray buf 4
    let buf := AppendBulkString buf name
    let buf := AppendBulkInt32 buf c.ID.Schema
    let buf := AppendBulkInt32 buf c.ID.Slice
    AppendBulkString buf c.Address

/-- The method `RaftRemove.Parse`: the error is the message of the `Err` command returned.
Both parsed numbers are assigned to `cmd.ID.Schema`, and both messages quote `args[2]`. -/
def RaftRemove.Parse (args : List Bytes) : Except Bytes RaftRemove :=
  let cmd : RaftRemove := {}
  match args with
  | [_, address] =>
    let cmd := { cmd with ID := GlobalRaftID }
    let cmd := { cmd with Address := address }
    .ok cmd
  | [_, schema, slice, address] =>
    match atoi schema with
    | none => .error (ascii "ERR invalid schema id: " ++ slice)
    | some schemaID =>
      let cmd := { cmd with ID := { cmd.ID with Schema := int32 schemaID } }
      match atoi slice with
      | none => .error (ascii "ERR invalid slice id: " ++ slice)
      | some sliceID =>
        let cmd := { cmd with ID := { cmd.ID with Schema := int32 sliceID } }
        let cmd := { cmd with Address := address }
        .ok cmd
  | _ => .error (ascii "ERR invalid params")

/-- The struct `RaftBootstrap`, without the cached service. -/
structure RaftBootstrap where
  ID : RaftID := {}
deriving DecidableEq, Repr

/-- The method `RaftBootstrap.Marshal`; `name` is the constant `api.RaftBootstrap`, which is
not under src/. -/
def RaftBootstrap.Marshal (name : Bytes) (buf : Bytes) (c : RaftBootstrap) : Bytes :=
  if c.ID.Schema < 0 then
    let buf := AppendArray buf 1
    AppendBulkString buf name
  else
    let buf := AppendArray buf 3
    let buf := AppendBulkString buf name
    let buf := AppendBulkInt32 buf c.ID.Schema
    AppendBulkInt32 buf c.ID.Slice

/-- The method `RaftBootstrap.Parse`: the error is the message of the `Err` command
returned. -/
def RaftBootstrap.Parse (args : List Bytes) : Except Bytes RaftBootstrap :=
  let cmd : RaftBootstrap := {}
  match args with
  | [_] => .ok { cmd with ID := GlobalRaftID }
  | [_, schema, slice] =>
    match atoi schema with
    | none => .error (ascii "ERR invalid schema id: " ++ schema)
    | some schemaID =>
      let cmd := { cmd with ID := { cmd.ID with Schema := int32 schemaID } }
      match atoi slice with
      | none => .error (ascii "ERR invalid slice id: " ++ slice)
      | some sliceID => .ok { cmd with ID := { cmd.ID with Slice := int32 sliceID } }
  | _ => .error (ascii "ERR expected 0 or 2 params")

/-- The argument list that `RaftRemove.Marshal` encodes. -/
def RaftRemove.args (name : Bytes) (c : RaftRemove) : List Bytes :=
  if c.ID.Schema < 0 then [name, c.Address]
  else [name, itoa c.ID.Schema, itoa c.ID.Slice, c.Address]

/-- The argument list that `RaftBootstrap.Marshal` encodes. -/
def RaftBootstrap.args (name : Bytes) (c : RaftBootstrap) : List Bytes :=
  if c.ID.Schema < 0 then [name] else [name, itoa c.ID.Schema, itoa c.ID.Slice]

/-! ## Facts shared by the proofs -/

/-! ## Arithmetic and list facts used by the proofs -/

theorem int32_wrap (n : Int) : int32 n = (n + 2147483648) % 4294967296 - 2147483648 := by
  unfold int32
  cases n with
  | ofNat m =>
    simp only [Int.ofNat_eq_coe]
    split <;> omega
  | negSucc m =>
    simp only []
    split
    · have h := Int.negSucc_eq m
      omega
    · rfl

theorem int32_eq_self (n : Int) (h0 : -2147483648 ≤ n) (h1 : n < 2147483648) : int32 n = n := by
  rw [int32_wrap]
  omega

theorem size_eq_length (group : cmdGroup) (h : group.list.length < 2147483648) :
    group.size = group.list.length := by
  unfold cmdGroup.size
  apply int32_eq_self <;> omega

theorem index_natCast (list : List Command) (k : Nat) (command : Command)
    (h : list[k]? = some command) : index list (k : Int) = .ok command := by
  unfold index
  have : ¬ ((k : Int) < 0) := by omega
  simp [this, h]

theorem appendAll_eq (out : Bytes) (list : List Command) :
    appendAll out list = out ++ (list.map Command.reply).flatten := by
  unfold appendAll
  induction list generalizing out with
  | nil => simp
  | cons command rest ih => simp [List.foldl_cons, ih, AppendCommand, List.append_assoc]

/-- The acknowledgement loop on a tail without error commands appends one `+QUEUED` per
command and moves the cursor to the size. -/
theorem sendQueuedLoop_queued (group : cmdGroup) (hlen : group.list.length < 2147483648) :
    ∀ (n k : Nat) (out : Bytes), k + n = group.list.length →
      (∀ command ∈ group.list.drop k, command.IsError = false) →
      sendQueuedLoop group n (k : Int) out =
        .ok (out ++ (List.replicate n (AppendQueued [])).flatten,
          { group with qidx := group.size }, true) := by
  intro n
  induction n with
  | zero => intro k out _ _; simp [sendQueuedLoop]
  | succ n ih =>
    intro k out hk hno
    have hklt : k < group.list.length := by omega
    have hget : group.list[k]? = some group.list[k] := List.getElem?_eq_getElem hklt
    have hmem : group.list[k] ∈ group.list.drop k := by
      rw [List.drop_eq_getElem_cons hklt]
      exact List.mem_cons_self _ _
    have hne : (group.list[k]).IsError = false := hno _ hmem
    have hstep : int32 ((k : Int) + 1) = ((k + 1 : Nat) : Int) := by
      rw [int32_eq_self] <;> push_cast <;> omega
    have hrest : ∀ command ∈ group.list.drop (k + 1), command.IsError = false := by
      intro command hc
      apply hno
      rw [List.drop_eq_getElem_cons hklt]
      exact List.mem_cons_of_mem _ hc
    rw [sendQueuedLoop, index_natCast _ _ _ hget]
    simp only [hne, Bool.false_eq_true, if_false]
    rw [hstep, ih (k + 1) _ (by omega) hrest]
    simp [AppendQueued, List.replicate_succ, List.append_assoc]

/-- The acknowledgement loop that meets its first error command at index `j` appends one
`+QUEUED` per command before it, then the error reply, and clears the group. -/
theorem sendQueuedLoop_abort (group : cmdGroup) (hlen : group.list.length < 2147483648)
    (j : Nat) (bad : Command) (hj : group.list[j]? = some bad) (hbad : bad.IsError = true) :
    ∀ (n k : Nat) (out : Bytes), k ≤ j → j < k + n →
      (∀ i command, k ≤ i → i < j → group.list[i]? = some command → command.IsError = false) →
      sendQueuedLoop group n (k : Int) out =
        .ok (out ++ (List.replicate (j - k) (AppendQueued [])).flatten ++ bad.reply,
          group.clear, false) := by
  intro n
  induction n with
  | zero => intro k out h1 h2; omega
  | succ n ih =>
    intro k out hkj hjn hno
    have hjlt : j < group.list.length := by
      rcases Nat.lt_or_ge j group.list.length with h | h
      · exact h
      · rw [List.getElem?_eq_none h] at hj; cases hj
    rcases Nat.eq_or_lt_of_le hkj with heq | hlt
    · subst heq
      rw [sendQueuedLoop, index_natCast _ _ _ hj]
      simp [hbad, AppendCommand]
    · have hklt : k < group.list.length := by omega
      have hget : group.list[k]? = some group.list[k] := List.getElem?_eq_getElem hklt
      have hne : (group.list[k]).IsError = false := hno k _ (le_refl _) hlt hget
      have hstep : int32 ((k : Int) + 1) = ((k + 1 : Nat) : Int) := by
        rw [int32_eq_self] <;> push_cast <;> omega
      rw [sendQueuedLoop, index_natCast _ _ _ hget]
      simp only [hne, Bool.false_eq_true, if_false]
      rw [hstep, ih (k + 1) _ (by omega) (by omega)
        (fun i command h1 h2 h3 => hno i command (by omega) h2 h3)]
      have hsplit : j - k = (j - (k + 1)) + 1 := by omega
      rw [hsplit]
      simp [AppendQueued, List.replicate_succ, List.append_assoc]

theorem AppendArray_natCast (out : Bytes) (n : Nat) :
    AppendArray out (n : Int) = out ++ (ascii "*" ++ natDigits n ++ crlf) := by
  have h : ¬ ((n : Int) < 0) := by omega
  simp [AppendArray, itoa, h, List.append_assoc]

/-- A call of `sendQueued` on a group whose cursor already stands at the size appends
nothing. -/
theorem sendQueued_at_size (out2 : Bytes) (group : cmdGroup) (q : Int) (hq : q = group.size)
    (h0 : 0 ≤ q) :
    sendQueued out2 { group with qidx := q } = .ok (out2, { group with qidx := q }, true) := by
  have hne : q ≠ -1 := by omega
  have hsz : cmdGroup.size { group with qidx := q } = q := by
    rw [hq]; simp only [cmdGroup.size]
  unfold sendQueued
  simp only [hne, if_false, hsz]
  by_cases hz : q = 0
  · simp only [hz, if_true]
  · have hn : (q - q).toNat = 0 := by simp
    simp only [hz, if_false, hn, sendQueuedLoop, hsz]

/-- The success case of `sendQueued`, shared by the theorems on `sendQueued`, `execute` and
the backlog loop. -/
theorem sendQueued_queued_all (out : Bytes) (group : cmdGroup)
    (hlen : group.list.length < 2147483648)
    (hlo : -1 ≤ group.qidx) (hhi : group.qidx ≤ group.size)
    (hno : ∀ command ∈ group.list.drop (max group.qidx 0).toNat, command.IsError = false) :
    sendQueued out group =
        .ok (out ++ (if group.qidx = -1 then AppendOK [] else []) ++
              (List.replicate (group.size - max group.qidx 0).toNat (AppendQueued [])).flatten,
            { group with qidx := group.size }, true) ∧
      ∀ out2 : Bytes, sendQueued out2 { group with qidx := group.size } =
        .ok (out2, { group with qidx := group.size }, true) := by
  have hsize := size_eq_length group hlen
  constructor
  · by_cases hq : group.qidx = -1
    · have hmax : (max group.qidx 0).toNat = 0 := by rw [hq]; rfl
      rw [hmax] at hno
      have hsz : cmdGroup.size { group with qidx := 0 } = group.size := rfl
      unfold sendQueued
      simp only [hq, if_true, hsz]
      by_cases h0 : group.size = 0
      · simp [h0, AppendOK]
      · simp only [h0, if_false]
        have hn : (group.size - 0).toNat = group.list.length := by rw [hsize]; simp
        have hloop := sendQueuedLoop_queued { group with qidx := 0 } hlen group.list.length 0
          (AppendOK out) (by simp) hno
        rw [hn]
        have hz : ((0 : Nat) : Int) = 0 := rfl
        rw [hz] at hloop
        rw [hloop]
        have h1 : (group.size - max (-1) 0).toNat = group.list.length := by
          rw [hsize]; simp
        simp [h1, AppendOK, hsz, hsize, List.append_assoc]
    · obtain ⟨k, hk⟩ : ∃ k : Nat, group.qidx = (k : Int) := ⟨group.qidx.toNat, by omega⟩
      have hmax : (max group.qidx 0).toNat = k := by rw [hk]; simp
      rw [hmax] at hno
      have hkle : k ≤ group.list.length := by rw [hsize, hk] at hhi; omega
      unfold sendQueued
      simp only [hq, if_false]
      by_cases h0 : group.size = 0
      · have hk0 : group.qidx = group.size := by rw [hsize] at h0 hhi ⊢; omega
        have hm : (group.size - max group.qidx 0).toNat = 0 := by rw [hk0, h0]; simp
        simp only [h0, if_true, hm]
        rw [← h0, ← hk0]
        simp
      · simp only [h0, if_false]
        have hn : (group.size - group.qidx).toNat = group.list.length - k := by
          rw [hsize, hk]; omega
        rw [hn, hk, sendQueuedLoop_queued group hlen (group.list.length - k) k out (by omega) hno]
        have h1 : (group.size - max (k : Int) 0).toNat = group.list.length - k := by
          rw [hsize]; omega
        simp [h1, hsize]
  · intro out2
    exact sendQueued_at_size out2 group group.size rfl (by rw [hsize]; omega)

/-- The abort case of `sendQueued`: the first error command from the cursor on stands at
index `j`. -/
theorem sendQueued_first_error (out : Bytes) (group : cmdGroup) (j : Nat) (bad : Command)
    (hlen : group.list.length < 2147483648) (hlo : -1 ≤ group.qidx)
    (hqj : (max group.qidx 0).toNat ≤ j)
    (hj : group.list[j]? = some bad) (hbad : bad.IsError = true)
    (hfirst : ∀ i command, (max group.qidx 0).toNat ≤ i → i < j →
      group.list[i]? = some command → command.IsError = false) :
    sendQueued out group =
      .ok (out ++ (if group.qidx = -1 then AppendOK [] else []) ++
            (List.replicate (j - (max group.qidx 0).toNat) (AppendQueued [])).flatten ++
            bad.reply,
          { isMulti := false, isWorker := false, qidx := -1, list := [] }, false) := by
  have hsize := size_eq_length group hlen
  have hjlt : j < group.list.length := by
    rcases Nat.lt_or_ge j group.list.length with h | h
    · exact h
    · rw [List.getElem?_eq_none h] at hj; cases hj
  have h0 : group.size ≠ 0 := by rw [hsize]; omega
  by_cases hq : group.qidx = -1
  · have hmax : (max group.qidx 0).toNat = 0 := by rw [hq]; rfl
    rw [hmax] at hqj hfirst
    have hsz : cmdGroup.size { group with qidx := 0 } = group.size := rfl
    unfold sendQueued
    simp only [hq, if_true, hsz, h0, if_false]
    have hn : (group.size - 0).toNat = group.list.length := by rw [hsize]; simp
    have hloop := sendQueuedLoop_abort { group with qidx := 0 } hlen j bad hj hbad
      group.list.length 0 (AppendOK out) (Nat.zero_le _) (by omega) hfirst
    have hz : ((0 : Nat) : Int) = 0 := rfl
    rw [hz] at hloop
    rw [hn, hloop]
    simp [AppendOK, cmdGroup.clear, List.append_assoc]
  · obtain ⟨k, hk⟩ : ∃ k : Nat, group.qidx = (k : Int) := ⟨group.qidx.toNat, by omega⟩
    have hmax : (max group.qidx 0).toNat = k := by rw [hk]; simp
    rw [hmax] at hqj hfirst
    unfold sendQueued
    simp only [hq, if_false, h0]
    have hn : (group.size - group.qidx).toNat = group.list.length - k := by
      rw [hsize, hk]; omega
    rw [hn, hk, sendQueuedLoop_abort group hlen j bad hj hbad (group.list.length - k) k out hqj
      (by omega) hfirst]
    simp [cmdGroup.clear, hmax]

/-- `execute` on a group that `sendQueued` does not abort. -/
theorem execute_ok (out : Bytes) (group : cmdGroup)
    (hlen : group.list.length < 2147483648)
    (hq : group.isMulti = true → -1 ≤ group.qidx ∧ group.qidx ≤ group.size ∧
      ∀ command ∈ group.list.drop (max group.qidx 0).toNat, command.IsError = false) :
    execute out group =
      if group.isMulti then
        .ok (out ++ (if group.qidx = -1 then AppendOK [] else []) ++
              (List.replicate (group.size - max group.qidx 0).toNat (AppendQueued [])).flatten ++
              (ascii "*" ++ natDigits group.list.length ++ crlf) ++
              (group.list.map Command.reply).flatten,
            { group with qidx := group.size })
      else
        .ok (out ++ (group.list.map Command.reply).flatten, group) := by
  by_cases hm : group.isMulti = true
  · obtain ⟨hlo, hhi, hno2⟩ := hq hm
    have hs := (sendQueued_queued_all out group hlen hlo hhi hno2).1
    have hsize := size_eq_length group hlen
    unfold execute
    simp only [hm, if_true, hs]
    simp only [Bool.not_true, Bool.false_eq_true, if_false]
    have hsz : ∀ (a b : Bool) (q : Int),
        cmdGroup.size { isMulti := a, isWorker := b, qidx := q, list := group.list } =
          (group.list.length : Int) := by
      intro a b q
      simp only [cmdGroup.size]; exact hsize
    simp only [hsz, AppendArray_natCast, appendAll_eq, List.append_assoc]
  · have hm2 : group.isMulti = false := by simpa using hm
    unfold execute
    simp [hm2, appendAll_eq]

/-- The output of `execute` on a group that is not aborted is the given buffer followed by
`outputOf` the group. -/
theorem execute_append (out : Bytes) (group : cmdGroup) (h : noAbort group) :
    execute out group =
      .ok (out ++ outputOf group,
        if group.isMulti then { group with qidx := group.size } else group) := by
  obtain ⟨hlen, hq⟩ := h
  have h1 := execute_ok out group hlen hq
  have h2 := execute_ok [] group hlen hq
  unfold outputOf
  rw [h1, h2]
  by_cases hm : group.isMulti = true
  · simp [hm, List.append_assoc]
  · have hm2 : group.isMulti = false := by simpa using hm
    simp [hm2]

/-- The loop `bl` replies to the commands before the first worker command and slices the
list down to the rest. -/
theorem runLeading_split (group : cmdGroup) (w : Command) (r : List Command)
    (hw : w.IsWorker = true) :
    ∀ (p : List Command) (out : Bytes), (∀ command ∈ p, command.IsWorker = false) →
      runLeading group (p ++ w :: r) out =
        (out ++ (p.map Command.reply).flatten, { group with list := w :: r }) := by
  intro p
  induction p with
  | nil => intro out _; simp [runLeading, hw]
  | cons command rest ih =>
    intro out hp
    have hc : command.IsWorker = false := hp command (List.mem_cons_self _ _)
    have hrest : ∀ x ∈ rest, x.IsWorker = false :=
      fun x hx => hp x (List.mem_cons_of_mem _ hx)
    rw [List.cons_append, runLeading]
    simp only [hc, Bool.false_eq_true, if_false]
    rw [ih _ hrest]
    simp [AppendCommand, List.append_assoc]

/-- What the backlog loop does with a MULTI group that is not aborted: `sendQueued` succeeds
and `execute` then appends the rest of the group's output. -/
theorem drainStep_multi (out : Bytes) (group : cmdGroup) (h : noAbort group)
    (hm : group.isMulti = true) :
    ∃ out1, sendQueued out group = .ok (out1, { group with qidx := group.size }, true) ∧
      execute out1 { group with qidx := group.size } =
        .ok (out ++ outputOf group, { group with qidx := group.size }) := by
  obtain ⟨hlen, hq⟩ := h
  obtain ⟨hlo, hhi, hno⟩ := hq hm
  have hsize := size_eq_length group hlen
  have hs := (sendQueued_queued_all out group hlen hlo hhi hno).1
  refine ⟨_, hs, ?_⟩
  have hat := sendQueued_at_size
    (out ++ (if group.qidx = -1 then AppendOK [] else []) ++
      (List.replicate (group.size - max group.qidx 0).toNat (AppendQueued [])).flatten)
    group group.size rfl (by rw [hsize]; omega)
  have hout : outputOf group =
      (if group.qidx = -1 then AppendOK [] else []) ++
        (List.replicate (group.size - max group.qidx 0).toNat (AppendQueued [])).flatten ++
        (ascii "*" ++ natDigits group.list.length ++ crlf) ++
        (group.list.map Command.reply).flatten := by
    unfold outputOf
    rw [execute_ok [] group hlen hq]
    simp [hm]
  have hsz : ∀ (a b : Bool) (q : Int),
      cmdGroup.size { isMulti := a, isWorker := b, qidx := q, list := group.list } =
        (group.list.length : Int) := by
    intro a b q
    simp only [cmdGroup.size]; exact hsize
  unfold execute
  simp only [hm, if_true] at hat ⊢
  rw [hat]
  simp only [Bool.not_true, Bool.false_eq_true, if_false]
  rw [hout]
  simp only [hsz, AppendArray_natCast, appendAll_eq, List.append_assoc]

/-- A pass of the backlog loop over non-worker groups that are not aborted appends their
outputs in order and goes on with the groups behind them. -/
theorem drainPass_clean (rest : List cmdGroup) :
    ∀ (B seen : List cmdGroup) (out : Bytes),
      (∀ group ∈ B, group.isWorker = false ∧ noAbort group) →
      ∃ seen2, drainPass seen (B ++ rest) out =
        drainPass seen2 rest (out ++ (B.map outputOf).flatten) := by
  intro B
  induction B with
  | nil => intro seen out _; exact ⟨seen, by simp⟩
  | cons group B ih =>
    intro seen out hB
    obtain ⟨hw, hna⟩ := hB group (List.mem_cons_self _ _)
    have hrest : ∀ g ∈ B, g.isWorker = false ∧ noAbort g :=
      fun g hg => hB g (List.mem_cons_of_mem _ hg)
    by_cases hm : group.isMulti = true
    · obtain ⟨out1, hs, he⟩ := drainStep_multi out group hna hm
      obtain ⟨seen2, h2⟩ := ih (seen ++ [{ group with qidx := group.size }])
        (out ++ outputOf group) hrest
      refine ⟨seen2, ?_⟩
      have hg : drainGroup group out =
          .ok (.done, { group with qidx := group.size }, out ++ outputOf group) := by
        unfold drainGroup
        rw [if_neg (by simp [hw]), if_pos hm, hs]
        simp only [Bool.not_true, Bool.false_eq_true, if_false]
        rw [he]
      rw [List.cons_append, drainPass, hg]
      simp only []
      rw [h2]
      simp [List.append_assoc]
    · have hm2 : group.isMulti = false := by simpa using hm
      have he := execute_append out group hna
      simp only [hm2, Bool.false_eq_true, if_false] at he
      obtain ⟨seen2, h2⟩ := ih (seen ++ [group]) (out ++ outputOf group) hrest
      refine ⟨seen2, ?_⟩
      have hg : drainGroup group out = .ok (.done, group, out ++ outputOf group) := by
        unfold drainGroup
        rw [if_neg (by simp [hw]), if_neg (by simp [hm2]), he]
      rw [List.cons_append, drainPass, hg]
      simp only []
      rw [h2]
      simp [List.append_assoc]

/-- Sending groups to a worker that is open, or that has no goroutine yet, appends them to
the worker channel in order and touches neither the ownership nor the backlog. -/
theorem transferAll_ch :
    ∀ (groups : List cmdGroup) (c : CmdConn),
      (c.worker.isOpen = true ∨ c.worker.task = none) →
      ∃ c2, transferAll c groups = .ok c2 ∧
        c2.worker.ch = c.worker.ch ++ groups.map workerMsg.group ∧
        c2.ownership = c.ownership ∧ c2.backlog = c.backlog := by
  intro groups
  induction groups with
  | nil => intro c _; exact ⟨c, by simp [transferAll]⟩
  | cons group rest ih =>
    intro c hc
    have hsend : ∃ c1, sendToWorker c (.group group) = .ok c1 ∧
        c1.worker.ch = c.worker.ch ++ [.group group] ∧ c1.worker.isOpen = true ∧
        c1.ownership = c.ownership ∧ c1.backlog = c.backlog := by
      unfold sendToWorker
      rcases hc with ho | ht
      · simp [ho]
      · by_cases ho : c.worker.isOpen = true
        · simp [ho]
        · have ho2 : c.worker.isOpen = false := by simpa using ho
          simp [ho2, ht]
    obtain ⟨c1, h1, hch, hopen, hown, hback⟩ := hsend
    obtain ⟨c2, h2, hch2, hown2, hback2⟩ := ih c1 (Or.inl hopen)
    refine ⟨c2, ?_, ?_, ?_, ?_⟩
    · simp [transferAll, h1, h2]
    · rw [hch2, hch]; simp
    · rw [hown2, hown]
    · rw [hback2, hback]

/-- The split of a mixed group and the transfer to the worker, when no group before it is
aborted: with the backlog `B ++ [G] ++ R`, every group of `B` non-worker and not aborted, `G`
a non-MULTI worker group with the list `p ++ [w] ++ r`, `dispatch` under loop ownership
returns the outputs of `B` followed by the replies of `p`, sends `G` with the list
`[w] ++ r` and then `R` to the worker, sets the ownership to the worker and empties the
backlog. -/
theorem dispatch_split_transfer (fuel : Nat) (c : CmdConn) (next : cmdGroup) (out : Bytes)
    (B R : List cmdGroup) (G : cmdGroup) (p r : List Command) (w : Command)
    (hback : c.backlog = B ++ G :: R)
    (hB : ∀ group ∈ B, group.isWorker = false ∧ noAbort group)
    (hGw : G.isWorker = true) (hGm : G.isMulti = false) (hlist : G.list = p ++ w :: r)
    (hp : ∀ command ∈ p, command.IsWorker = false) (hw : w.IsWorker = true)
    (hworker : c.worker.isOpen = true ∨ c.worker.task = none) :
    ∃ c2, dispatch (fuel + 1) loopOwner c next out =
        .ok (c2, next, out ++ (B.map outputOf).flatten ++ (p.map Command.reply).flatten) ∧
      c2.ownership = workerOwner ∧ c2.backlog = [] ∧
      c2.worker.ch = c.worker.ch ++
        (({ G with list := w :: r } : cmdGroup) :: R).map workerMsg.group := by
  obtain ⟨seen2, hpass⟩ := drainPass_clean (G :: R) B [] out hB
  have hG : drainPass seen2 (G :: R) (out ++ (B.map outputOf).flatten) =
      .ok (.transfer, { G with list := w :: r } :: R,
        out ++ (B.map outputOf).flatten ++ (p.map Command.reply).flatten) := by
    have hg : drainGroup G (out ++ (B.map outputOf).flatten) =
        .ok (.transfer, { G with list := w :: r },
          out ++ (B.map outputOf).flatten ++ (p.map Command.reply).flatten) := by
      unfold drainGroup
      rw [if_pos hGw, if_neg (by simp [hGm]), hlist, runLeading_split G w r hw p _ hp]
    rw [drainPass, hg]
  have hdrain : drain (fuel + 1) (B ++ G :: R) out =
      .ok (.transfer, { G with list := w :: r } :: R,
        out ++ (B.map outputOf).flatten ++ (p.map Command.reply).flatten) := by
    simp only [drain, hpass, hG]
  obtain ⟨c2, ht, hch, hown, _⟩ := transferAll_ch ({ G with list := w :: r } :: R)
    { c with ownership := workerOwner, backlog := { G with list := w :: r } :: R } hworker
  refine ⟨{ c2 with backlog := [] }, ?_, ?_, rfl, ?_⟩
  · have hlenpos : (B ++ G :: R).length > 0 := by simp
    unfold dispatch
    simp only [hback, hlenpos, if_true, hdrain, ht]
  · exact hown
  · exact hch

/-! ## The theorems on the connection processor -/

/-- C1 (the code departs from the claim). A `SLOW` frame transfers its group to the worker and
leaves the ownership with the worker; the next call, made before the worker has run, carries
a `PING` frame and returns the reply `+PONG` although nothing was drained from the worker:
the worker channel still holds the `SLOW` group and the output channel is empty. -/
theorem OnData_worker_owned_runs_inline :
    OnData demoEnv 4 {} (frame ["SLOW"]) = .ok (afterSlow, [], Action.None) ∧
    afterSlow.ownership = workerOwner ∧
    afterSlow.worker.outCh = [] ∧
    (OnData demoEnv 4 afterSlow (frame ["PING"])).map
        (fun r => (r.2.1, r.1.ownership, r.1.worker.ch, r.1.worker.outCh)) =
      .ok (ascii "+PONG\r\n", workerOwner, [.group slowGroup], []) := by
  decide

/-- C2 (the code departs from the claim). `MULTI`, `SLOW` in one call and `PING` in the next
build one group with the commands `SLOW`, `PING`; its `isWorker` flag is false although
`SLOW` is a worker command, and on `EXEC` the event loop runs the whole group itself. -/
theorem OnData_isWorker_is_last_flag :
    (feed demoEnv 4 {} [frame ["MULTI"] ++ frame ["SLOW"], frame ["PING"]]).map
        (fun r => r.1.next) =
      .ok (some { isMulti := true, isWorker := false, qidx := 2, list := [slowCmd, pingCmd] }) ∧
    slowCmd.IsWorker = true ∧
    (feed demoEnv 4 {} [frame ["MULTI"] ++ frame ["SLOW"], frame ["PING"], frame ["EXEC"]]).map
        (fun r => (r.2, r.1.ownership, r.1.worker.ch)) =
      .ok ([ascii "+OK\r\n+QUEUED\r\n", ascii "+QUEUED\r\n", ascii "*2\r\n+DONE\r\n+PONG\r\n"],
        loopOwner, []) := by
  decide

/-- C3 (the code departs from the claim). For the two frames `PING`, `ONE` in one call the
registry resolves the second frame to `ONE`, yet the parse loop appends `PING` twice, and the
call answers `+PONG` twice. -/
theorem parseLoop_repeats_first_command :
    parseLoop demoEnv 4 [] {} (frame ["PING"] ++ frame ["ONE"]) none =
      .ok ([], { isWorker := false, list := [pingCmd, pingCmd] }, [], none) ∧
    demoRegistry (frame ["ONE"]) [ascii "ONE"] = some oneCmd ∧
    oneCmd ≠ pingCmd ∧
    (OnData demoEnv 4 {} (frame ["PING"] ++ frame ["ONE"])).map (fun r => r.2.1) =
      .ok (ascii "+PONG\r\n+PONG\r\n") := by
  decide

/-- C4 (the code departs from the claim). After the first five bytes of a `PING` frame the
leftovers hold those bytes; an empty call returns nothing and leaves the leftovers empty.
Likewise a complete `PING` frame held in the leftovers is neither parsed nor kept. -/
theorem OnData_empty_call_drops_leftovers :
    (feed demoEnv 4 {} [(frame ["PING"]).take 5]).map (fun r => (r.2, r.1.leftovers)) =
      .ok ([[]], (frame ["PING"]).take 5) ∧
    (feed demoEnv 4 {} [(frame ["PING"]).take 5, []]).map (fun r => (r.2, r.1.leftovers)) =
      .ok ([[], []], []) ∧
    (OnData demoEnv 4 { leftovers := frame ["PING"] } []).map
        (fun r => (r.2.1, r.1.leftovers, r.1.backlog, r.1.next)) =
      .ok ([], [], [], some {}) := by
  decide

/-- C5 (the code departs from the claim). Two groups are sent to the worker and its loop runs
twice: the first buffer holds the replies of the first group, the second buffer is empty
although the second group replies `+DONE`, `+PONG`; the loop executed and cleared the group
captured when the goroutine started. Seen from the client, two `SLOW` requests, each
followed by a worker iteration, get one `+DONE` in all. -/
theorem workerRun_executes_captured_group :
    ((transferAll {} [slowGroup, slowPingGroup]).bind (workerRun demoEnv 2)).map
        (fun c => (c.worker.outCh, c.worker.ch, c.worker.task)) =
      .ok ([ascii "+DONE\r\n", []], [], some slowGroup.clear) ∧
    (execute [] slowPingGroup).map (fun r => r.1) = .ok (ascii "+DONE\r\n+PONG\r\n") ∧
    slowTwice.map (fun r => (r.1, r.2.ownership, r.2.backlog)) =
      .ok ([[], ascii "+DONE\r\n", []], loopOwner, []) ∧
    slowTwice.map (fun r => (r.2.worker.ch, r.2.worker.outCh)) = .ok ([], []) := by
  decide

/-- C6 (the code departs from the claim). With the backlog `[multiPing, multiBad]` the abort
of the second group restarts the loop at the first group, whose array reply is emitted a
second time. The same happens for one pipelined request on a fresh connection. -/
theorem OnData_abort_repeats_earlier_groups :
    (OnData demoEnv 4 { backlog := [multiPing, multiBad] } []).map (fun r => r.2.1) =
      .ok (ascii "+OK\r\n+QUEUED\r\n*1\r\n+PONG\r\n+OK\r\n-ERR bad\r\n*1\r\n+PONG\r\n") ∧
    (OnData demoEnv 8 {}
        (frame ["MULTI"] ++ frame ["PING"] ++ frame ["EXEC"] ++
          frame ["MULTI"] ++ frame ["MULTI"] ++ frame ["EXEC"])).map (fun r => r.2.1) =
      .ok (ascii ("+OK\r\n+QUEUED\r\n*1\r\n+PONG\r\n+OK\r\n-ERR multi cannot nest\r\n" ++
        "*1\r\n+PONG\r\n")) := by
  decide

/-- C7. `sendQueued`, success case: for a group of fewer than 2^31 commands with
`-1 ≤ qidx ≤ size` whose commands from index `max(qidx,0)` on are all non-error, the call
returns `out`, then `+OK` if `qidx` was `-1`, then `size - max(qidx,0)` copies of `+QUEUED`,
with the boolean true; the group keeps its list and flags and gets `qidx = size`; and a
repeated call on the resulting group appends nothing. -/
theorem sendQueued_success (out : Bytes) (group : cmdGroup)
    (hlen : group.list.length < 2147483648)
    (hlo : -1 ≤ group.qidx) (hhi : group.qidx ≤ group.size)
    (hno : ∀ command ∈ group.list.drop (max group.qidx 0).toNat, command.IsError = false) :
    sendQueued out group =
        .ok (out ++ (if group.qidx = -1 then AppendOK [] else []) ++
              (List.replicate (group.size - max group.qidx 0).toNat (AppendQueued [])).flatten,
            { group with qidx := group.size }, true) ∧
      ∀ out2 : Bytes, sendQueued out2 { group with qidx := group.size } =
        .ok (out2, { group with qidx := group.size }, true) :=
  sendQueued_queued_all out group hlen hlo hhi hno

/-- Witness of C7: a MULTI group holding `PING` and `ONE` with no acknowledgement sent gets
`+OK`, `+QUEUED`, `+QUEUED`, and a second call on the resulting group adds nothing. -/
theorem sendQueued_success_witness :
    sendQueued [] multiPingOne =
        .ok (ascii "+OK\r\n+QUEUED\r\n+QUEUED\r\n", { multiPingOne with qidx := 2 }, true) ∧
      sendQueued (ascii "+OK\r\n+QUEUED\r\n+QUEUED\r\n") { multiPingOne with qidx := 2 } =
        .ok (ascii "+OK\r\n+QUEUED\r\n+QUEUED\r\n", { multiPingOne with qidx := 2 }, true) :=
  ⟨(sendQueued_success [] multiPingOne (by decide) (by decide) (by decide)
      (by decide)).1.trans (by decide),
    ((sendQueued_success [] multiPingOne (by decide) (by decide) (by decide)
      (by decide)).2 (ascii "+OK\r\n+QUEUED\r\n+QUEUED\r\n")).trans (by decide)⟩

/-- C8. `sendQueued`, abort case: for a group of fewer than 2^31 commands with `-1 ≤ qidx`
whose first error command at an index from `max(qidx,0)` on is `bad` at index `j`, the call
returns false with `out`, then `+OK` if `qidx` was `-1`, then `j - max(qidx,0)` copies of
`+QUEUED`, then the error reply of `bad`; and the group is cleared: empty list, not multi, not
worker, `qidx = -1`. -/
theorem sendQueued_abort (out : Bytes) (group : cmdGroup) (j : Nat) (bad : Command)
    (hlen : group.list.length < 2147483648) (hlo : -1 ≤ group.qidx)
    (hqj : (max group.qidx 0).toNat ≤ j)
    (hj : group.list[j]? = some bad) (hbad : bad.IsError = true)
    (hfirst : ∀ i command, (max group.qidx 0).toNat ≤ i → i < j →
      group.list[i]? = some command → command.IsError = false) :
    sendQueued out group =
      .ok (out ++ (if group.qidx = -1 then AppendOK [] else []) ++
            (List.replicate (j - (max group.qidx 0).toNat) (AppendQueued [])).flatten ++
            bad.reply,
          { isMulti := false, isWorker := false, qidx := -1, list := [] }, false) :=
  sendQueued_first_error out group j bad hlen hlo hqj hj hbad hfirst

/-- Witness of C8: a MULTI group holding `PING`, an error command and `ONE` with no
acknowledgement sent gets `+OK`, `+QUEUED` and the error reply, and is cleared. -/
theorem sendQueued_abort_witness :
    sendQueued [] multiPingBadOne =
      .ok (ascii "+OK\r\n+QUEUED\r\n-ERR bad\r\n",
        { isMulti := false, isWorker := false, qidx := -1, list := [] }, false) :=
  (sendQueued_abort [] multiPingBadOne 1 (Err (ascii "ERR bad")) (by decide) (by decide)
    (by decide) (by decide) (by decide)
    (fun i command _ hi hget => by
      have hi0 : i = 0 := by omega
      subst hi0
      have hc : command = pingCmd := by
        simpa [multiPingBadOne] using hget.symm
      rw [hc]
      rfl)).trans (by decide)

/-- C9. `execute`: for a group of `n` commands (fewer than 2^31), none of them an error
command, a MULTI group (with `-1 ≤ qidx ≤ size`) yields `out`, then the acknowledgements not
yet emitted, then the array header `*n`, then the `n` replies in list order; a non-MULTI group
yields `out` followed by the `n` replies in list order. -/
theorem execute_replies (out : Bytes) (group : cmdGroup)
    (hlen : group.list.length < 2147483648)
    (hq : group.isMulti = true → -1 ≤ group.qidx ∧ group.qidx ≤ group.size)
    (hno : ∀ command ∈ group.list, command.IsError = false) :
    execute out group =
      if group.isMulti then
        .ok (out ++ (if group.qidx = -1 then AppendOK [] else []) ++
              (List.replicate (group.size - max group.qidx 0).toNat (AppendQueued [])).flatten ++
              (ascii "*" ++ natDigits group.list.length ++ crlf) ++
              (group.list.map Command.reply).flatten,
            { group with qidx := group.size })
      else
        .ok (out ++ (group.list.map Command.reply).flatten, group) :=
  execute_ok out group hlen (fun hm =>
    ⟨(hq hm).1, (hq hm).2, fun command hc => hno command (List.mem_of_mem_drop hc)⟩)

/-- Witness of C9: `MULTI` immediately followed by `EXEC` yields `+OK` then `*0`, both for
`execute` on the empty MULTI group and for `OnData` on the two frames; a MULTI group holding
`PING` and `ONE` yields one array of length two. -/
theorem execute_replies_witness :
    execute [] multiEmpty = .ok (ascii "+OK\r\n*0\r\n", { multiEmpty with qidx := 0 }) ∧
      (OnData demoEnv 4 {} (frame ["MULTI"] ++ frame ["EXEC"])).map (fun r => r.2.1) =
        .ok (ascii "+OK\r\n*0\r\n") ∧
      (OnData demoEnv 4 {} (frame ["MULTI"] ++ frame ["PING"] ++ frame ["EXEC"])).map
          (fun r => r.2.1) =
        .ok (ascii "+OK\r\n+QUEUED\r\n*1\r\n+PONG\r\n") :=
  ⟨(execute_replies [] multiEmpty (by decide) (by decide) (by decide)).trans (by decide),
    by decide, by decide⟩

/-- C10 (the code departs from the claim). With the backlog `[multiPing, multiBad, mixedGroup]`
the mixed group is split and transferred as stated: `PING` is answered inline, the group goes
to the worker with the list `SLOW`, `ONE`, the ownership becomes the worker's and the backlog
is empty. The returned bytes, however, are not the outputs of the two groups in front
followed by the reply of `PING`: the abort of `multiBad` restarts the loop and the array of
`multiPing` is emitted a second time. The same happens for one pipelined request on a fresh
connection. -/
theorem dispatch_split_after_abort_repeats :
    (dispatch 4 loopOwner { backlog := [multiPing, multiBad, mixedGroup] } {} []).map
        (fun r => (r.2.2, r.1.ownership, r.1.backlog, r.1.worker.ch)) =
      .ok (ascii ("+OK\r\n+QUEUED\r\n*1\r\n+PONG\r\n+OK\r\n-ERR bad\r\n" ++
          "*1\r\n+PONG\r\n+PONG\r\n"),
        workerOwner, [], [.group { isWorker := true, list := [slowCmd, oneCmd] }]) ∧
    outputOf multiPing ++ outputOf multiBad ++ pingCmd.reply =
      ascii "+OK\r\n+QUEUED\r\n*1\r\n+PONG\r\n+OK\r\n-ERR bad\r\n+PONG\r\n" ∧
    (OnData demoEnv 8 {}
        (frame ["MULTI"] ++ frame ["EXEC"] ++ frame ["MULTI"] ++ frame ["MULTI"] ++
          frame ["EXEC"] ++ frame ["SLOW"])).map
        (fun r => (r.2.1, r.1.ownership, r.1.worker.ch)) =
      .ok (ascii "+OK\r\n*0\r\n+OK\r\n-ERR multi cannot nest\r\n*0\r\n", workerOwner,
        [.group slowGroup]) := by
  decide

/-! ## Facts about the phases of `OnData` -/

/-- `OnData` on a connection that is not closing, when the parse step ends without a codec
error: the call is `closeNext`, `dispatch` and the last statements. -/
theorem OnData_parsed (env : Env) (fuel : Nat) (c c1 c2 : CmdConn) (data input flushed : Bytes)
    (backlog : List cmdGroup) (next : cmdGroup) (rest : Bytes)
    (ha : c.Action ≠ Action.Close)
    (ht : takeInput c data = (c1, input))
    (hf : flushWrites c1 = .ok (c2, flushed))
    (hp : parseInput env fuel c2.backlog (c2.next.getD {}) input =
      .ok (backlog, next, rest, none)) :
    OnData env fuel c data =
      match closeNext flushed backlog next with
      | .error e => .error e
      | .ok (out, backlog, next) =>
        match dispatch fuel c.ownership
            { c2 with next := some (c2.next.getD {}), backlog := backlog } next out with
        | .error e => .error e
        | .ok (c3, next, out) => .ok (finishCall c3 next rest out, out, c.Action) := by
  unfold parseInput at hp
  unfold OnData
  simp only [ht, hf, ha, if_false, hp]
  rfl

/-- The body of `OnData` written with the parse step and the last statements named. -/
theorem OnData_eq (env : Env) (fuel : Nat) (c : CmdConn) (data : Bytes) :
    OnData env fuel c data =
      match flushWrites (takeInput c data).1 with
      | .error e => .error e
      | .ok (c2, flushed) =>
        if c.Action = Action.Close then
          .ok ({ c2 with next := some (c2.next.getD {}) }, flushed, c.Action)
        else
          match parseInput env fuel c2.backlog (c2.next.getD {}) (takeInput c data).2 with
          | .error e => .error e
          | .ok (backlog, next, _, some err) =>
            .ok ({ c2 with backlog := backlog, next := some next, Action := Action.Close,
                           Reason := some err },
              AppendError flushed err, Action.Close)
          | .ok (backlog, next, rest, none) =>
            match closeNext flushed backlog next with
            | .error e => .error e
            | .ok (out, backlog, next) =>
              match dispatch fuel c.ownership
                  { c2 with next := some (c2.next.getD {}), backlog := backlog } next out with
              | .error e => .error e
              | .ok (c3, next, out) => .ok (finishCall c3 next rest out, out, c.Action) := by
  rfl

theorem takeInput_nonempty (c : CmdConn) (data : Bytes) (h : data ≠ []) :
    takeInput c data =
      ({ c with leftovers := [],
                stats := { c.stats with ingress := uint64 (c.stats.ingress + data.length) } },
        c.leftovers ++ data) := by
  have hlen : ¬ data.length = 0 := by
    intro h0; exact h (List.length_eq_zero.mp h0)
  unfold takeInput
  rw [if_neg hlen]
  by_cases hl : c.leftovers = []
  · simp [hl]
  · have hpos : c.leftovers.length > 0 := List.length_pos.mpr hl
    simp [hpos]

theorem takeInput_empty (c : CmdConn) : takeInput c [] = ({ c with leftovers := [] }, []) := by
  simp [takeInput]

theorem flushWrites_idle (c : CmdConn) (h : c.worker.wakes ≤ c.worker.wakeSnapshot) :
    flushWrites c = .ok (c, []) := by
  unfold flushWrites
  have hn : ¬ c.worker.wakeSnapshot < c.worker.wakes := by omega
  simp only [hn, if_false]

/-- `flushWrites` touches only the statistics and the worker's snapshot, output channel and
output count. -/
theorem flushWrites_fields (c c2 : CmdConn) (out : Bytes) (h : flushWrites c = .ok (c2, out)) :
    c2.Action = c.Action ∧ c2.Reason = c.Reason ∧ c2.ev = c.ev ∧ c2.leftovers = c.leftovers ∧
      c2.ownership = c.ownership ∧ c2.backlog = c.backlog ∧ c2.next = c.next ∧
      c2.worker.wakes = c.worker.wakes ∧ c2.worker.ch = c.worker.ch ∧
      c2.worker.task = c.worker.task ∧ c2.worker.isOpen = c.worker.isOpen ∧
      c2.worker.counter = c.worker.counter := by
  unfold flushWrites at h
  by_cases hlt : c.worker.wakeSnapshot < c.worker.wakes
  · simp only [hlt, if_true] at h
    by_cases hc : (c.worker.outCount : Int) > 0
    · simp only [hc, if_true] at h
      cases hr : recvOut c.worker.outCount.toNat c.worker.outCh [] with
      | error e => rw [hr] at h; cases h
      | ok r =>
        rw [hr] at h
        simp only [Except.ok.injEq, Prod.mk.injEq] at h
        obtain ⟨h1, _⟩ := h
        subst h1
        simp
    · simp only [hc, if_false, Except.ok.injEq, Prod.mk.injEq] at h
      obtain ⟨h1, _⟩ := h
      subst h1
      simp
  · simp only [hlt, if_false, Except.ok.injEq, Prod.mk.injEq] at h
    obtain ⟨h1, _⟩ := h
    subst h1
    simp

theorem parseLoop_error (env : Env) (fuel : Nat) (backlog : List cmdGroup) (next : cmdGroup)
    (input : Bytes) (command : Option Command) (err : Bytes)
    (herr : (env.ParseNextCommand input).err = some err) :
    parseLoop env (fuel + 1) backlog next input command =
      .ok (backlog, next, (env.ParseNextCommand input).leftover, some err) := by
  rw [parseLoop]
  simp only [herr]

theorem parseLoop_stops (env : Env) (fuel : Nat) (backlog : List cmdGroup) (next : cmdGroup)
    (input : Bytes) (command : Option Command) (h : stops (env.ParseNextCommand input)) :
    parseLoop env (fuel + 1) backlog next input command =
      .ok (backlog, next, (env.ParseNextCommand input).leftover, none) := by
  obtain ⟨herr, hstop⟩ := h
  rw [parseLoop]
  simp only [herr]
  rcases hstop with hc | ha
  · simp [hc]
  · by_cases hc : (env.ParseNextCommand input).complete = true
    · simp [hc, ha]
    · simp [hc]

theorem parseLoop_frame (env : Env) (fuel : Nat) (backlog : List cmdGroup) (next : cmdGroup)
    (input : Bytes) (command : Option Command)
    (herr : (env.ParseNextCommand input).err = none)
    (hc : (env.ParseNextCommand input).complete = true)
    (ha : (env.ParseNextCommand input).args ≠ []) :
    parseLoop env (fuel + 1) backlog next input command =
      parseLoop env fuel
        (parseFrame env backlog next command (env.ParseNextCommand input).packet
          (env.ParseNextCommand input).args).1
        (parseFrame env backlog next command (env.ParseNextCommand input).packet
          (env.ParseNextCommand input).args).2.1
        (env.ParseNextCommand input).leftover
        (parseFrame env backlog next command (env.ParseNextCommand input).packet
          (env.ParseNextCommand input).args).2.2 := by
  rw [parseLoop]
  simp only [herr, hc]
  cases hargs : (env.ParseNextCommand input).args with
  | nil => exact absurd hargs ha
  | cons a as => simp

theorem closeNext_inline (out : Bytes) (next : cmdGroup) (hm : next.isMulti = false)
    (hw : next.isWorker = false) (hlen : next.list.length < 2147483648) :
    closeNext out [] next =
      .ok (out ++ (next.list.map Command.reply).flatten, [],
        if next.list = [] then next else next.clear) := by
  have hsize := size_eq_length next hlen
  unfold closeNext
  by_cases hl : next.list = []
  · have h0 : ¬ next.size > 0 := by rw [hsize, hl]; simp
    simp [h0, hl]
  · have hpos : next.size > 0 := by
      rw [hsize]
      have := List.length_pos.mpr hl
      omega
    have he : execute out next = .ok (out ++ (next.list.map Command.reply).flatten, next) := by
      unfold execute
      simp [hm, appendAll_eq]
    simp [hpos, hm, hw, he, hl]

theorem dispatch_idle (fuel : Nat) (c : CmdConn) (next : cmdGroup) (out : Bytes)
    (hb : c.backlog = []) (hm : next.isMulti = false) :
    dispatch fuel loopOwner c next out = .ok (c, next, out) := by
  unfold dispatch ackNext
  simp [hb, hm]

/-- The fast path: on a loop-owned connection, when the parse step leaves an empty backlog and
a group that is neither MULTI nor worker-bound, the call replies to the group's commands
inline, after the flushed worker output. -/
theorem OnData_inline (env : Env) (fuel : Nat) (c c2 : CmdConn) (data flushed rest : Bytes)
    (next : cmdGroup)
    (hA : c.Action ≠ Action.Close) (ho : c.ownership = loopOwner)
    (hflush : flushWrites (takeInput c data).1 = .ok (c2, flushed))
    (hparse : parseInput env fuel c2.backlog (c2.next.getD {}) (takeInput c data).2 =
      .ok ([], next, rest, none))
    (hm : next.isMulti = false) (hw : next.isWorker = false)
    (hlen : next.list.length < 2147483648) :
    OnData env fuel c data =
      .ok (finishCall { c2 with next := some (c2.next.getD {}), backlog := [] }
            (if next.list = [] then next else next.clear) rest
            (flushed ++ (next.list.map Command.reply).flatten),
          flushed ++ (next.list.map Command.reply).flatten, c.Action) := by
  rw [OnData_eq]
  simp only [hflush, hparse, if_neg hA, closeNext_inline flushed next hm hw hlen, ho]
  have hm2 : (if next.list = [] then next else next.clear).isMulti = false := by
    split
    · exact hm
    · rfl
  rw [dispatch_idle fuel _ _ _ rfl hm2]

/-- One complete frame with arguments followed by a codec result that ends the loop. -/
theorem parseLoop_single (env : Env) (fuel : Nat) (backlog : List cmdGroup) (next : cmdGroup)
    (input : Bytes) (command : Option Command)
    (herr : (env.ParseNextCommand input).err = none)
    (hc : (env.ParseNextCommand input).complete = true)
    (ha : (env.ParseNextCommand input).args ≠ [])
    (hstop : stops (env.ParseNextCommand (env.ParseNextCommand input).leftover)) :
    parseLoop env (fuel + 2) backlog next input command =
      .ok ((parseFrame env backlog next command (env.ParseNextCommand input).packet
              (env.ParseNextCommand input).args).1,
           (parseFrame env backlog next command (env.ParseNextCommand input).packet
              (env.ParseNextCommand input).args).2.1,
           (env.ParseNextCommand (env.ParseNextCommand input).leftover).leftover, none) := by
  rw [parseLoop_frame env (fuel + 1) backlog next input command herr hc ha]
  rw [parseLoop_stops env fuel _ _ _ _ hstop]

theorem parseFrame_exec_outside (env : Env) (backlog : List cmdGroup) (next : cmdGroup)
    (command : Option Command) (packet name : Bytes)
    (hname : env.ToLower name = ascii "exec") (hm : next.isMulti = false) :
    parseFrame env backlog next command packet [name] =
      (backlog, { next with list := next.list ++ [Err (ascii "ERR exec not expected")] },
        command) := by
  have h1 : ascii "exec" ≠ ascii "multi" := by decide
  unfold parseFrame
  simp [hname, h1, hm]

theorem parseFrame_discard_outside (env : Env) (backlog : List cmdGroup) (next : cmdGroup)
    (command : Option Command) (packet name : Bytes)
    (hname : env.ToLower name = ascii "discard") (hm : next.isMulti = false) :
    parseFrame env backlog next command packet [name] =
      (backlog, { next with list := next.list ++ [Err (ascii "ERR discard not expected")] },
        command) := by
  have h1 : ascii "discard" ≠ ascii "multi" := by decide
  have h2 : ascii "discard" ≠ ascii "exec" := by decide
  unfold parseFrame
  simp [hname, h1, h2, hm]

theorem parseFrame_resolve (env : Env) (backlog : List cmdGroup) (next : cmdGroup)
    (command : Option Command) (packet : Bytes) (args : List Bytes)
    (h : ¬ isControl env args) :
    parseFrame env backlog next command packet args =
      (backlog, (resolve env next command packet args).1,
        (resolve env next command packet args).2) := by
  unfold parseFrame
  split
  · next name =>
    have h1 : ¬ env.ToLower name = ascii "multi" := fun hx => h ⟨name, rfl, Or.inl hx⟩
    have h2 : ¬ env.ToLower name = ascii "exec" := fun hx => h ⟨name, rfl, Or.inr (Or.inl hx)⟩
    have h3 : ¬ env.ToLower name = ascii "discard" :=
      fun hx => h ⟨name, rfl, Or.inr (Or.inr hx)⟩
    simp [h1, h2, h3]
  · rfl

theorem finishCall_fields (c : CmdConn) (next : cmdGroup) (input out : Bytes) :
    (finishCall c next input out).Action = c.Action ∧
      (finishCall c next input out).Reason = c.Reason ∧
      (finishCall c next input out).ownership = c.ownership ∧
      (finishCall c next input out).backlog = c.backlog ∧
      (finishCall c next input out).next = some next ∧
      (finishCall c next input out).worker = c.worker ∧
      (finishCall c next input out).leftovers = c.leftovers ++ input := by
  unfold finishCall
  by_cases h : input.length > 0
  · simp [h]
  · have h0 : input = [] := List.length_eq_zero.mp (by omega)
    simp [h0]

/-- The connection and the input that the parse step of a call with data sees. -/
theorem flushed_fields (c c2 : CmdConn) (data flushed : Bytes) (hdata : data ≠ [])
    (hflush : flushWrites (takeInput c data).1 = .ok (c2, flushed)) :
    (takeInput c data).2 = c.leftovers ++ data ∧ c2.Action = c.Action ∧
      c2.Reason = c.Reason ∧ c2.leftovers = [] ∧ c2.ownership = c.ownership ∧
      c2.backlog = c.backlog ∧ c2.next = c.next ∧ c2.worker.wakes = c.worker.wakes ∧
      c2.worker.ch = c.worker.ch ∧ c2.worker.task = c.worker.task ∧
      c2.worker.isOpen = c.worker.isOpen ∧ c2.worker.counter = c.worker.counter := by
  rw [takeInput_nonempty c data hdata] at hflush
  rw [takeInput_nonempty c data hdata]
  have h := flushWrites_fields _ _ _ hflush
  simp only at h
  obtain ⟨h1, h2, _, h4, h5, h6, h7, h8, h9, h10, h11, h12⟩ := h
  exact ⟨rfl, h1, h2, h4, h5, h6, h7, h8, h9, h10, h11, h12⟩

/-- A control word met outside a transaction on an idle loop-owned connection: the frame is
the whole input, `word` is `exec` or `discard`, and the frame appends the error command `bad`
to the empty group, which the fast path answers inline. -/
theorem OnData_inline_error (env : Env) (fuel : Nat) (c c2 : CmdConn) (data flushed : Bytes)
    (bad : Command)
    (hA : c.Action = Action.None) (hl : c.leftovers = []) (ho : c.ownership = loopOwner)
    (hb : c.backlog = [])
    (hn1 : (c.next.getD {}).list = []) (hn2 : (c.next.getD {}).isMulti = false)
    (hn3 : (c.next.getD {}).isWorker = false)
    (hdata : data ≠ [])
    (herr : (env.ParseNextCommand data).err = none)
    (hc : (env.ParseNextCommand data).complete = true)
    (ha : (env.ParseNextCommand data).args ≠ [])
    (hleft : (env.ParseNextCommand data).leftover = [])
    (hstop : stops (env.ParseNextCommand [])) (hstopl : (env.ParseNextCommand []).leftover = [])
    (hflush : flushWrites (takeInput c data).1 = .ok (c2, flushed))
    (hframe : parseFrame env [] (c.next.getD {}) none (env.ParseNextCommand data).packet
        (env.ParseNextCommand data).args =
      ([], { c.next.getD {} with list := (c.next.getD {}).list ++ [bad] }, none)) :
    ∃ c3, OnData env (fuel + 2) c data = .ok (c3, flushed ++ bad.reply, Action.None) ∧
      c3.backlog = c.backlog ∧ c3.ownership = c.ownership ∧
      (c3.next.getD {}).isMulti = (c.next.getD {}).isMulti ∧
      c3.Action = Action.None ∧ c3.leftovers = [] := by
  obtain ⟨hin, h1, _, h4, h5, h6, h7, _⟩ := flushed_fields c c2 data flushed hdata hflush
  have hin2 : (takeInput c data).2 = data := by rw [hin, hl]; rfl
  have hpos : data.length > 0 := List.length_pos.mpr hdata
  have hparse : parseInput env (fuel + 2) c2.backlog (c2.next.getD {}) (takeInput c data).2 =
      .ok ([], { c.next.getD {} with list := (c.next.getD {}).list ++ [bad] }, [], none) := by
    unfold parseInput
    rw [hin2, if_pos hpos, h6, hb, h7]
    have hstop2 : stops (env.ParseNextCommand (env.ParseNextCommand data).leftover) := by
      rw [hleft]; exact hstop
    rw [parseLoop_single env fuel [] _ data none herr hc ha hstop2, hframe, hleft, hstopl]
  have hAc : c.Action ≠ Action.Close := by rw [hA]; decide
  have hrun := OnData_inline env (fuel + 2) c c2 data flushed []
    { c.next.getD {} with list := (c.next.getD {}).list ++ [bad] } hAc ho hflush hparse hn2 hn3
    (by simp [hn1])
  simp only [hn1, List.nil_append, List.map_cons, List.map_nil, List.flatten_cons,
    List.flatten_nil, List.append_nil, List.cons_ne_nil, if_false] at hrun
  obtain ⟨f1, _, f3, f4, f5, _, f7⟩ := finishCall_fields
    { c2 with next := some (c2.next.getD {}), backlog := [] }
    (cmdGroup.clear { c.next.getD {} with list := [bad] }) [] (flushed ++ bad.reply)
  refine ⟨finishCall { c2 with next := some (c2.next.getD {}), backlog := [] }
    (cmdGroup.clear { c.next.getD {} with list := [bad] }) [] (flushed ++ bad.reply),
    ?_, ?_, ?_, ?_, ?_, ?_⟩
  · rw [hrun, hA]
  · rw [f4, hb]
  · rw [f3]; exact h5
  · rw [f5, hn2]; rfl
  · rw [f1]; simp only; rw [h1, hA]
  · rw [f7]; simp only; rw [h4]; rfl
theorem resolve_none (env : Env) (next : cmdGroup) (packet : Bytes) (args : List Bytes) :
    resolve env next none packet args =
      ({ next with isWorker := (lookup env packet args).IsWorker,
                   list := next.list ++ [lookup env packet args] },
        some (lookup env packet args)) := by
  unfold lookup resolve
  simp

/-- A call with data on an idle connection whose input is still an incomplete frame: nothing
is returned and the input is kept in the leftovers. -/
theorem OnData_incomplete (env : Env) (fuel : Nat) (c : CmdConn) (data : Bytes)
    (hi : idle c) (hdata : data ≠ [])
    (herr : (env.ParseNextCommand (c.leftovers ++ data)).err = none)
    (hc : (env.ParseNextCommand (c.leftovers ++ data)).complete = false)
    (hleft : (env.ParseNextCommand (c.leftovers ++ data)).leftover = c.leftovers ++ data) :
    ∃ c3, OnData env (fuel + 1) c data = .ok (c3, [], Action.None) ∧ idle c3 ∧
      c3.leftovers = c.leftovers ++ data := by
  obtain ⟨hA, ho, hb, hn1, hn2, hn3, hw⟩ := hi
  have hflush : flushWrites (takeInput c data).1 = .ok ((takeInput c data).1, []) := by
    apply flushWrites_idle
    rw [takeInput_nonempty c data hdata]
    exact hw
  obtain ⟨hin, h1, _, h4, h5, h6, h7, h8, _⟩ :=
    flushed_fields c (takeInput c data).1 data [] hdata hflush
  have hpos : (c.leftovers ++ data).length > 0 := by
    have := List.length_pos.mpr hdata
    simp only [List.length_append]
    omega
  have hparse : parseInput env (fuel + 1) (takeInput c data).1.backlog
      ((takeInput c data).1.next.getD {}) (takeInput c data).2 =
      .ok ([], c.next.getD {}, c.leftovers ++ data, none) := by
    unfold parseInput
    rw [hin, if_pos hpos, h6, hb, h7,
      parseLoop_stops env fuel [] _ _ none ⟨herr, Or.inl hc⟩, hleft]
  have hAc : c.Action ≠ Action.Close := by rw [hA]; decide
  have hrun := OnData_inline env (fuel + 1) c (takeInput c data).1 data [] (c.leftovers ++ data)
    (c.next.getD {}) hAc ho hflush hparse hn2 hn3 (by simp [hn1])
  simp only [hn1, if_true, List.map_nil, List.flatten_nil, List.append_nil] at hrun
  obtain ⟨f1, _, f3, f4, f5, f6, f7⟩ := finishCall_fields
    { (takeInput c data).1 with next := some ((takeInput c data).1.next.getD {}), backlog := [] }
    (c.next.getD {}) (c.leftovers ++ data) []
  have hworker : (takeInput c data).1.worker = c.worker := by
    rw [takeInput_nonempty c data hdata]
  refine ⟨_, by rw [hrun, hA], ⟨?_, ?_, ?_, ?_, ?_, ?_, ?_⟩, ?_⟩
  · rw [f1]; simp only; rw [h1, hA]
  · rw [f3]; simp only; rw [h5, ho]
  · rw [f4]
  · rw [f5]; exact hn1
  · rw [f5]; exact hn2
  · rw [f5]; exact hn3
  · rw [f6]; simp only; rw [hworker]; exact hw
  · rw [f7]; simp only; rw [h4]; rfl

/-- A call with data on an idle connection whose input is now one complete frame of a
non-worker command that is not a control word: the call returns the reply of the command and
leaves an idle connection without leftovers. -/
theorem OnData_complete (env : Env) (fuel : Nat) (c : CmdConn) (data : Bytes)
    (hi : idle c) (hdata : data ≠ [])
    (herr : (env.ParseNextCommand (c.leftovers ++ data)).err = none)
    (hc : (env.ParseNextCommand (c.leftovers ++ data)).complete = true)
    (ha : (env.ParseNextCommand (c.leftovers ++ data)).args ≠ [])
    (hnc : ¬ isControl env (env.ParseNextCommand (c.leftovers ++ data)).args)
    (hleft : (env.ParseNextCommand (c.leftovers ++ data)).leftover = [])
    (hnw : (lookup env (env.ParseNextCommand (c.leftovers ++ data)).packet
      (env.ParseNextCommand (c.leftovers ++ data)).args).IsWorker = false)
    (hstop : stops (env.ParseNextCommand [])) (hstopl : (env.ParseNextCommand []).leftover = []) :
    ∃ c3, OnData env (fuel + 2) c data =
        .ok (c3, (lookup env (env.ParseNextCommand (c.leftovers ++ data)).packet
          (env.ParseNextCommand (c.leftovers ++ data)).args).reply, Action.None) ∧
      idle c3 ∧ c3.leftovers = [] := by
  obtain ⟨hA, ho, hb, hn1, hn2, hn3, hw⟩ := hi
  have hflush : flushWrites (takeInput c data).1 = .ok ((takeInput c data).1, []) := by
    apply flushWrites_idle
    rw [takeInput_nonempty c data hdata]
    exact hw
  obtain ⟨hin, h1, _, h4, h5, h6, h7, h8, _⟩ :=
    flushed_fields c (takeInput c data).1 data [] hdata hflush
  have hpos : (c.leftovers ++ data).length > 0 := by
    have := List.length_pos.mpr hdata
    simp only [List.length_append]
    omega
  have hstop2 : stops (env.ParseNextCommand
      (env.ParseNextCommand (c.leftovers ++ data)).leftover) := by
    rw [hleft]; exact hstop
  have hparse : parseInput env (fuel + 2) (takeInput c data).1.backlog
      ((takeInput c data).1.next.getD {}) (takeInput c data).2 =
      .ok ([], { c.next.getD {} with
            isWorker := (lookup env (env.ParseNextCommand (c.leftovers ++ data)).packet
              (env.ParseNextCommand (c.leftovers ++ data)).args).IsWorker,
            list := (c.next.getD {}).list ++
              [lookup env (env.ParseNextCommand (c.leftovers ++ data)).packet
                (env.ParseNextCommand (c.leftovers ++ data)).args] }, [], none) := by
    unfold parseInput
    rw [hin, if_pos hpos, h6, hb, h7,
      parseLoop_single env fuel [] _ _ none herr hc ha hstop2,
      parseFrame_resolve env [] _ none _ _ hnc, resolve_none, hleft, hstopl]
  have hAc : c.Action ≠ Action.Close := by rw [hA]; decide
  have hrun := OnData_inline env (fuel + 2) c (takeInput c data).1 data [] [] _ hAc ho hflush
    hparse hn2 hnw (by simp [hn1])
  simp only [hn1, List.nil_append, List.map_cons, List.map_nil, List.flatten_cons,
    List.flatten_nil, List.append_nil, List.cons_ne_nil, if_false] at hrun
  have hworker : (takeInput c data).1.worker = c.worker := by
    rw [takeInput_nonempty c data hdata]
  refine ⟨_, by rw [hrun, hA], ?_⟩
  obtain ⟨f1, _, f3, f4, f5, f6, f7⟩ := finishCall_fields
    { (takeInput c data).1 with next := some ((takeInput c data).1.next.getD {}), backlog := [] }
    (cmdGroup.clear { c.next.getD {} with
      isWorker := (lookup env (env.ParseNextCommand (c.leftovers ++ data)).packet
        (env.ParseNextCommand (c.leftovers ++ data)).args).IsWorker,
      list := [lookup env (env.ParseNextCommand (c.leftovers ++ data)).packet
        (env.ParseNextCommand (c.leftovers ++ data)).args] }) []
    (lookup env (env.ParseNextCommand (c.leftovers ++ data)).packet
      (env.ParseNextCommand (c.leftovers ++ data)).args).reply
  refine ⟨⟨?_, ?_, ?_, ?_, ?_, ?_, ?_⟩, ?_⟩
  · rw [f1]; simp only; rw [h1, hA]
  · rw [f3]; simp only; rw [h5, ho]
  · rw [f4]
  · rw [f5]; rfl
  · rw [f5]; rfl
  · rw [f5]; rfl
  · rw [f6]; simp only; rw [hworker]; exact hw
  · rw [f7]; simp only; rw [h4]; rfl

theorem idle_fresh : idle {} := by
  unfold idle
  decide

/-- Chunks of one frame fed to an idle connection: each call before the last returns nothing,
the last returns the reply of the command, and the connection is idle without leftovers. -/
theorem feed_chunks (env : Env) (fuel : Nat) (F : Bytes)
    (hinc : ∀ P Q : Bytes, P ≠ [] → Q ≠ [] → P ++ Q = F →
      (env.ParseNextCommand P).err = none ∧ (env.ParseNextCommand P).complete = false ∧
        (env.ParseNextCommand P).leftover = P)
    (herr : (env.ParseNextCommand F).err = none)
    (hc : (env.ParseNextCommand F).complete = true)
    (ha : (env.ParseNextCommand F).args ≠ [])
    (hnc : ¬ isControl env (env.ParseNextCommand F).args)
    (hleft : (env.ParseNextCommand F).leftover = [])
    (hnw : (lookup env (env.ParseNextCommand F).packet
      (env.ParseNextCommand F).args).IsWorker = false)
    (hstop : stops (env.ParseNextCommand [])) (hstopl : (env.ParseNextCommand []).leftover = []) :
    ∀ (chunks : List Bytes) (c : CmdConn), idle c → chunks ≠ [] → (∀ ch ∈ chunks, ch ≠ []) →
      c.leftovers ++ chunks.flatten = F →
      ∃ c3, feed env (fuel + 2) c chunks =
          .ok (c3, List.replicate (chunks.length - 1) [] ++
            [(lookup env (env.ParseNextCommand F).packet (env.ParseNextCommand F).args).reply]) ∧
        idle c3 ∧ c3.leftovers = [] := by
  intro chunks
  induction chunks with
  | nil => intro c _ h; exact absurd rfl h
  | cons x rest ih =>
    intro c hi _ hne hF
    have hx : x ≠ [] := hne x (List.mem_cons_self _ _)
    cases rest with
    | nil =>
      simp only [List.flatten_cons, List.flatten_nil, List.append_nil] at hF
      obtain ⟨c3, hrun, hi3, hl3⟩ := OnData_complete env fuel c x hi hx
        (by rw [hF]; exact herr) (by rw [hF]; exact hc) (by rw [hF]; exact ha)
        (by rw [hF]; exact hnc) (by rw [hF]; exact hleft) (by rw [hF]; exact hnw) hstop hstopl
      rw [hF] at hrun
      refine ⟨c3, ?_, hi3, hl3⟩
      simp only [feed, hrun, List.length_singleton, Nat.sub_self, List.replicate_zero,
        List.nil_append]
    | cons y rest2 =>
      have hy : y ≠ [] := hne y (List.mem_cons_of_mem _ (List.mem_cons_self _ _))
      have hQ : (y :: rest2).flatten ≠ [] := by
        simp only [List.flatten_cons, ne_eq, List.append_eq_nil, not_and]
        intro h; exact absurd h hy
      have hP : c.leftovers ++ x ≠ [] := by
        simp only [ne_eq, List.append_eq_nil, not_and]
        intro _; exact hx
      have hsplit : (c.leftovers ++ x) ++ (y :: rest2).flatten = F := by
        rw [← hF]; simp only [List.flatten_cons, List.append_assoc]
      obtain ⟨e1, e2, e3⟩ := hinc _ _ hP hQ hsplit
      obtain ⟨c3, hrun, hi3, hl3⟩ := OnData_incomplete env (fuel + 1) c x hi hx e1 e2 e3
      obtain ⟨c4, hfeed, hi4, hl4⟩ := ih c3 hi3 (by simp)
        (fun ch hch => hne ch (List.mem_cons_of_mem _ hch)) (by rw [hl3]; exact hsplit)
      refine ⟨c4, ?_, hi4, hl4⟩
      rw [feed, hrun]
      simp only []
      rw [hfeed]
      simp only [List.length_cons, Nat.add_sub_cancel, List.replicate_succ, List.cons_append]

/-- `closeNext` with a non-empty backlog and a non-empty group that is not MULTI: the group
joins the backlog, however long the backlog is. -/
theorem closeNext_queue (out : Bytes) (backlog : List cmdGroup) (next : cmdGroup)
    (hb : backlog ≠ []) (hm : next.isMulti = false) (hl : next.list ≠ [])
    (hlen : next.list.length < 2147483648) :
    closeNext out backlog next = .ok (out, backlog ++ [next], {}) := by
  have hsize := size_eq_length next hlen
  have hpos : next.size > 0 := by
    rw [hsize]
    have := List.length_pos.mpr hl
    omega
  have hbl : ¬ backlog.length = 0 := fun h => hb (List.length_eq_zero.mp h)
  unfold closeNext
  simp [hpos, hm, hbl]

theorem dispatch_worker_owned (fuel : Nat) (c : CmdConn) (next : cmdGroup) (out : Bytes) :
    dispatch fuel workerOwner c next out = .ok (c, next, out) := by
  unfold dispatch
  simp [workerOwner, loopOwner]

/-- A call with one complete frame of a command that is not a control word, on a worker-owned
connection whose backlog is not empty: the frame is parsed and its group joins the backlog,
whatever the length of the backlog; nothing stays in the leftovers. -/
theorem OnData_queue_behind (env : Env) (fuel : Nat) (c c2 : CmdConn) (data flushed : Bytes)
    (hA : c.Action = Action.None) (hlo : c.leftovers = []) (ho : c.ownership = workerOwner)
    (hb : c.backlog ≠ [])
    (hn1 : (c.next.getD {}).list = []) (hn2 : (c.next.getD {}).isMulti = false)
    (hdata : data ≠ [])
    (herr : (env.ParseNextCommand data).err = none)
    (hc : (env.ParseNextCommand data).complete = true)
    (ha : (env.ParseNextCommand data).args ≠ [])
    (hnc : ¬ isControl env (env.ParseNextCommand data).args)
    (hleft : (env.ParseNextCommand data).leftover = [])
    (hstop : stops (env.ParseNextCommand [])) (hstopl : (env.ParseNextCommand []).leftover = [])
    (hflush : flushWrites (takeInput c data).1 = .ok (c2, flushed)) :
    ∃ c3, OnData env (fuel + 2) c data = .ok (c3, flushed, Action.None) ∧
      c3.backlog = c.backlog ++
        [{ c.next.getD {} with
            isWorker := (lookup env (env.ParseNextCommand data).packet
              (env.ParseNextCommand data).args).IsWorker,
            list := [lookup env (env.ParseNextCommand data).packet
              (env.ParseNextCommand data).args] }] ∧
      c3.leftovers = [] ∧ c3.ownership = workerOwner ∧ c3.Action = Action.None := by
  obtain ⟨hin, h1, _, h4, h5, h6, h7, h8, _⟩ := flushed_fields c c2 data flushed hdata hflush
  rw [hlo, List.nil_append] at hin
  have hpos : data.length > 0 := List.length_pos.mpr hdata
  have hstop2 : stops (env.ParseNextCommand (env.ParseNextCommand data).leftover) := by
    rw [hleft]; exact hstop
  have hparse : parseInput env (fuel + 2) c2.backlog (c2.next.getD {}) (takeInput c data).2 =
      .ok (c.backlog, { c.next.getD {} with
            isWorker := (lookup env (env.ParseNextCommand data).packet
              (env.ParseNextCommand data).args).IsWorker,
            list := [lookup env (env.ParseNextCommand data).packet
              (env.ParseNextCommand data).args] }, [], none) := by
    unfold parseInput
    rw [hin, if_pos hpos, h6, h7,
      parseLoop_single env fuel _ _ _ none herr hc ha hstop2,
      parseFrame_resolve env _ _ none _ _ hnc, resolve_none, hleft, hstopl, hn1, List.nil_append]
  have hAc : c.Action ≠ Action.Close := by rw [hA]; decide
  have hrun := OnData_parsed env (fuel + 2) c (takeInput c data).1 c2 data (takeInput c data).2
    flushed _ _ _ hAc rfl hflush hparse
  have hcn := closeNext_queue flushed c.backlog
    { c.next.getD {} with
        isWorker := (lookup env (env.ParseNextCommand data).packet
          (env.ParseNextCommand data).args).IsWorker,
        list := [lookup env (env.ParseNextCommand data).packet
          (env.ParseNextCommand data).args] } hb hn2 (by simp) (by simp)
  rw [hcn] at hrun
  simp only [ho, dispatch_worker_owned] at hrun
  refine ⟨_, by rw [hrun, hA], ?_⟩
  obtain ⟨f1, _, f3, f4, _, _, f7⟩ := finishCall_fields
    { c2 with next := some (c2.next.getD {}),
              backlog := c.backlog ++ [{ c.next.getD {} with
                isWorker := (lookup env (env.ParseNextCommand data).packet
                  (env.ParseNextCommand data).args).IsWorker,
                list := [lookup env (env.ParseNextCommand data).packet
                  (env.ParseNextCommand data).args] }] }
    {} [] flushed
  refine ⟨?_, ?_, ?_, ?_⟩
  · rw [f4]
  · rw [f7]; simp only; rw [h4]; rfl
  · rw [f3]; simp only; rw [h5, ho]
  · rw [f1]; simp only; rw [h1, hA]

theorem overfullConn_length : overfullConn.backlog.length > maxCommandBacklog := by
  show (List.replicate (maxCommandBacklog + 1) slowGroup).length > maxCommandBacklog
  rw [List.length_replicate]
  exact Nat.lt_succ_self _

/-- `takeInput` touches only the leftovers and the ingress counter. -/
theorem takeInput_fields (c : CmdConn) (data : Bytes) :
    (takeInput c data).1.Action = c.Action ∧ (takeInput c data).1.Reason = c.Reason ∧
      (takeInput c data).1.backlog = c.backlog ∧ (takeInput c data).1.next = c.next ∧
      (takeInput c data).1.ownership = c.ownership ∧ (takeInput c data).1.worker = c.worker := by
  by_cases h : data = []
  · rw [h, takeInput_empty]
    exact ⟨rfl, rfl, rfl, rfl, rfl, rfl⟩
  · rw [takeInput_nonempty c data h]
    exact ⟨rfl, rfl, rfl, rfl, rfl, rfl⟩

/-- The error exit of the parse loop: the call stores `Close` and the error, and returns the
flushed worker output followed by the error reply. -/
theorem OnData_error_exit (env : Env) (fuel : Nat) (c c2 : CmdConn) (data flushed : Bytes)
    (backlog : List cmdGroup) (next : cmdGroup) (rest err : Bytes)
    (hA : c.Action ≠ Action.Close)
    (hflush : flushWrites (takeInput c data).1 = .ok (c2, flushed))
    (hparse : parseInput env fuel c2.backlog (c2.next.getD {}) (takeInput c data).2 =
      .ok (backlog, next, rest, some err)) :
    OnData env fuel c data =
      .ok ({ c2 with backlog := backlog, next := some next, Action := Action.Close,
                     Reason := some err },
        AppendError flushed err, Action.Close) := by
  rw [OnData_eq]
  simp only [hflush, if_neg hA, hparse]

/-- A call on a connection whose action is `Close` returns the flushed worker output and
`Close`; it parses nothing and executes nothing, so the backlog, the group under
construction, the action and the reason stay as they are. -/
theorem OnData_closed (env : Env) (fuel : Nat) (c c2 : CmdConn) (data flushed : Bytes)
    (hA : c.Action = Action.Close)
    (hflush : flushWrites (takeInput c data).1 = .ok (c2, flushed)) :
    ∃ c3, OnData env fuel c data = .ok (c3, flushed, Action.Close) ∧
      c3.Action = Action.Close ∧ c3.Reason = c.Reason ∧ c3.backlog = c.backlog ∧
      c3.next.getD {} = c.next.getD {} ∧ c3.ownership = c.ownership := by
  have hf := flushWrites_fields _ _ _ hflush
  obtain ⟨h1, h2, _, _, h5, h6, h7, _⟩ := hf
  obtain ⟨t1, t2, t3, t4, t5, _⟩ := takeInput_fields c data
  refine ⟨{ c2 with next := some (c2.next.getD {}) }, ?_, ?_, ?_, ?_, ?_, ?_⟩
  · rw [OnData_eq]
    simp only [hflush, hA, if_true]
  · show c2.Action = _
    rw [h1, t1, hA]
  · show c2.Reason = _
    rw [h2, t2]
  · show c2.backlog = _
    rw [h6, t3]
  · show (some (c2.next.getD {})).getD {} = _
    rw [h7, t4]
    rfl
  · show c2.ownership = _
    rw [h5, t5]

theorem wake_worker (env : Env) (c : CmdConn) : (wake env c).worker = c.worker := by
  unfold wake
  split
  · split <;> rfl
  · rfl

/-- What one iteration of the worker's loop does to the counters and the output queue: either
nothing (the stop sentinel), or one buffer more, `outCount` and `wakes` incremented. The
snapshot is never written. -/
theorem workerStep_fields (env : Env) (c c2 : CmdConn) (h : workerStep env c = .ok c2) :
    c2.worker.wakeSnapshot = c.worker.wakeSnapshot ∧
      ((c2.worker.wakes = c.worker.wakes ∧ c2.worker.outCh = c.worker.outCh ∧
          c2.worker.outCount = c.worker.outCount) ∨
        ∃ b, c2.worker.wakes = uint64 (c.worker.wakes + 1) ∧
          c2.worker.outCh = c.worker.outCh ++ [b] ∧
          c2.worker.outCount = int32 (c.worker.outCount + 1)) := by
  unfold workerStep at h
  split at h
  · exact absurd h (by simp)
  · split at h
    · exact absurd h (by simp)
    · simp only [Except.ok.injEq] at h
      subst h
      exact ⟨rfl, Or.inl ⟨rfl, rfl, rfl⟩⟩
    · split at h
      · exact absurd h (by simp)
      · next b g hexec =>
        simp only at h
        split at h <;> split at h <;> simp only [Except.ok.injEq] at h <;> subst h <;>
          first
          | exact ⟨rfl, Or.inr ⟨b, rfl, rfl, rfl⟩⟩
          | (rw [wake_worker]; exact ⟨rfl, Or.inr ⟨b, rfl, rfl, rfl⟩⟩)

theorem sameOut_refl (a : cmdConnWorker) : sameOut a a := ⟨rfl, rfl, rfl, rfl⟩

theorem sameOut_trans (a b c : cmdConnWorker) (h1 : sameOut a b) (h2 : sameOut b c) :
    sameOut a c :=
  ⟨h1.1.trans h2.1, h1.2.1.trans h2.2.1, h1.2.2.1.trans h2.2.2.1, h1.2.2.2.trans h2.2.2.2⟩

theorem sendToWorker_sameOut (c c2 : CmdConn) (msg : workerMsg)
    (h : sendToWorker c msg = .ok c2) : sameOut c2.worker c.worker := by
  unfold sendToWorker at h
  simp only at h
  split at h
  · split at h
    · exact absurd h (by simp)
    · simp only [Except.ok.injEq] at h; subst h; exact ⟨rfl, rfl, rfl, rfl⟩
    · simp only [Except.ok.injEq] at h; subst h; exact ⟨rfl, rfl, rfl, rfl⟩
  · simp only [Except.ok.injEq] at h; subst h; exact ⟨rfl, rfl, rfl, rfl⟩

theorem transferAll_sameOut :
    ∀ (groups : List cmdGroup) (c c2 : CmdConn), transferAll c groups = .ok c2 →
      sameOut c2.worker c.worker := by
  intro groups
  induction groups with
  | nil =>
    intro c c2 h
    simp only [transferAll, Except.ok.injEq] at h
    subst h
    exact sameOut_refl _
  | cons g rest ih =>
    intro c c2 h
    rw [transferAll] at h
    split at h
    · exact absurd h (by simp)
    · next c1 h1 =>
      exact sameOut_trans _ _ _ (ih c1 c2 h) (sendToWorker_sameOut c c1 _ h1)

theorem appendAll_extends (out : Bytes) (list : List Command) : out <+: appendAll out list := by
  rw [appendAll_eq]
  exact List.prefix_append _ _

theorem sendQueuedLoop_extends (group : cmdGroup) :
    ∀ (n : Nat) (i : Int) (out : Bytes) (r : Bytes × cmdGroup × Bool),
      sendQueuedLoop group n i out = .ok r → out <+: r.1 := by
  intro n
  induction n with
  | zero =>
    intro i out r h
    simp only [sendQueuedLoop, Except.ok.injEq] at h
    subst h
    exact List.prefix_refl _
  | succ n ih =>
    intro i out r h
    rw [sendQueuedLoop] at h
    split at h
    · exact absurd h (by simp)
    · split at h
      · simp only [Except.ok.injEq] at h
        subst h
        exact List.prefix_append _ _
      · have := ih _ _ _ h
        refine List.IsPrefix.trans ?_ this
        unfold AppendQueued
        rw [List.append_assoc]
        exact List.prefix_append _ _

theorem sendQueued_extends (out : Bytes) (group : cmdGroup) (r : Bytes × cmdGroup × Bool)
    (h : sendQueued out group = .ok r) : out <+: r.1 := by
  unfold sendQueued at h
  have hp : out <+: (if group.qidx = -1 then (AppendOK out, { group with qidx := 0 })
      else (out, group)).1 := by
    split
    · unfold AppendOK
      rw [List.append_assoc]
      exact List.prefix_append _ _
    · exact List.prefix_refl _
  generalize (if group.qidx = -1 then (AppendOK out, { group with qidx := 0 })
      else (out, group)) = p at h hp
  obtain ⟨o1, g1⟩ := p
  simp only at h hp
  split at h
  · simp only [Except.ok.injEq] at h
    subst h
    exact hp
  · exact List.IsPrefix.trans hp (sendQueuedLoop_extends _ _ _ _ _ h)

theorem execute_extends (out : Bytes) (group : cmdGroup) (r : Bytes × cmdGroup)
    (h : execute out group = .ok r) : out <+: r.1 := by
  unfold execute at h
  split at h
  · split at h
    · exact absurd h (by simp)
    · next o1 g1 ok hs =>
      have hp := sendQueued_extends out group _ hs
      split at h
      · simp only [Except.ok.injEq] at h
        subst h
        exact hp
      · simp only [Except.ok.injEq] at h
        subst h
        refine List.IsPrefix.trans hp (List.IsPrefix.trans ?_ (appendAll_extends _ _))
        unfold AppendArray
        rw [List.append_assoc, List.append_assoc]
        exact List.prefix_append _ _
  · simp only [Except.ok.injEq] at h
    subst h
    exact appendAll_extends _ _

theorem closeNext_extends (out : Bytes) (backlog : List cmdGroup) (next : cmdGroup)
    (r : Bytes × List cmdGroup × cmdGroup) (h : closeNext out backlog next = .ok r) :
    out <+: r.1 := by
  unfold closeNext at h
  split at h
  · split at h
    · split at h
      · split at h
        · exact absurd h (by simp)
        · next o1 g1 he =>
          simp only [Except.ok.injEq] at h
          subst h
          exact execute_extends out next _ he
      · simp only [Except.ok.injEq] at h
        subst h
        exact List.prefix_refl _
    · simp only [Except.ok.injEq] at h
      subst h
      exact List.prefix_refl _
  · simp only [Except.ok.injEq] at h
    subst h
    exact List.prefix_refl _

theorem runLeading_extends (group : cmdGroup) :
    ∀ (list : List Command) (out : Bytes), out <+: (runLeading group list out).1 := by
  intro list
  induction list with
  | nil => intro out; exact List.prefix_refl _
  | cons command rest ih =>
    intro out
    rw [runLeading]
    split
    · exact List.prefix_refl _
    · exact List.IsPrefix.trans (List.prefix_append _ _) (ih (AppendCommand out command))

theorem drainGroup_extends (group : cmdGroup) (out : Bytes) (r : loopExit × cmdGroup × Bytes)
    (h : drainGroup group out = .ok r) : out <+: r.2.2 := by
  unfold drainGroup at h
  split at h
  · split at h
    · split at h
      · exact absurd h (by simp)
      · next o1 g1 ok hs =>
        have hp := sendQueued_extends out group _ hs
        split at h <;> (simp only [Except.ok.injEq] at h; subst h; exact hp)
    · simp only [Except.ok.injEq] at h
      subst h
      exact runLeading_extends group group.list out
  · split at h
    · split at h
      · exact absurd h (by simp)
      · next o1 g1 ok hs =>
        have hp := sendQueued_extends out group _ hs
        split at h
        · simp only [Except.ok.injEq] at h; subst h; exact hp
        · split at h
          · exact absurd h (by simp)
          · next o2 g2 he =>
            simp only [Except.ok.injEq] at h
            subst h
            exact List.IsPrefix.trans hp (execute_extends _ _ _ he)
    · split at h
      · exact absurd h (by simp)
      · next o2 g2 he =>
        simp only [Except.ok.injEq] at h
        subst h
        exact execute_extends _ _ _ he

theorem drainPass_extends :
    ∀ (rest seen : List cmdGroup) (out : Bytes) (r : loopExit × List cmdGroup × Bytes),
      drainPass seen rest out = .ok r → out <+: r.2.2 := by
  intro rest
  induction rest with
  | nil =>
    intro seen out r h
    simp only [drainPass, Except.ok.injEq] at h
    subst h
    exact List.prefix_refl _
  | cons g rest ih =>
    intro seen out r h
    rw [drainPass] at h
    split at h
    · exact absurd h (by simp)
    · next exit g1 o1 hg =>
      have hp := drainGroup_extends g out _ hg
      split at h
      · exact List.IsPrefix.trans hp (ih _ _ _ h)
      · simp only [Except.ok.injEq] at h; subst h; exact hp
      · simp only [Except.ok.injEq] at h; subst h; exact hp

theorem drain_extends :
    ∀ (fuel : Nat) (backlog : List cmdGroup) (out : Bytes)
      (r : loopExit × List cmdGroup × Bytes),
      drain fuel backlog out = .ok r → out <+: r.2.2 := by
  intro fuel
  induction fuel with
  | zero =>
    intro backlog out r h
    exact absurd h (by simp [drain])
  | succ fuel ih =>
    intro backlog out r h
    rw [drain] at h
    split at h
    · exact absurd h (by simp)
    · next b1 o1 hp1 =>
      exact List.IsPrefix.trans (drainPass_extends _ _ _ _ hp1) (ih _ _ _ h)
    · next r1 _ hp1 =>
      simp only [Except.ok.injEq] at h
      subst h
      exact drainPass_extends _ _ _ _ hp1

theorem ackNext_extends (out : Bytes) (next : cmdGroup) (r : Bytes × cmdGroup)
    (h : ackNext out next = .ok r) : out <+: r.1 := by
  unfold ackNext at h
  split at h
  · split at h
    · exact absurd h (by simp)
    · next o1 g1 ok hs =>
      simp only [Except.ok.injEq] at h
      subst h
      exact sendQueued_extends _ _ _ hs
  · simp only [Except.ok.injEq] at h
    subst h
    exact List.prefix_refl _

/-- The block `if ownership == loopOwner` only appends to the output and leaves the wake
counters, the output queue and its count as they are. -/
theorem dispatch_out (fuel : Nat) (ownership : Int) (c : CmdConn) (next : cmdGroup)
    (out : Bytes) (r : CmdConn × cmdGroup × Bytes)
    (h : dispatch fuel ownership c next out = .ok r) :
    out <+: r.2.2 ∧ sameOut r.1.worker c.worker := by
  unfold dispatch at h
  split at h
  · split at h
    · split at h
      · exact absurd h (by simp)
      · next exit b1 o1 hd =>
        have hp := drain_extends _ _ _ _ hd
        split at h
        · split at h
          · exact absurd h (by simp)
          · next c1 ht =>
            simp only [Except.ok.injEq] at h
            subst h
            have hs := transferAll_sameOut _ _ _ ht
            exact ⟨hp, hs⟩
        · split at h
          · exact absurd h (by simp)
          · next o2 n2 ha =>
            simp only [Except.ok.injEq] at h
            subst h
            exact ⟨List.IsPrefix.trans hp (ackNext_extends _ _ _ ha), sameOut_refl _⟩
    · split at h
      · exact absurd h (by simp)
      · next o2 n2 ha =>
        simp only [Except.ok.injEq] at h
        subst h
        exact ⟨ackNext_extends _ _ _ ha, sameOut_refl _⟩
  · simp only [Except.ok.injEq] at h
    subst h
    exact ⟨List.prefix_refl _, sameOut_refl _⟩

theorem finishCall_worker (c : CmdConn) (next : cmdGroup) (input out : Bytes) :
    (finishCall c next input out).worker = c.worker :=
  (finishCall_fields c next input out).2.2.2.2.2.1

/-- Every call of `OnData` that returns starts with the flush of the worker's writes: its
output begins with the flushed bytes, and after the flush nothing in the call touches the
wake counters, the output queue or its count. -/
theorem OnData_flush_first (env : Env) (fuel : Nat) (c c3 : CmdConn) (data out : Bytes)
    (a : Action) (h : OnData env fuel c data = .ok (c3, out, a)) :
    ∃ c2 flushed, flushWrites (takeInput c data).1 = .ok (c2, flushed) ∧
      flushed <+: out ∧ sameOut c3.worker c2.worker := by
  rw [OnData_eq] at h
  split at h
  · exact absurd h (by simp)
  · next c2 flushed hf =>
    refine ⟨c2, flushed, hf, ?_⟩
    split at h
    · simp only [Except.ok.injEq, Prod.mk.injEq] at h
      obtain ⟨h1, h2, _⟩ := h
      subst h1 h2
      exact ⟨List.prefix_refl _, sameOut_refl _⟩
    · split at h
      · exact absurd h (by simp)
      · simp only [Except.ok.injEq, Prod.mk.injEq] at h
        obtain ⟨h1, h2, _⟩ := h
        subst h1 h2
        refine ⟨?_, sameOut_refl _⟩
        unfold AppendError
        rw [List.append_assoc, List.append_assoc]
        exact List.prefix_append _ _
      · next b1 n1 rest hp =>
        split at h
        · exact absurd h (by simp)
        · next o1 b2 n2 hc =>
          have hp1 := closeNext_extends _ _ _ _ hc
          split at h
          · exact absurd h (by simp)
          · next c4 n3 o2 hd =>
            obtain ⟨hp2, hs⟩ := dispatch_out _ _ _ _ _ _ hd
            simp only [Except.ok.injEq, Prod.mk.injEq] at h
            obtain ⟨h1, h2, _⟩ := h
            subst h1 h2
            refine ⟨List.IsPrefix.trans hp1 hp2, ?_⟩
            rw [finishCall_worker]
            exact hs

theorem recvOut_all :
    ∀ (outCh : List Bytes) (out : Bytes),
      recvOut outCh.length outCh out = .ok ([], out ++ outCh.flatten) := by
  intro outCh
  induction outCh with
  | nil => intro out; simp [recvOut]
  | cons b rest ih =>
    intro out
    rw [List.length_cons, recvOut, ih]
    by_cases hb : b.length > 0
    · simp [hb]
    · have h0 : b = [] := List.length_eq_zero.mp (by omega)
      simp [h0]

/-- The flush in the hand-off state never blocks: it returns every queued buffer,
concatenated oldest first, and leaves the snapshot equal to `wakes`, the queue empty and
`outCount` at zero. -/
theorem flushWrites_handOff (c : CmdConn) (h : handOff c) :
    ∃ c2, flushWrites c = .ok (c2, c.worker.outCh.flatten) ∧
      c2.worker.wakes = c.worker.wakes ∧ c2.worker.wakeSnapshot = c.worker.wakes ∧
      c2.worker.outCh = [] ∧ c2.worker.outCount = 0 := by
  obtain ⟨h1, h2, h3⟩ := h
  unfold flushWrites
  simp only []
  by_cases hlt : c.worker.wakeSnapshot < c.worker.wakes
  · rw [if_pos hlt]
    by_cases hpos : c.worker.outCount > 0
    · rw [if_pos hpos]
      have hn : c.worker.outCount.toNat = c.worker.outCh.length := by rw [h1]; rfl
      rw [hn, recvOut_all]
      simp only [List.nil_append]
      refine ⟨_, rfl, rfl, rfl, rfl, ?_⟩
      show int32 (c.worker.outCount + -c.worker.outCount) = 0
      rw [add_neg_cancel]
      rfl
    · rw [if_neg hpos]
      have hl : c.worker.outCh = [] := by
        apply List.length_eq_zero.mp
        have : (c.worker.outCh.length : Int) ≤ 0 := by rw [← h1]; omega
        omega
      have hfl : c.worker.outCh.flatten = [] := by rw [hl]; rfl
      rw [hfl]
      refine ⟨_, rfl, rfl, rfl, hl, ?_⟩
      show c.worker.outCount = 0
      rw [h1, hl]
      rfl
  · rw [if_neg hlt]
    have he : c.worker.wakeSnapshot = c.worker.wakes := by omega
    have hl := h3 he
    have hfl : c.worker.outCh.flatten = [] := by rw [hl]; rfl
    rw [hfl]
    refine ⟨_, rfl, rfl, he, hl, ?_⟩
    rw [h1, hl]
    rfl

/-- The flush leaves `wakes` as it is, and a snapshot that is not ahead of `wakes` equal to
it. -/
theorem flushWrites_snapshot (c c2 : CmdConn) (out : Bytes) (h : flushWrites c = .ok (c2, out))
    (hle : c.worker.wakeSnapshot ≤ c.worker.wakes) :
    c2.worker.wakes = c.worker.wakes ∧ c2.worker.wakeSnapshot = c.worker.wakes := by
  unfold flushWrites at h
  simp only [] at h
  split at h
  · split at h
    · split at h
      · exact absurd h (by simp)
      · simp only [Except.ok.injEq, Prod.mk.injEq] at h
        obtain ⟨h1, _⟩ := h
        subst h1
        exact ⟨rfl, rfl⟩
    · simp only [Except.ok.injEq, Prod.mk.injEq] at h
      obtain ⟨h1, _⟩ := h
      subst h1
      exact ⟨rfl, rfl⟩
  · simp only [Except.ok.injEq, Prod.mk.injEq] at h
    obtain ⟨h1, _⟩ := h
    subst h1
    exact ⟨rfl, by omega⟩

/-- A call of `OnData` in the hand-off state returns the queued buffers, oldest first, at the
head of its output and leaves the queue empty, `outCount` at zero and the snapshot equal to
`wakes`. -/
theorem OnData_handOff (env : Env) (fuel : Nat) (c c3 : CmdConn) (data out : Bytes)
    (a : Action) (h : handOff c) (hr : OnData env fuel c data = .ok (c3, out, a)) :
    c.worker.outCh.flatten <+: out ∧ c3.worker.outCount = 0 ∧ c3.worker.outCh = [] ∧
      c3.worker.wakeSnapshot = c3.worker.wakes := by
  obtain ⟨c2, flushed, hf, hp, hw, hs, ho, hc⟩ := OnData_flush_first env fuel c c3 data out a hr
  have ht : (takeInput c data).1.worker = c.worker := (takeInput_fields c data).2.2.2.2.2
  have h2 : handOff (takeInput c data).1 := by
    unfold handOff
    rw [ht]
    exact h
  obtain ⟨c4, hf4, _, g2, g3, g4⟩ := flushWrites_handOff _ h2
  rw [hf] at hf4
  simp only [Except.ok.injEq, Prod.mk.injEq] at hf4
  obtain ⟨e1, e2⟩ := hf4
  subst e1
  rw [ht] at e2
  have g1 := (flushWrites_snapshot _ _ _ hf (by rw [ht]; exact h.2.1)).1
  refine ⟨by rw [← e2]; exact hp, by rw [hc, g4], by rw [ho, g3], ?_⟩
  rw [hs, hw, g2, g1]

theorem step_handOff (env : Env) (c c2 : CmdConn) (hs : Step env countersFit c c2)
    (h : handOff c) : handOff c2 := by
  cases hs with
  | onData fuel data _ _ out a hr =>
    obtain ⟨_, h1, h2, h3⟩ := OnData_handOff env fuel c c2 data out a h hr
    exact ⟨by rw [h1, h2]; rfl, by omega, fun _ => h2⟩
  | worker _ _ hok hr =>
    obtain ⟨hwf, hof⟩ := hok
    unfold wakesFit at hwf
    unfold outFits at hof
    obtain ⟨h1, h2, h3⟩ := h
    obtain ⟨e0, e | ⟨b, e1, e2, e3⟩⟩ := workerStep_fields env c c2 hr
    · obtain ⟨e1, e2, e3⟩ := e
      exact ⟨by rw [e3, e2]; exact h1, by rw [e0, e1]; exact h2,
        fun hq => by rw [e2]; exact h3 (by rw [← e0, ← e1]; exact hq)⟩
    · have hu : uint64 (c.worker.wakes + 1) = c.worker.wakes + 1 := by
        unfold uint64
        exact Nat.mod_eq_of_lt hwf
      have hi : int32 (c.worker.outCount + 1) = c.worker.outCount + 1 := by
        apply int32_eq_self <;> omega
      refine ⟨?_, ?_, ?_⟩
      · rw [e3, e2, hi, h1, List.length_append, List.length_singleton]
        push_cast
        rfl
      · rw [e0, e1, hu]; omega
      · intro hq
        rw [e0, e1, hu] at hq
        omega

theorem reachable_handOff (env : Env) (c0 c : CmdConn) (h0 : handOff c0)
    (hr : Reachable env countersFit c0 c) : handOff c := by
  induction hr with
  | start => exact h0
  | step c1 c2 _ hs ih => exact step_handOff env c1 c2 hs ih

/-- A call of `OnData` on a connection whose snapshot is not ahead of `wakes` leaves the two
counters equal. -/
theorem OnData_snapshot (env : Env) (fuel : Nat) (c c3 : CmdConn) (data out : Bytes)
    (a : Action) (h : c.worker.wakeSnapshot ≤ c.worker.wakes)
    (hr : OnData env fuel c data = .ok (c3, out, a)) :
    c3.worker.wakeSnapshot = c3.worker.wakes := by
  obtain ⟨c2, flushed, hf, _, hw, hs, _, _⟩ := OnData_flush_first env fuel c c3 data out a hr
  have ht : (takeInput c data).1.worker = c.worker := (takeInput_fields c data).2.2.2.2.2
  obtain ⟨g1, g2⟩ := flushWrites_snapshot _ _ _ hf (by rw [ht]; exact h)
  rw [hs, hw, g2, g1]

theorem step_snapshot_le (env : Env) (c c2 : CmdConn) (hs : Step env wakesFit c c2)
    (h : c.worker.wakeSnapshot ≤ c.worker.wakes) :
    c2.worker.wakeSnapshot ≤ c2.worker.wakes := by
  cases hs with
  | onData fuel data _ _ out a hr =>
    exact Nat.le_of_eq (OnData_snapshot env fuel c c2 data out a h hr)
  | worker _ _ hok hr =>
    unfold wakesFit at hok
    obtain ⟨e0, e | ⟨b, e1, _, _⟩⟩ := workerStep_fields env c c2 hr
    · rw [e0, e.1]; exact h
    · have hu : uint64 (c.worker.wakes + 1) = c.worker.wakes + 1 := by
        unfold uint64
        exact Nat.mod_eq_of_lt hok
      rw [e0, e1, hu]
      omega

theorem reachable_snapshot_le (env : Env) (c0 c : CmdConn)
    (h0 : c0.worker.wakeSnapshot ≤ c0.worker.wakes) (hr : Reachable env wakesFit c0 c) :
    c.worker.wakeSnapshot ≤ c.worker.wakes := by
  induction hr with
  | start => exact h0
  | step c1 c2 _ hs ih => exact step_snapshot_le env c1 c2 hs ih

/-- The sample run of the step model: a `SLOW` frame on a fresh connection, then one
iteration of the worker's loop. -/
theorem slowServed_reachable (ok : CmdConn → Prop) (h : ok afterSlow) :
    Reachable demoEnv ok {} slowServed :=
  Reachable.step afterSlow slowServed
    (Reachable.step {} afterSlow Reachable.start
      (Step.onData 4 (frame ["SLOW"]) {} afterSlow [] Action.None (by decide)))
    (Step.worker afterSlow slowServed h (by decide))

theorem int32_range (n : Int) : -2147483648 ≤ int32 n ∧ int32 n < 2147483648 := by
  rw [int32_wrap]
  omega

theorem toDigitsCore_append :
    ∀ (n fuel : Nat) (ds : List Char), n < fuel →
      Nat.toDigitsCore 10 fuel n ds = Nat.toDigits 10 n ++ ds := by
  intro n
  induction n using Nat.strong_induction_on with
  | _ n ih =>
    intro fuel ds hlt
    cases fuel with
    | zero => omega
    | succ fuel =>
      unfold Nat.toDigits
      rw [Nat.toDigitsCore, Nat.toDigitsCore]
      by_cases h0 : n / 10 = 0
      · simp [h0]
      · have hlt2 : n / 10 < n := Nat.div_lt_self (by omega) (by decide)
        rw [if_neg h0, if_neg h0, ih (n / 10) hlt2 fuel _ (by omega),
          ih (n / 10) hlt2 n _ hlt2]
        simp

theorem toDigits_small (n : Nat) (h : n < 10) : Nat.toDigits 10 n = [Nat.digitChar n] := by
  unfold Nat.toDigits
  rw [Nat.toDigitsCore]
  have h0 : n / 10 = 0 := by omega
  have h1 : n % 10 = n := by omega
  simp [h0, h1]

theorem toDigits_step (n : Nat) (h : 10 ≤ n) :
    Nat.toDigits 10 n = Nat.toDigits 10 (n / 10) ++ [Nat.digitChar (n % 10)] := by
  have h0 : ¬ n / 10 = 0 := by omega
  have hlt2 : n / 10 < n := Nat.div_lt_self (by omega) (by decide)
  conv => lhs; unfold Nat.toDigits
  rw [Nat.toDigitsCore]
  rw [if_neg h0, toDigitsCore_append (n / 10) n _ hlt2]

theorem natDigits_eq (n : Nat) :
    natDigits n = (Nat.toDigits 10 n).map (fun ch => ch.toNat.toUInt8) := rfl

theorem digit_byte :
    ∀ k, k < 10 → (Nat.digitChar k).toNat.toUInt8 = (48 + k).toUInt8 ∧
      (48 : UInt8) ≤ (48 + k).toUInt8 ∧ (48 + k).toUInt8 ≤ (57 : UInt8) ∧
      (48 + k).toUInt8.toNat - 48 = k := by
  decide

theorem natDigits_small (n : Nat) (h : n < 10) : natDigits n = [(48 + n).toUInt8] := by
  rw [natDigits_eq, toDigits_small n h]
  simp [(digit_byte n h).1]

theorem natDigits_step (n : Nat) (h : 10 ≤ n) :
    natDigits n = natDigits (n / 10) ++ [(48 + n % 10).toUInt8] := by
  rw [natDigits_eq, toDigits_step n h, natDigits_eq]
  simp [(digit_byte (n % 10) (Nat.mod_lt _ (by decide))).1]

theorem atoiDigits_append (xs ys : Bytes) :
    ∀ acc, atoiDigits (xs ++ ys) acc = (atoiDigits xs acc).bind (atoiDigits ys) := by
  induction xs with
  | nil => intro acc; rfl
  | cons b rest ih =>
    intro acc
    rw [List.cons_append, atoiDigits, atoiDigits]
    split
    · exact ih _
    · rfl

/-- The digit loop reads back the decimal rendering of a natural number. -/
theorem atoiDigits_natDigits (n : Nat) : atoiDigits (natDigits n) 0 = some n := by
  induction n using Nat.strong_induction_on with
  | _ n ih =>
    by_cases h : n < 10
    · obtain ⟨_, h1, h2, h3⟩ := digit_byte n h
      rw [natDigits_small n h, atoiDigits, if_pos ⟨h1, h2⟩, h3]
      simp [atoiDigits]
    · have hlt2 : n / 10 < n := Nat.div_lt_self (by omega) (by decide)
      obtain ⟨_, h1, h2, h3⟩ := digit_byte (n % 10) (Nat.mod_lt _ (by decide))
      rw [natDigits_step n (by omega), atoiDigits_append, ih _ hlt2]
      simp only [Option.bind]
      rw [atoiDigits, if_pos ⟨h1, h2⟩, h3]
      simp only [atoiDigits]
      congr 1
      omega

/-- The decimal rendering of a natural number starts with a digit. -/
theorem natDigits_head (n : Nat) :
    ∃ b rest, natDigits n = b :: rest ∧ (48 : UInt8) ≤ b ∧ b ≤ (57 : UInt8) := by
  induction n using Nat.strong_induction_on with
  | _ n ih =>
    by_cases h : n < 10
    · obtain ⟨_, h1, h2, _⟩ := digit_byte n h
      exact ⟨_, [], natDigits_small n h, h1, h2⟩
    · have hlt2 : n / 10 < n := Nat.div_lt_self (by omega) (by decide)
      obtain ⟨b, rest, e, h1, h2⟩ := ih _ hlt2
      refine ⟨b, rest ++ [(48 + n % 10).toUInt8], ?_, h1, h2⟩
      rw [natDigits_step n (by omega), e]
      rfl

/-- The round trip `strconv.Atoi (strconv.Itoa n) = n` on the 64-bit range. -/
theorem atoi_itoa (n : Int) (h0 : -9223372036854775808 ≤ n) (h1 : n < 9223372036854775808) :
    atoi (itoa n) = some n := by
  obtain ⟨b, rest, e, hb1, hb2⟩ := natDigits_head n.natAbs
  have hd := atoiDigits_natDigits n.natAbs
  have hb45 : b ≠ 45 := by
    intro h; subst h; exact absurd hb1 (by decide)
  have hb43 : b ≠ 43 := by
    intro h; subst h; exact absurd hb1 (by decide)
  unfold itoa
  by_cases hn : n < 0
  · rw [if_pos hn]
    have hs : ascii "-" ++ natDigits n.natAbs = 45 :: natDigits n.natAbs := rfl
    rw [hs]
    unfold atoi
    have hne : natDigits n.natAbs ≠ [] := by rw [e]; simp
    simp only [true_or, if_true, if_neg hne, hd, decide_True]
    have hle : n.natAbs ≤ 9223372036854775808 := by omega
    rw [if_pos hle]
    congr 1
    omega
  · rw [if_neg hn, e]
    unfold atoi
    have hnb : ¬ (b = 45 ∨ b = 43) := by
      intro h; rcases h with h | h
      · exact hb45 h
      · exact hb43 h
    have hne : natDigits n.natAbs ≠ [] := by rw [e]; simp
    have hlt : n.natAbs < 9223372036854775808 := by omega
    simp only []
    rw [if_neg hnb, ← e, hd, if_neg hne]
    simp only [hb45, decide_False, Bool.false_eq_true, if_false, if_pos hlt]
    congr 1
    omega

/-- A value that went through `int32` is read back unchanged. -/
theorem atoi_itoa_int32 (n : Int) : (atoi (itoa (int32 n))).map int32 = some (int32 n) := by
  obtain ⟨h0, h1⟩ := int32_range n
  rw [atoi_itoa (int32 n) (by omega) (by omega)]
  simp only [Option.map]
  rw [int32_eq_self _ h0 h1]

theorem RaftBootstrap_Marshal_args (name : Bytes) (c : RaftBootstrap) :
    RaftBootstrap.Marshal name [] c = bulkArray (RaftBootstrap.args name c) := by
  unfold RaftBootstrap.Marshal RaftBootstrap.args bulkArray AppendBulkInt32
  split <;> rfl

theorem RaftRemove_Marshal_args (name : Bytes) (c : RaftRemove) :
    RaftRemove.Marshal name [] c = bulkArray (RaftRemove.args name c) := by
  unfold RaftRemove.Marshal RaftRemove.args bulkArray AppendBulkInt32
  split <;> rfl

/-- What `RaftBootstrap.Parse` accepts: one argument, giving the global id, or three
arguments whose second and third `Atoi` reads, giving their values cut to `int32`. -/
theorem RaftBootstrap_Parse_ok (args : List Bytes) (c : RaftBootstrap)
    (h : RaftBootstrap.Parse args = .ok c) :
    (args.length = 1 ∧ c.ID = GlobalRaftID) ∨
      (∃ a0 a1 a2 v1 v2, args = [a0, a1, a2] ∧ atoi a1 = some v1 ∧ atoi a2 = some v2 ∧
        c.ID = { Schema := int32 v1, Slice := int32 v2 }) := by
  unfold RaftBootstrap.Parse at h
  split at h
  · simp only [Except.ok.injEq] at h
    subst h
    exact Or.inl ⟨rfl, rfl⟩
  · next a0 a1 a2 =>
    split at h
    · exact absurd h (by simp)
    · next v1 hv1 =>
      split at h
      · exact absurd h (by simp)
      · next v2 hv2 =>
        simp only [Except.ok.injEq] at h
        subst h
        exact Or.inr ⟨a0, a1, a2, v1, v2, rfl, hv1, hv2, rfl⟩
  · exact absurd h (by simp)

/-- Parsing the arguments that `RaftBootstrap.Marshal` encodes gives a command with the same
marshalled bytes, for every accepted command. -/
theorem RaftBootstrap_reparse (name : Bytes) (args : List Bytes) (c : RaftBootstrap)
    (h : RaftBootstrap.Parse args = .ok c) :
    ∃ c2, RaftBootstrap.Parse (RaftBootstrap.args name c) = .ok c2 ∧
      RaftBootstrap.Marshal name [] c2 = RaftBootstrap.Marshal name [] c := by
  by_cases hs : c.ID.Schema < 0
  · refine ⟨{ ID := GlobalRaftID }, ?_, ?_⟩
    · unfold RaftBootstrap.args
      rw [if_pos hs]
      rfl
    · unfold RaftBootstrap.Marshal
      rw [if_pos hs, if_pos (by decide)]
  · refine ⟨c, ?_, rfl⟩
    rcases RaftBootstrap_Parse_ok args c h with ⟨_, hg⟩ | ⟨a0, a1, a2, v1, v2, _, _, _, hid⟩
    · rw [hg] at hs
      exact absurd (by decide) hs
    · have e1 : c.ID.Schema = int32 v1 := by rw [hid]
      have e2 : c.ID.Slice = int32 v2 := by rw [hid]
      obtain ⟨r1, r2⟩ := int32_range v1
      obtain ⟨r3, r4⟩ := int32_range v2
      unfold RaftBootstrap.args
      rw [if_neg hs]
      unfold RaftBootstrap.Parse
      simp only []
      rw [e1, e2, atoi_itoa _ (by omega) (by omega), atoi_itoa _ (by omega) (by omega)]
      simp only []
      rw [int32_eq_self _ r1 r2, int32_eq_self _ r3 r4]
      congr 1
      cases c with
      | mk id =>
        simp only at hid
        rw [hid]

/-- The argument counts that `RaftBootstrap.Parse` rejects. -/
theorem RaftBootstrap_Parse_count (args : List Bytes) (h1 : args.length ≠ 1)
    (h3 : args.length ≠ 3) :
    RaftBootstrap.Parse args = .error (ascii "ERR expected 0 or 2 params") := by
  unfold RaftBootstrap.Parse
  split
  · exact absurd rfl h1
  · exact absurd rfl h3
  · rfl

/-- The acknowledgement loop ends with the cursor at the size, or with the group cleared; it
never runs out of budget. -/
theorem sendQueuedLoop_result (group : cmdGroup) :
    ∀ (n : Nat) (i : Int) (out : Bytes),
      (∃ o, sendQueuedLoop group n i out = .ok (o, { group with qidx := group.size }, true)) ∨
      (∃ o, sendQueuedLoop group n i out = .ok (o, group.clear, false)) ∨
      sendQueuedLoop group n i out = .error .panic := by
  intro n
  induction n with
  | zero => intro i out; exact Or.inl ⟨out, rfl⟩
  | succ n ih =>
    intro i out
    rw [sendQueuedLoop]
    have hidx : (∃ command, index group.list i = .ok command) ∨
        index group.list i = .error .panic := by
      unfold index
      split
      · exact Or.inr rfl
      · split
        · exact Or.inl ⟨_, rfl⟩
        · exact Or.inr rfl
    rcases hidx with ⟨command, hc⟩ | hp
    · rw [hc]
      simp only []
      split
      · exact Or.inr (Or.inl ⟨_, rfl⟩)
      · exact ih _ _
    · rw [hp]
      exact Or.inr (Or.inr rfl)

/-- The three outcomes of `sendQueued`: true with the flags kept, false with the group
cleared, or a panic. -/
theorem sendQueued_result (out : Bytes) (group : cmdGroup) :
    (∃ o g, sendQueued out group = .ok (o, g, true) ∧ g.isMulti = group.isMulti ∧
        g.isWorker = group.isWorker) ∨
      (∃ o, sendQueued out group = .ok (o, cmdGroup.clear
          (if group.qidx = -1 then { group with qidx := 0 } else group), false)) ∨
      sendQueued out group = .error .panic := by
  unfold sendQueued
  by_cases hq : group.qidx = -1
  · simp only [hq, if_true]
    split
    · exact Or.inl ⟨_, _, rfl, rfl, rfl⟩
    · rcases sendQueuedLoop_result { group with qidx := 0 }
          (({ group with qidx := 0 } : cmdGroup).size - 0).toNat 0 (AppendOK out) with
        ⟨o, h⟩ | ⟨o, h⟩ | h
      · exact Or.inl ⟨_, _, h, rfl, rfl⟩
      · exact Or.inr (Or.inl ⟨o, h⟩)
      · exact Or.inr (Or.inr h)
  · simp only [hq, if_false]
    split
    · exact Or.inl ⟨_, _, rfl, rfl, rfl⟩
    · rcases sendQueuedLoop_result group (group.size - group.qidx).toNat group.qidx out with
        ⟨o, h⟩ | ⟨o, h⟩ | h
      · exact Or.inl ⟨_, _, h, rfl, rfl⟩
      · exact Or.inr (Or.inl ⟨o, h⟩)
      · exact Or.inr (Or.inr h)

theorem runLeading_isMulti (group : cmdGroup) :
    ∀ (list : List Command) (out : Bytes),
      (runLeading group list out).2.isMulti = group.isMulti := by
  intro list
  induction list with
  | nil => intro out; rfl
  | cons command rest ih =>
    intro out
    rw [runLeading]
    split
    · rfl
    · exact ih _

/-- `execute` returns, with a group that is MULTI only if it was, or panics. -/
theorem execute_result (out : Bytes) (group : cmdGroup) :
    (∃ o g, execute out group = .ok (o, g) ∧ (g.isMulti = true → group.isMulti = true)) ∨
      execute out group = .error .panic := by
  unfold execute
  by_cases hm : group.isMulti = true
  · rw [if_pos hm]
    rcases sendQueued_result out group with ⟨o, g, h, _, _⟩ | ⟨o, h⟩ | h
    · rw [h]
      exact Or.inl ⟨_, _, rfl, fun _ => hm⟩
    · rw [h]
      exact Or.inl ⟨_, _, rfl, fun _ => hm⟩
    · rw [h]
      exact Or.inr rfl
  · rw [if_neg hm]
    exact Or.inl ⟨_, _, rfl, fun h => h⟩

/-- The body of the backlog loop for one group returns or panics. A group is MULTI afterwards
only if it was before, and the exit `restart` is taken only by a MULTI group, which is then
cleared and no longer MULTI. -/
theorem drainGroup_result (group : cmdGroup) (out : Bytes) :
    (∃ exit g o, drainGroup group out = .ok (exit, g, o) ∧
        (g.isMulti = true → group.isMulti = true) ∧
        (exit = .restart → group.isMulti = true ∧ g.isMulti = false)) ∨
      drainGroup group out = .error .panic := by
  unfold drainGroup
  by_cases hw : group.isWorker = true
  · rw [if_pos hw]
    by_cases hm : group.isMulti = true
    · rw [if_pos hm]
      rcases sendQueued_result out group with ⟨o, g, h, _, _⟩ | ⟨o, h⟩ | h
      · rw [h]
        exact Or.inl ⟨_, _, _, rfl, fun _ => hm, fun he => by cases he⟩
      · rw [h]
        exact Or.inl ⟨_, _, _, rfl, fun _ => hm, fun _ => ⟨hm, rfl⟩⟩
      · rw [h]
        exact Or.inr rfl
    · rw [if_neg hm]
      refine Or.inl ⟨_, _, _, rfl, fun h => ?_, fun he => by cases he⟩
      rw [runLeading_isMulti] at h
      exact h
  · rw [if_neg hw]
    by_cases hm : group.isMulti = true
    · rw [if_pos hm]
      rcases sendQueued_result out group with ⟨o, g, h, _, _⟩ | ⟨o, h⟩ | h
      · rw [h]
        simp only [Bool.not_true, Bool.false_eq_true, if_false]
        rcases execute_result o g with ⟨o2, g2, h2, _⟩ | h2
        · rw [h2]
          exact Or.inl ⟨_, _, _, rfl, fun _ => hm, fun he => by cases he⟩
        · rw [h2]
          exact Or.inr rfl
      · rw [h]
        exact Or.inl ⟨_, _, _, rfl, fun _ => hm, fun _ => ⟨hm, rfl⟩⟩
      · rw [h]
        exact Or.inr rfl
    · rw [if_neg hm]
      rcases execute_result out group with ⟨o2, g2, h2, hf⟩ | h2
      · rw [h2]
        exact Or.inl ⟨_, _, _, rfl, hf, fun he => by cases he⟩
      · rw [h2]
        exact Or.inr rfl

theorem multiCount_append (a b : List cmdGroup) :
    multiCount (a ++ b) = multiCount a + multiCount b := by
  unfold multiCount
  exact List.countP_append _ _ _

theorem multiCount_cons (g : cmdGroup) (b : List cmdGroup) :
    multiCount (g :: b) = multiCount b + (if g.isMulti = true then 1 else 0) := by
  unfold multiCount
  exact List.countP_cons _ _ _

/-- One pass of the backlog loop returns or panics. It never adds a MULTI group, and a pass
that ends in a restart has cleared one: the backlog it leaves holds fewer MULTI groups. -/
theorem drainPass_result :
    ∀ (rest seen : List cmdGroup) (out : Bytes),
      (∃ exit b o, drainPass seen rest out = .ok (exit, b, o) ∧
          multiCount b ≤ multiCount seen + multiCount rest ∧
          (exit = .restart → multiCount b < multiCount seen + multiCount rest)) ∨
        drainPass seen rest out = .error .panic := by
  intro rest
  induction rest with
  | nil =>
    intro seen out
    refine Or.inl ⟨_, _, _, rfl, ?_, fun he => by cases he⟩
    simp [multiCount]
  | cons group rest ih =>
    intro seen out
    rw [drainPass]
    rcases drainGroup_result group out with ⟨exit, g, o, h, hkeep, hrestart⟩ | h
    · rw [h]
      have hg : (if g.isMulti = true then 1 else 0) ≤
          (if group.isMulti = true then 1 else 0) := by
        by_cases hm : g.isMulti = true
        · rw [if_pos hm, if_pos (hkeep hm)]
        · rw [if_neg hm]; exact Nat.zero_le _
      cases exit with
      | done =>
        simp only []
        rcases ih (seen ++ [g]) o with ⟨exit2, b, o2, h2, hle, hlt⟩ | h2
        · refine Or.inl ⟨exit2, b, o2, h2, ?_, fun he => ?_⟩
          · rw [multiCount_append, multiCount_cons] at hle
            rw [multiCount_cons]
            simp only [multiCount, List.countP_nil] at hle ⊢
            omega
          · have := hlt he
            rw [multiCount_append, multiCount_cons] at this
            rw [multiCount_cons]
            simp only [multiCount, List.countP_nil] at this ⊢
            omega
        · exact Or.inr h2
      | restart =>
        simp only []
        obtain ⟨hm, hc⟩ := hrestart rfl
        refine Or.inl ⟨_, _, _, rfl, ?_, fun _ => ?_⟩
        · rw [multiCount_append, multiCount_cons, multiCount_cons]
          omega
        · rw [multiCount_append, multiCount_cons, multiCount_cons, if_pos hm,
            if_neg (by rw [hc]; decide)]
          omega
      | transfer =>
        simp only []
        refine Or.inl ⟨_, _, _, rfl, ?_, fun he => by cases he⟩
        rw [multiCount_cons, multiCount_cons]
        omega
    · rw [h]
      exact Or.inr rfl

/-- The backlog loop with its restarts: a budget above the number of MULTI groups is never
exhausted, so the loop returns, not through a restart, or panics. -/
theorem drain_result :
    ∀ (fuel : Nat) (backlog : List cmdGroup) (out : Bytes), multiCount backlog < fuel →
      (∃ exit b o, drain fuel backlog out = .ok (exit, b, o) ∧ exit ≠ .restart) ∨
        drain fuel backlog out = .error .panic := by
  intro fuel
  induction fuel with
  | zero => intro backlog out h; omega
  | succ fuel ih =>
    intro backlog out h
    rw [drain]
    rcases drainPass_result backlog [] out with ⟨exit, b, o, hp, _, hlt⟩ | hp
    · rw [hp]
      cases exit with
      | restart =>
        simp only []
        have := hlt rfl
        simp only [multiCount, List.countP_nil, Nat.zero_add] at this
        exact ih b o (by unfold multiCount at h ⊢; omega)
      | done => exact Or.inl ⟨_, _, _, rfl, by decide⟩
      | transfer => exact Or.inl ⟨_, _, _, rfl, by decide⟩
    · rw [hp]
      exact Or.inr rfl

/-- Budget beyond the number of MULTI groups plus one makes no difference to the loop. -/
theorem drain_budget :
    ∀ (f1 f2 : Nat) (backlog : List cmdGroup) (out : Bytes),
      multiCount backlog < f1 → multiCount backlog < f2 →
      drain f1 backlog out = drain f2 backlog out := by
  intro f1
  induction f1 with
  | zero => intro f2 backlog out h; omega
  | succ f1 ih =>
    intro f2 backlog out h1 h2
    cases f2 with
    | zero => omega
    | succ f2 =>
      rw [drain, drain]
      rcases drainPass_result backlog [] out with ⟨exit, b, o, hp, _, hlt⟩ | hp
      · rw [hp]
        cases exit with
        | restart =>
          simp only []
          have := hlt rfl
          simp only [multiCount, List.countP_nil, Nat.zero_add] at this
          exact ih f2 b o (by unfold multiCount at h1 ⊢; omega)
            (by unfold multiCount at h2 ⊢; omega)
        | done => rfl
        | transfer => rfl
      · rw [hp]

/-- On a list of fewer than 2^31 commands the acknowledgement loop stays inside the list: it
does not panic. -/
theorem sendQueuedLoop_total (group : cmdGroup) (hlen : group.list.length < 2147483648) :
    ∀ (n k : Nat) (out : Bytes), (n ≠ 0 → k + n ≤ group.list.length) →
      sendQueuedLoop group n (k : Int) out ≠ .error .panic := by
  intro n
  induction n with
  | zero => intro k out _; simp [sendQueuedLoop]
  | succ n ih =>
    intro k out hk
    have hk2 := hk (Nat.succ_ne_zero n)
    have hklt : k < group.list.length := by omega
    have hget : group.list[k]? = some group.list[k] := List.getElem?_eq_getElem hklt
    have hstep : int32 ((k : Int) + 1) = ((k + 1 : Nat) : Int) := by
      rw [int32_eq_self] <;> push_cast <;> omega
    rw [sendQueuedLoop, index_natCast _ _ _ hget]
    simp only []
    split
    · simp
    · rw [hstep]
      exact ih (k + 1) _ (fun _ => by omega)

theorem clear_wellFormed (g : cmdGroup) : wellFormed g.clear :=
  ⟨Int.le_refl _, Nat.zero_lt_succ _⟩

/-- On a well-formed group `sendQueued` returns, and the group it leaves is well-formed. -/
theorem sendQueued_wellFormed (out : Bytes) (group : cmdGroup) (h : wellFormed group) :
    ∃ o g ok, sendQueued out group = .ok (o, g, ok) ∧ wellFormed g := by
  obtain ⟨hq, hlen⟩ := h
  have hsize := size_eq_length group hlen
  unfold sendQueued
  by_cases hq1 : group.qidx = -1
  · simp only [hq1, if_true]
    have hsize0 : ({ group with qidx := 0 } : cmdGroup).size = group.list.length :=
      size_eq_length { group with qidx := 0 } hlen
    split
    · exact ⟨_, _, _, rfl, (by omega : (-1 : Int) ≤ 0), hlen⟩
    · have hn : (({ group with qidx := 0 } : cmdGroup).size - 0).toNat = group.list.length := by
        rw [hsize0]; simp
      rw [hn]
      have htot := sendQueuedLoop_total { group with qidx := 0 } hlen group.list.length 0
        (AppendOK out) (fun _ => by simp)
      rcases sendQueuedLoop_result { group with qidx := 0 } group.list.length 0
          (AppendOK out) with ⟨o, hr⟩ | ⟨o, hr⟩ | hr
      · refine ⟨_, _, _, hr, ?_, hlen⟩
        show -1 ≤ ({ group with qidx := 0 } : cmdGroup).size
        rw [hsize0]; omega
      · exact ⟨_, _, _, hr, clear_wellFormed _⟩
      · exact absurd hr htot
  · simp only [hq1, if_false]
    split
    · exact ⟨_, _, _, rfl, hq, hlen⟩
    · have hq0 : 0 ≤ group.qidx := by omega
      obtain ⟨k, hk⟩ := Int.eq_ofNat_of_zero_le hq0
      have htot := sendQueuedLoop_total group hlen (group.size - group.qidx).toNat k out
        (fun hne => by
          rw [hsize, hk] at hne ⊢
          omega)
      rw [hk] at htot ⊢
      rcases sendQueuedLoop_result group (group.size - (k : Int)).toNat (k : Int) out with
        ⟨o, hr⟩ | ⟨o, hr⟩ | hr
      · refine ⟨_, _, _, hr, ?_, hlen⟩
        show -1 ≤ group.size
        rw [hsize]; omega
      · exact ⟨_, _, _, hr, clear_wellFormed _⟩
      · exact absurd hr htot

theorem execute_wellFormed (out : Bytes) (group : cmdGroup) (h : wellFormed group) :
    ∃ o g, execute out group = .ok (o, g) ∧ wellFormed g := by
  unfold execute
  split
  · obtain ⟨o, g, ok, hs, hw⟩ := sendQueued_wellFormed out group h
    rw [hs]
    simp only []
    split
    · exact ⟨_, _, rfl, hw⟩
    · exact ⟨_, _, rfl, hw⟩
  · exact ⟨_, _, rfl, h⟩

theorem runLeading_wellFormed (group : cmdGroup) (hq : -1 ≤ group.qidx) :
    ∀ (list : List Command) (out : Bytes), list.length < 2147483648 →
      group.list.length < 2147483648 → wellFormed (runLeading group list out).2 := by
  intro list
  induction list with
  | nil => intro out _ hg; exact ⟨hq, hg⟩
  | cons command rest ih =>
    intro out hl hg
    rw [runLeading]
    split
    · exact ⟨hq, hl⟩
    · exact ih _ (by simp only [List.length_cons] at hl; omega) hg

/-- On a well-formed group the body of the backlog loop returns a well-formed group. -/
theorem drainGroup_wellFormed (group : cmdGroup) (out : Bytes) (h : wellFormed group) :
    ∃ exit g o, drainGroup group out = .ok (exit, g, o) ∧ wellFormed g := by
  unfold drainGroup
  split
  · split
    · obtain ⟨o, g, ok, hs, hw⟩ := sendQueued_wellFormed out group h
      rw [hs]
      simp only []
      split
      · exact ⟨_, _, _, rfl, hw⟩
      · exact ⟨_, _, _, rfl, hw⟩
    · exact ⟨_, _, _, rfl, runLeading_wellFormed group h.1 group.list out h.2 h.2⟩
  · split
    · obtain ⟨o, g, ok, hs, hw⟩ := sendQueued_wellFormed out group h
      rw [hs]
      simp only []
      split
      · exact ⟨_, _, _, rfl, hw⟩
      · obtain ⟨o2, g2, he, hw2⟩ := execute_wellFormed o g hw
        rw [he]
        exact ⟨_, _, _, rfl, hw2⟩
    · obtain ⟨o2, g2, he, hw2⟩ := execute_wellFormed out group h
      rw [he]
      exact ⟨_, _, _, rfl, hw2⟩

theorem drainPass_wellFormed :
    ∀ (rest seen : List cmdGroup) (out : Bytes),
      (∀ g ∈ seen, wellFormed g) → (∀ g ∈ rest, wellFormed g) →
      ∃ exit b o, drainPass seen rest out = .ok (exit, b, o) ∧ ∀ g ∈ b, wellFormed g := by
  intro rest
  induction rest with
  | nil => intro seen out hs _; exact ⟨_, _, _, rfl, hs⟩
  | cons group rest ih =>
    intro seen out hs hr
    have hg := hr group (List.mem_cons_self _ _)
    have hrest : ∀ g ∈ rest, wellFormed g := fun g hm => hr g (List.mem_cons_of_mem _ hm)
    obtain ⟨exit, g1, o, hd, hw⟩ := drainGroup_wellFormed group out hg
    rw [drainPass, hd]
    cases exit with
    | done =>
      simp only []
      apply ih (seen ++ [g1]) o _ hrest
      intro g hm
      rcases List.mem_append.mp hm with h1 | h1
      · exact hs g h1
      · rw [List.mem_singleton.mp h1]; exact hw
    | restart =>
      simp only []
      refine ⟨_, _, _, rfl, fun g hm => ?_⟩
      rcases List.mem_append.mp hm with h1 | h1
      · exact hs g h1
      · rcases List.mem_cons.mp h1 with h2 | h2
        · rw [h2]; exact hw
        · exact hrest g h2
    | transfer =>
      simp only []
      refine ⟨_, _, _, rfl, fun g hm => ?_⟩
      rcases List.mem_cons.mp hm with h2 | h2
      · rw [h2]; exact hw
      · exact hrest g h2

/-- On a backlog of well-formed groups the loop returns a result whenever the budget exceeds
the number of MULTI groups. -/
theorem drain_wellFormed :
    ∀ (fuel : Nat) (backlog : List cmdGroup) (out : Bytes), multiCount backlog < fuel →
      (∀ g ∈ backlog, wellFormed g) →
      ∃ exit b o, drain fuel backlog out = .ok (exit, b, o) ∧ exit ≠ .restart := by
  intro fuel
  induction fuel with
  | zero => intro backlog out h; omega
  | succ fuel ih =>
    intro backlog out h hwf
    obtain ⟨exit, b, o, hp, hb⟩ := drainPass_wellFormed backlog [] out
      (fun g hm => absurd hm (List.not_mem_nil g)) hwf
    have hlt : exit = .restart → multiCount b < multiCount backlog := by
      rcases drainPass_result backlog [] out with ⟨exit2, b2, o2, hp2, _, hlt2⟩ | hp2
      · rw [hp] at hp2
        simp only [Except.ok.injEq, Prod.mk.injEq] at hp2
        obtain ⟨e1, e2, _⟩ := hp2
        subst e1 e2
        intro he
        have := hlt2 he
        simp only [multiCount, List.countP_nil, Nat.zero_add] at this
        exact this
      · rw [hp] at hp2
        exact absurd hp2 (by simp)
    rw [drain, hp]
    cases exit with
    | restart =>
      simp only []
      exact ih b o (by have := hlt rfl; omega) hb
    | done => exact ⟨_, _, _, rfl, by decide⟩
    | transfer => exact ⟨_, _, _, rfl, by decide⟩

/-- When the codec, asked frame by frame, reports an error within the budget, the parse loop
leaves through its error return with that error. -/
theorem parseLoop_firstError (env : Env) (err : Bytes) :
    ∀ (fuel : Nat) (backlog : List cmdGroup) (next : cmdGroup) (input : Bytes)
      (command : Option Command), firstError env fuel input = some err →
      ∃ b n rest, parseLoop env fuel backlog next input command = .ok (b, n, rest, some err) := by
  intro fuel
  induction fuel with
  | zero => intro backlog next input command h; simp [firstError] at h
  | succ fuel ih =>
    intro backlog next input command h
    rw [firstError] at h
    cases he : (env.ParseNextCommand input).err with
    | some e =>
      rw [he] at h
      simp only [Option.some.injEq] at h
      subst h
      exact ⟨_, _, _, parseLoop_error env fuel backlog next input command e he⟩
    | none =>
      rw [he] at h
      simp only [] at h
      split at h
      · next hca =>
        rw [parseLoop_frame env fuel backlog next input command he hca.1 hca.2]
        exact ih _ _ _ _ h
      · exact absurd h (by simp)

theorem workerStep_closed (env : Env) (c c2 : CmdConn) (h : workerStep env c = .ok c2)
    (hA : c.Action = Action.Close) : c2.Action = Action.Close := by
  have hwake : ∀ d : CmdConn, d.Action = Action.Close → (wake env d).Action = Action.Close := by
    intro d hd
    unfold wake
    split
    · split
      · rfl
      · exact hd
    · exact hd
  unfold workerStep at h
  split at h
  · exact absurd h (by simp)
  · split at h
    · exact absurd h (by simp)
    · simp only [Except.ok.injEq] at h
      subst h
      exact hA
    · split at h
      · exact absurd h (by simp)
      · simp only at h
        split at h <;> split at h <;> simp only [Except.ok.injEq] at h <;> subst h <;>
          first
          | exact hA
          | exact hwake _ hA

theorem OnData_keeps_closed (env : Env) (fuel : Nat) (c c3 : CmdConn) (data out : Bytes)
    (a : Action) (h : OnData env fuel c data = .ok (c3, out, a))
    (hA : c.Action = Action.Close) : c3.Action = Action.Close := by
  obtain ⟨c2, flushed, hf, _, _⟩ := OnData_flush_first env fuel c c3 data out a h
  obtain ⟨d3, hd, hc, _⟩ := OnData_closed env fuel c c2 data flushed hA hf
  rw [h] at hd
  simp only [Except.ok.injEq, Prod.mk.injEq] at hd
  rw [hd.1]
  exact hc

theorem reachable_closed (env : Env) (ok : CmdConn → Prop) (c d : CmdConn)
    (hr : Reachable env ok c d) (hA : c.Action = Action.Close) : d.Action = Action.Close := by
  induction hr with
  | start => exact hA
  | step c1 c2 _ hs ih =>
    cases hs with
    | onData fuel data _ _ out a h => exact OnData_keeps_closed env fuel c1 c2 data out a h ih
    | worker _ _ _ h => exact workerStep_closed env c1 c2 h ih

/-- The flush of a call in the hand-off state, with the fields that the later phases read. -/
theorem flush_handOff (c : CmdConn) (data : Bytes) (h : handOff c) :
    ∃ c2, flushWrites (takeInput c data).1 = .ok (c2, c.worker.outCh.flatten) := by
  have ht : (takeInput c data).1.worker = c.worker := (takeInput_fields c data).2.2.2.2.2
  have h2 : handOff (takeInput c data).1 := by
    unfold handOff
    rw [ht]
    exact h
  obtain ⟨c2, hf, _⟩ := flushWrites_handOff _ h2
  rw [ht] at hf
  exact ⟨c2, hf⟩

theorem handOff_of_drained (c : CmdConn) (h1 : c.worker.outCount = 0)
    (h2 : c.worker.outCh = []) (h3 : c.worker.wakeSnapshot = c.worker.wakes) : handOff c :=
  ⟨by rw [h1, h2]; rfl, Nat.le_of_eq h3, fun _ => h2⟩

/-- A parse error met in the hand-off state: the call returns the queued worker buffers
followed by the error reply, with `Close`, and stores `Close` and the error. -/
theorem OnData_error_handOff (env : Env) (fuel : Nat) (c : CmdConn) (data err : Bytes)
    (h : handOff c) (hA : c.Action ≠ Action.Close) (hdata : data ≠ [])
    (herr : firstError env fuel (c.leftovers ++ data) = some err) :
    ∃ c3, OnData env fuel c data =
        .ok (c3, AppendError c.worker.outCh.flatten err, Action.Close) ∧
      c3.Action = Action.Close ∧ c3.Reason = some err ∧ handOff c3 := by
  obtain ⟨c2, hf⟩ := flush_handOff c data h
  obtain ⟨hin, _⟩ := flushed_fields c c2 data _ hdata hf
  have hpos : (c.leftovers ++ data).length > 0 := by
    have := List.length_pos.mpr hdata
    simp only [List.length_append]
    omega
  obtain ⟨b, n, rest, hp⟩ := parseLoop_firstError env err fuel c2.backlog (c2.next.getD {})
    (c.leftovers ++ data) none herr
  have hparse : parseInput env fuel c2.backlog (c2.next.getD {}) (takeInput c data).2 =
      .ok (b, n, rest, some err) := by
    unfold parseInput
    rw [hin, if_pos hpos, hp]
  have hrun := OnData_error_exit env fuel c c2 data _ b n rest err hA hf hparse
  obtain ⟨_, g2, g3, g4⟩ := OnData_handOff env fuel c _ data _ _ h hrun
  exact ⟨_, hrun, rfl, rfl, handOff_of_drained _ g2 g3 g4⟩

/-- A call on a closed connection in the hand-off state returns the queued worker buffers and
`Close`, and keeps the action, the reason, the backlog and the group under construction. -/
theorem OnData_closed_handOff (env : Env) (fuel : Nat) (d : CmdConn) (data : Bytes)
    (h : handOff d) (hA : d.Action = Action.Close) :
    ∃ d3, OnData env fuel d data = .ok (d3, d.worker.outCh.flatten, Action.Close) ∧
      d3.Action = Action.Close ∧ d3.Reason = d.Reason ∧ d3.backlog = d.backlog ∧
      d3.next.getD {} = d.next.getD {} ∧ d3.ownership = d.ownership ∧
      d3.worker.outCount = 0 ∧ d3.worker.outCh = [] := by
  obtain ⟨c2, hf⟩ := flush_handOff d data h
  obtain ⟨d3, hrun, h1, h2, h3, h4, h5⟩ := OnData_closed env fuel d c2 data _ hA hf
  obtain ⟨_, g2, g3, _⟩ := OnData_handOff env fuel d d3 data _ _ h hrun
  exact ⟨d3, hrun, h1, h2, h3, h4, h5, g2, g3⟩

/-- The wake call: with no data, an empty group under construction that is not MULTI, and
either an empty backlog or a connection that the event loop does not own, a call in the
hand-off state returns exactly the queued worker buffers, whatever the budget. -/
theorem OnData_wake_handOff (env : Env) (fuel : Nat) (c : CmdConn) (h : handOff c)
    (hq : c.backlog = [] ∨ c.ownership ≠ loopOwner)
    (hn1 : (c.next.getD {}).list = []) (hn2 : (c.next.getD {}).isMulti = false) :
    ∃ c3, OnData env fuel c [] = .ok (c3, c.worker.outCh.flatten, c.Action) ∧
      c3.worker.outCount = 0 ∧ c3.worker.outCh = [] := by
  by_cases hA : c.Action = Action.Close
  · obtain ⟨d3, hrun, _, _, _, _, _, g2, g3⟩ := OnData_closed_handOff env fuel c [] h hA
    rw [hA]
    exact ⟨d3, hrun, g2, g3⟩
  · obtain ⟨c2, hf⟩ := flush_handOff c [] h
    obtain ⟨_, _, _, _, _, f6, f7, _⟩ := flushWrites_fields _ _ _ hf
    obtain ⟨_, _, t3, t4, _, _⟩ := takeInput_fields c []
    have hin : (takeInput c []).2 = [] := by rw [takeInput_empty]
    have hparse : parseInput env fuel c2.backlog (c2.next.getD {}) (takeInput c []).2 =
        .ok (c2.backlog, c2.next.getD {}, [], none) := by
      unfold parseInput
      rw [hin]
      rfl
    have hrun := OnData_parsed env fuel c (takeInput c []).1 c2 [] (takeInput c []).2 _ _ _ _
      hA rfl hf hparse
    have hnext : c2.next.getD {} = c.next.getD {} := by rw [f7, t4]
    have hsz : ¬ (c.next.getD {}).size > 0 := by
      unfold cmdGroup.size
      rw [hn1]
      decide
    have hclose : closeNext c.worker.outCh.flatten c2.backlog (c2.next.getD {}) =
        .ok (c.worker.outCh.flatten, c2.backlog, c2.next.getD {}) := by
      unfold closeNext
      rw [hnext, if_neg hsz]
    rw [hclose] at hrun
    simp only [] at hrun
    have hdisp : dispatch fuel c.ownership
        { c2 with next := some (c2.next.getD {}), backlog := c2.backlog } (c2.next.getD {})
        c.worker.outCh.flatten =
        .ok ({ c2 with next := some (c2.next.getD {}), backlog := c2.backlog },
          c2.next.getD {}, c.worker.outCh.flatten) := by
      unfold dispatch ackNext
      rcases hq with hb | ho
      · have hb2 : c2.backlog = [] := by rw [f6, t3, hb]
        simp [hb2, hnext, hn2]
      · simp [ho]
    rw [hdisp] at hrun
    simp only [] at hrun
    obtain ⟨_, g2, g3, _⟩ := OnData_handOff env fuel c _ [] _ _ h hrun
    exact ⟨_, hrun, g2, g3⟩

/-- A call that answers a command itself, in the hand-off state: on a loop-owned connection
with action `None`, an empty backlog and an empty group under construction that is not
MULTI, a call whose input is one complete frame of a non-worker command
that is not a control word returns the queued worker buffers followed by the reply of the
command. -/
theorem OnData_reply_after_flush (env : Env) (fuel : Nat) (c : CmdConn) (data : Bytes)
    (h : handOff c) (hA : c.Action = Action.None) (ho : c.ownership = loopOwner)
    (hb : c.backlog = [])
    (hn1 : (c.next.getD {}).list = []) (hn2 : (c.next.getD {}).isMulti = false)
    (hdata : data ≠ [])
    (herr : (env.ParseNextCommand (c.leftovers ++ data)).err = none)
    (hc : (env.ParseNextCommand (c.leftovers ++ data)).complete = true)
    (ha : (env.ParseNextCommand (c.leftovers ++ data)).args ≠ [])
    (hnc : ¬ isControl env (env.ParseNextCommand (c.leftovers ++ data)).args)
    (hleft : (env.ParseNextCommand (c.leftovers ++ data)).leftover = [])
    (hnw : (lookup env (env.ParseNextCommand (c.leftovers ++ data)).packet
      (env.ParseNextCommand (c.leftovers ++ data)).args).IsWorker = false)
    (hstop : stops (env.ParseNextCommand [])) (hstopl : (env.ParseNextCommand []).leftover = []) :
    ∃ c3, OnData env (fuel + 2) c data =
        .ok (c3, c.worker.outCh.flatten ++
          (lookup env (env.ParseNextCommand (c.leftovers ++ data)).packet
            (env.ParseNextCommand (c.leftovers ++ data)).args).reply, Action.None) ∧
      c3.worker.outCount = 0 ∧ c3.worker.outCh = [] := by
  obtain ⟨c2, hf⟩ := flush_handOff c data h
  obtain ⟨hin, _, _, _, _, h6, h7, _⟩ := flushed_fields c c2 data _ hdata hf
  have hpos : (c.leftovers ++ data).length > 0 := by
    have := List.length_pos.mpr hdata
    simp only [List.length_append]
    omega
  have hstop2 : stops (env.ParseNextCommand
      (env.ParseNextCommand (c.leftovers ++ data)).leftover) := by
    rw [hleft]; exact hstop
  have hparse : parseInput env (fuel + 2) c2.backlog (c2.next.getD {}) (takeInput c data).2 =
      .ok ([], { c.next.getD {} with
            isWorker := (lookup env (env.ParseNextCommand (c.leftovers ++ data)).packet
              (env.ParseNextCommand (c.leftovers ++ data)).args).IsWorker,
            list := (c.next.getD {}).list ++
              [lookup env (env.ParseNextCommand (c.leftovers ++ data)).packet
                (env.ParseNextCommand (c.leftovers ++ data)).args] }, [], none) := by
    unfold parseInput
    rw [hin, if_pos hpos, h6, hb, h7,
      parseLoop_single env fuel [] _ _ none herr hc ha hstop2,
      parseFrame_resolve env [] _ none _ _ hnc, resolve_none, hleft, hstopl]
  have hAc : c.Action ≠ Action.Close := by rw [hA]; decide
  have hrun := OnData_inline env (fuel + 2) c c2 data _ [] _ hAc ho hf hparse hn2 hnw
    (by simp [hn1])
  simp only [hn1, List.nil_append, List.map_cons, List.map_nil, List.flatten_cons,
    List.flatten_nil, List.append_nil, List.cons_ne_nil, if_false] at hrun
  rw [hA] at hrun
  obtain ⟨_, g2, g3, _⟩ := OnData_handOff env (fuel + 2) c _ data _ _ h hrun
  exact ⟨_, hrun, g2, g3⟩


/-! ## The theorems on the phases, the step model and the commands of app/cmd -/

/-- C11 (the code departs from the claim). No backpressure: on a worker-owned connection whose
backlog holds more than `maxCommandBacklog` groups, a call with the frame `PING` parses the
frame, appends its group to the backlog, which grows by one, and leaves nothing in the
leftovers; the call returns only the flushed worker output. -/
theorem OnData_parses_past_backlog_cap (c c2 : CmdConn) (flushed : Bytes)
    (hA : c.Action = Action.None) (hlo : c.leftovers = []) (ho : c.ownership = workerOwner)
    (hcap : c.backlog.length > maxCommandBacklog)
    (hn1 : (c.next.getD {}).list = []) (hn2 : (c.next.getD {}).isMulti = false)
    (hflush : flushWrites (takeInput c (frame ["PING"])).1 = .ok (c2, flushed)) :
    ∃ c3, OnData demoEnv 2 c (frame ["PING"]) = .ok (c3, flushed, Action.None) ∧
      c3.backlog = c.backlog ++ [{ c.next.getD {} with isWorker := false, list := [pingCmd] }] ∧
      c3.backlog.length = c.backlog.length + 1 ∧ c3.leftovers = [] := by
  have hb : c.backlog ≠ [] := by
    intro h
    rw [h] at hcap
    exact absurd hcap (by decide)
  have hnc : ¬ isControl demoEnv (demoEnv.ParseNextCommand (frame ["PING"])).args := by
    have e : (demoEnv.ParseNextCommand (frame ["PING"])).args = [ascii "PING"] := by decide
    rw [e]
    rintro ⟨name, h1, h2⟩
    cases h1
    revert h2
    decide
  obtain ⟨c3, hrun, hbl, hl, _, _⟩ := OnData_queue_behind demoEnv 0 c c2 (frame ["PING"]) flushed
    hA hlo ho hb hn1 hn2 (by decide) (by decide) (by decide) (by decide) hnc (by decide)
    ⟨by decide, Or.inl (by decide)⟩ (by decide) hflush
  have e1 : lookup demoEnv (demoEnv.ParseNextCommand (frame ["PING"])).packet
      (demoEnv.ParseNextCommand (frame ["PING"])).args = pingCmd := by decide
  rw [e1] at hbl
  refine ⟨c3, hrun, hbl, ?_, hl⟩
  rw [hbl, List.length_append, List.length_singleton]

/-- Witness of C11: the backlog of `overfullConn` holds 10001 groups and the call appends one
more. -/
theorem OnData_parses_past_backlog_cap_witness :
    overfullConn.backlog.length > maxCommandBacklog ∧
    ∃ c3, OnData demoEnv 2 overfullConn (frame ["PING"]) = .ok (c3, [], Action.None) ∧
      c3.backlog = overfullConn.backlog ++
        [{ overfullConn.next.getD {} with isWorker := false, list := [pingCmd] }] ∧
      c3.backlog.length = overfullConn.backlog.length + 1 ∧ c3.leftovers = [] :=
  ⟨overfullConn_length,
    OnData_parses_past_backlog_cap overfullConn (takeInput overfullConn (frame ["PING"])).1 []
      rfl rfl rfl overfullConn_length rfl rfl
      (flushWrites_idle _ (Nat.le_refl _))⟩

/-- C12, counterexample to the claim as worded. The input `*0\r\nx` holds a frame without
arguments and then a byte that starts no frame: the codec reads the first frame without an
error and reports `ERR Protocol error` on what follows it. The call nevertheless returns no
bytes and action `None`; it stores neither `Close` nor a reason and keeps `x` in the
leftovers, because a frame without arguments ends the parse loop. A wake call after it
returns `None` again and drops the byte. -/
theorem OnData_error_behind_empty_frame :
    (respCodec (ascii "*0\r\nx")).err = none ∧
    (respCodec (ascii "*0\r\nx")).complete = true ∧
    (respCodec (ascii "*0\r\nx")).args = [] ∧
    (respCodec (ascii "*0\r\nx")).leftover = ascii "x" ∧
    (respCodec (ascii "x")).err = some (ascii "ERR Protocol error") ∧
    (OnData demoEnv 4 {} (ascii "*0\r\nx")).map (fun r => (r.2.1, r.2.2)) =
      .ok ([], Action.None) ∧
    (OnData demoEnv 4 {} (ascii "*0\r\nx")).map
        (fun r => (r.1.Action, r.1.Reason, r.1.leftovers)) =
      .ok (Action.None, none, ascii "x") ∧
    (feed demoEnv 4 {} [ascii "*0\r\nx", []]).map
        (fun r => (r.2, r.1.Action, r.1.leftovers)) =
      .ok ([[], []], Action.None, []) := by
  decide

/-- C12, amended. A parse error that the parse loop reaches is fatal. Let the connection be
in the hand-off state and not closing, let the call carry data, and let the codec, asked
frame by frame on the leftovers followed by the data, report the error `err` at a frame that
only complete frames with at least one argument precede. Then the call returns `Close` and
the queued worker buffers, oldest first, followed by the error reply of `err`, and stores
`Close` as the action and `err` as the reason. In every state that the step model reaches
afterwards the action is still `Close`, and every call made there returns `Close` with the
queued worker buffers only and keeps the backlog, the group under construction, the
ownership and the reason: nothing is parsed or executed. -/
theorem OnData_parse_error_closes (env : Env) (fuel : Nat) (c : CmdConn) (data err : Bytes)
    (h : handOff c) (hA : c.Action ≠ Action.Close) (hdata : data ≠ [])
    (herr : firstError env fuel (c.leftovers ++ data) = some err) :
    ∃ c3, OnData env fuel c data =
        .ok (c3, AppendError c.worker.outCh.flatten err, Action.Close) ∧
      c3.Action = Action.Close ∧ c3.Reason = some err ∧
      ∀ d, Reachable env countersFit c3 d →
        d.Action = Action.Close ∧
        ∀ (fuel2 : Nat) (data2 : Bytes),
          ∃ d3, OnData env fuel2 d data2 = .ok (d3, d.worker.outCh.flatten, Action.Close) ∧
            d3.Action = Action.Close ∧ d3.Reason = d.Reason ∧ d3.backlog = d.backlog ∧
            d3.next.getD {} = d.next.getD {} ∧ d3.ownership = d.ownership := by
  obtain ⟨c3, hrun, h1, h2, h3⟩ := OnData_error_handOff env fuel c data err h hA hdata herr
  refine ⟨c3, hrun, h1, h2, fun d hr => ?_⟩
  have hd := reachable_handOff env c3 d h3 hr
  have hc := reachable_closed env countersFit c3 d hr h1
  refine ⟨hc, fun fuel2 data2 => ?_⟩
  obtain ⟨d3, g0, g1, g2, g3, g4, g5, _⟩ := OnData_closed_handOff env fuel2 d data2 hd hc
  exact ⟨d3, g0, g1, g2, g3, g4, g5⟩

/-- Witness of C12: the reply of `SLOW` waits in the output queue when a `PING` frame followed
by a byte that starts no frame arrives; the call returns `+DONE`, then the error reply, and
closes. -/
theorem OnData_parse_error_closes_witness :
    (∃ c3, OnData demoEnv 3 slowServed (frame ["PING"] ++ ascii "x") =
        .ok (c3, AppendError slowServed.worker.outCh.flatten (ascii "ERR Protocol error"),
          Action.Close) ∧
      c3.Action = Action.Close ∧ c3.Reason = some (ascii "ERR Protocol error") ∧
      ∀ d, Reachable demoEnv countersFit c3 d →
        d.Action = Action.Close ∧
        ∀ (fuel2 : Nat) (data2 : Bytes),
          ∃ d3, OnData demoEnv fuel2 d data2 =
              .ok (d3, d.worker.outCh.flatten, Action.Close) ∧
            d3.Action = Action.Close ∧ d3.Reason = d.Reason ∧ d3.backlog = d.backlog ∧
            d3.next.getD {} = d.next.getD {} ∧ d3.ownership = d.ownership) ∧
    AppendError slowServed.worker.outCh.flatten (ascii "ERR Protocol error") =
      ascii "+DONE\r\n-ERR Protocol error\r\n" :=
  ⟨OnData_parse_error_closes demoEnv 3 slowServed (frame ["PING"] ++ ascii "x")
      (ascii "ERR Protocol error") (by unfold handOff; decide) (by decide) (by decide)
      (by decide),
    by decide⟩

/-- C13 (the code departs from the claim). `MULTI`, `DISCARD` pipelined in one call yield one
`+OK` for the two commands, and two pairs yield two: `DISCARD` replaces the group before the
`+OK` of `MULTI` was sent. Split at the frame boundary the same frames yield `+OK` twice. In
all cases the backlog ends empty and the group under construction empty and not MULTI. -/
theorem OnData_discard_drops_multi_ack :
    (OnData demoEnv 4 {} (frame ["MULTI"] ++ frame ["DISCARD"])).map
        (fun r => (r.2.1, r.1.backlog, r.1.next)) =
      .ok (ascii "+OK\r\n", [], some { qidx := -1 }) ∧
    (OnData demoEnv 8 {}
        (frame ["MULTI"] ++ frame ["DISCARD"] ++ frame ["MULTI"] ++ frame ["DISCARD"])).map
        (fun r => (r.2.1, r.1.backlog, r.1.next)) =
      .ok (ascii "+OK\r\n+OK\r\n", [], some {}) ∧
    (feed demoEnv 4 {} [frame ["MULTI"], frame ["DISCARD"]]).map
        (fun r => (r.2, r.1.backlog, r.1.next)) =
      .ok ([ascii "+OK\r\n", ascii "+OK\r\n"], [], some { qidx := -1 }) := by
  decide

/-- C14 (the code departs from the claim). For `MULTI`, `BAD`, `EXEC` with `BAD` unknown to
the registry: when `EXEC` arrives in the same call as `BAD` the replies are `+OK` and the
error reply of `BAD`; when `EXEC` arrives in a later call the group was already cleared by
the abort and `EXEC` is answered with `-ERR exec not expected`. -/
theorem feed_exec_after_abort_is_answered :
    (feed demoEnv 4 {} [frame ["MULTI"] ++ frame ["BAD"] ++ frame ["EXEC"]]).map (fun r => r.2) =
      .ok [ascii "+OK\r\n-ERR command 'BAD' not found\r\n"] ∧
    (feed demoEnv 4 {} [frame ["MULTI"], frame ["BAD"] ++ frame ["EXEC"]]).map (fun r => r.2) =
      .ok [ascii "+OK\r\n", ascii "-ERR command 'BAD' not found\r\n"] ∧
    (feed demoEnv 4 {} [frame ["MULTI"] ++ frame ["BAD"], frame ["EXEC"]]).map (fun r => r.2) =
      .ok [ascii "+OK\r\n-ERR command 'BAD' not found\r\n",
        ascii "-ERR exec not expected\r\n"] ∧
    (feed demoEnv 4 {} [frame ["MULTI"], frame ["BAD"], frame ["EXEC"]]).map (fun r => r.2) =
      .ok [ascii "+OK\r\n", ascii "-ERR command 'BAD' not found\r\n",
        ascii "-ERR exec not expected\r\n"] ∧
    demoRegistry (frame ["BAD"]) [ascii "BAD"] = none ∧
    (Err (ascii "ERR command 'BAD' not found")).IsWorker = false := by
  decide

/-- C15 (the code departs from the claim). `RaftRemove.Parse` accepts the four arguments with
schema 1 and slice 2, but stores the slice id in `ID.Schema` and leaves `ID.Slice` at 0: the
command marshals to the arguments `2`, `0`. Parsing those arguments again stores 0 in
`ID.Schema`, and the second marshalling, with the arguments `0`, `0`, differs from the
first. -/
theorem RaftRemove_parse_overwrites_schema :
    RaftRemove.Parse [ascii "RAFTREMOVE", ascii "1", ascii "2", ascii "10.0.0.1:9000"] =
      .ok { ID := { Schema := 2, Slice := 0 }, Address := ascii "10.0.0.1:9000" } ∧
    RaftRemove.Marshal (ascii "RAFTREMOVE") []
        { ID := { Schema := 2, Slice := 0 }, Address := ascii "10.0.0.1:9000" } =
      frame ["RAFTREMOVE", "2", "0", "10.0.0.1:9000"] ∧
    (respCodec (RaftRemove.Marshal (ascii "RAFTREMOVE") []
        { ID := { Schema := 2, Slice := 0 }, Address := ascii "10.0.0.1:9000" })).args =
      [ascii "RAFTREMOVE", ascii "2", ascii "0", ascii "10.0.0.1:9000"] ∧
    RaftRemove.Parse [ascii "RAFTREMOVE", ascii "2", ascii "0", ascii "10.0.0.1:9000"] =
      .ok { ID := { Schema := 0, Slice := 0 }, Address := ascii "10.0.0.1:9000" } ∧
    RaftRemove.Marshal (ascii "RAFTREMOVE") []
        { ID := { Schema := 0, Slice := 0 }, Address := ascii "10.0.0.1:9000" } =
      frame ["RAFTREMOVE", "0", "0", "10.0.0.1:9000"] ∧
    RaftRemove.Marshal (ascii "RAFTREMOVE") []
        { ID := { Schema := 0, Slice := 0 }, Address := ascii "10.0.0.1:9000" } ≠
      RaftRemove.Marshal (ascii "RAFTREMOVE") []
        { ID := { Schema := 2, Slice := 0 }, Address := ascii "10.0.0.1:9000" } := by
  decide

/-- C16. Parse-then-render identity for `RaftBootstrap`: for every command `c` that
`RaftBootstrap.Parse` accepts, `Marshal` encodes the argument list `RaftBootstrap.args name c`
as an array of bulk strings, parsing that list again is accepted, and the command it gives
marshals to the same bytes as `c`. `Parse` accepts one argument, and three arguments whose
second and third `Atoi` reads; for every other argument count it returns
`ERR expected 0 or 2 params`. -/
theorem RaftBootstrap_parse_render_identity (name : Bytes) (args : List Bytes)
    (c : RaftBootstrap) (h : RaftBootstrap.Parse args = .ok c) :
    RaftBootstrap.Marshal name [] c = bulkArray (RaftBootstrap.args name c) ∧
    (∃ c2, RaftBootstrap.Parse (RaftBootstrap.args name c) = .ok c2 ∧
      RaftBootstrap.Marshal name [] c2 = RaftBootstrap.Marshal name [] c) ∧
    (∀ a0 : Bytes, RaftBootstrap.Parse [a0] = .ok { ID := GlobalRaftID }) ∧
    (∀ (a0 a1 a2 : Bytes) (v1 v2 : Int), atoi a1 = some v1 → atoi a2 = some v2 →
      RaftBootstrap.Parse [a0, a1, a2] =
        .ok { ID := { Schema := int32 v1, Slice := int32 v2 } }) ∧
    (∀ other : List Bytes, other.length ≠ 1 → other.length ≠ 3 →
      RaftBootstrap.Parse other = .error (ascii "ERR expected 0 or 2 params")) := by
  refine ⟨RaftBootstrap_Marshal_args name c, RaftBootstrap_reparse name args c h,
    fun _ => rfl, fun a0 a1 a2 v1 v2 h1 h2 => ?_,
    fun other h1 h3 => RaftBootstrap_Parse_count other h1 h3⟩
  unfold RaftBootstrap.Parse
  simp only [h1, h2]

/-- Witness of C16: the three arguments with schema 1 and slice 2. -/
theorem RaftBootstrap_parse_render_identity_witness :
    RaftBootstrap.Marshal (ascii "RAFTBOOTSTRAP") [] { ID := { Schema := 1, Slice := 2 } } =
      bulkArray (RaftBootstrap.args (ascii "RAFTBOOTSTRAP")
        { ID := { Schema := 1, Slice := 2 } }) ∧
    (∃ c2, RaftBootstrap.Parse (RaftBootstrap.args (ascii "RAFTBOOTSTRAP")
        { ID := { Schema := 1, Slice := 2 } }) = .ok c2 ∧
      RaftBootstrap.Marshal (ascii "RAFTBOOTSTRAP") [] c2 =
        RaftBootstrap.Marshal (ascii "RAFTBOOTSTRAP") []
          { ID := { Schema := 1, Slice := 2 } }) ∧
    (∀ a0 : Bytes, RaftBootstrap.Parse [a0] = .ok { ID := GlobalRaftID }) ∧
    (∀ (a0 a1 a2 : Bytes) (v1 v2 : Int), atoi a1 = some v1 → atoi a2 = some v2 →
      RaftBootstrap.Parse [a0, a1, a2] =
        .ok { ID := { Schema := int32 v1, Slice := int32 v2 } }) ∧
    (∀ other : List Bytes, other.length ≠ 1 → other.length ≠ 3 →
      RaftBootstrap.Parse other = .error (ascii "ERR expected 0 or 2 params")) :=
  RaftBootstrap_parse_render_identity (ascii "RAFTBOOTSTRAP")
    [ascii "RAFTBOOTSTRAP", ascii "1", ascii "2"] { ID := { Schema := 1, Slice := 2 } }
    (by decide)

/-- C17. A frame split across calls: let the chunks be non-empty and concatenate to one frame
`F`, let the codec report every non-empty proper prefix of `F` as incomplete with the whole
prefix as its tail, and `F` itself as one complete frame, without tail, of a command that is
neither a control word nor worker-bound. Fed to a fresh connection, every call before the
last returns no bytes, the last returns the reply that a single call with `F` returns, and
the leftovers are empty afterwards. -/
theorem feed_split_frame_single_reply (env : Env) (fuel : Nat) (chunks : List Bytes)
    (hchunks : chunks ≠ []) (hne : ∀ ch ∈ chunks, ch ≠ [])
    (hinc : ∀ k, k < chunks.flatten.length → 0 < k →
      (env.ParseNextCommand (chunks.flatten.take k)).err = none ∧
        (env.ParseNextCommand (chunks.flatten.take k)).complete = false ∧
        (env.ParseNextCommand (chunks.flatten.take k)).leftover = chunks.flatten.take k)
    (herr : (env.ParseNextCommand chunks.flatten).err = none)
    (hc : (env.ParseNextCommand chunks.flatten).complete = true)
    (ha : (env.ParseNextCommand chunks.flatten).args ≠ [])
    (hnc : ¬ isControl env (env.ParseNextCommand chunks.flatten).args)
    (hleft : (env.ParseNextCommand chunks.flatten).leftover = [])
    (hnw : (lookup env (env.ParseNextCommand chunks.flatten).packet
      (env.ParseNextCommand chunks.flatten).args).IsWorker = false)
    (hstop : stops (env.ParseNextCommand [])) (hstopl : (env.ParseNextCommand []).leftover = []) :
    ∃ c1 c3 reply,
      OnData env (fuel + 2) {} chunks.flatten = .ok (c1, reply, Action.None) ∧
      feed env (fuel + 2) {} chunks =
        .ok (c3, List.replicate (chunks.length - 1) [] ++ [reply]) ∧
      c3.leftovers = [] ∧
      reply = (lookup env (env.ParseNextCommand chunks.flatten).packet
        (env.ParseNextCommand chunks.flatten).args).reply := by
  have hF : chunks.flatten ≠ [] := by
    cases chunks with
    | nil => exact absurd rfl hchunks
    | cons x rest =>
      have hx := hne x (List.mem_cons_self _ _)
      simp only [List.flatten_cons, ne_eq, List.append_eq_nil, not_and]
      intro h; exact absurd h hx
  have hinc2 : ∀ P Q : Bytes, P ≠ [] → Q ≠ [] → P ++ Q = chunks.flatten →
      (env.ParseNextCommand P).err = none ∧ (env.ParseNextCommand P).complete = false ∧
        (env.ParseNextCommand P).leftover = P := by
    intro P Q hP hQ hPQ
    have hk := hinc P.length
      (by rw [← hPQ, List.length_append]; have := List.length_pos.mpr hQ; omega)
      (List.length_pos.mpr hP)
    rw [← hPQ, List.take_left] at hk
    exact hk
  obtain ⟨c1, h1, _, _⟩ := OnData_complete env fuel {} chunks.flatten idle_fresh hF
    herr hc ha hnc hleft hnw hstop hstopl
  obtain ⟨c3, h3, _, hl3⟩ := feed_chunks env fuel chunks.flatten hinc2 herr hc ha hnc hleft hnw
    hstop hstopl chunks {} idle_fresh hchunks hne rfl
  exact ⟨c1, c3, _, h1, h3, hl3, rfl⟩

/-- Witness of C17: the frame of `PING` sent one byte per call. -/
theorem feed_split_frame_single_reply_witness :
    ∃ c1 c3 reply,
      OnData demoEnv 2 {} pingBytewise.flatten = .ok (c1, reply, Action.None) ∧
      feed demoEnv 2 {} pingBytewise =
        .ok (c3, List.replicate (pingBytewise.length - 1) [] ++ [reply]) ∧
      c3.leftovers = [] ∧
      reply = (lookup demoEnv (demoEnv.ParseNextCommand pingBytewise.flatten).packet
        (demoEnv.ParseNextCommand pingBytewise.flatten).args).reply :=
  feed_split_frame_single_reply demoEnv 0 pingBytewise (by decide) (by decide) (by decide)
    (by decide) (by decide) (by decide)
    (by
      have e : (demoEnv.ParseNextCommand pingBytewise.flatten).args = [ascii "PING"] := by
        decide
      rw [e]
      rintro ⟨name, h1, h2⟩
      cases h1
      revert h2
      decide)
    (by decide) (by decide) ⟨by decide, Or.inl (by decide)⟩ (by decide)

/-- C18. Wake counters: in the step model whose steps are one call of `OnData` and one
iteration of the worker's loop, the latter taken only while `wakes` is below the largest
`uint64` (the increment does not wrap), every state reached from a connection with both
counters at zero has `wakeSnapshot ≤ wakes`, and every call of `OnData` made in such a state
leaves `wakeSnapshot = wakes`. -/
theorem reachable_wakes_ge_snapshot (env : Env) (c0 c : CmdConn)
    (hw : c0.worker.wakes = 0) (hs : c0.worker.wakeSnapshot = 0)
    (hr : Reachable env wakesFit c0 c) :
    c.worker.wakeSnapshot ≤ c.worker.wakes ∧
      ∀ (fuel : Nat) (data out : Bytes) (c3 : CmdConn) (a : Action),
        OnData env fuel c data = .ok (c3, out, a) →
        c3.worker.wakeSnapshot = c3.worker.wakes := by
  have hle := reachable_snapshot_le env c0 c (by rw [hw, hs]) hr
  exact ⟨hle, fun fuel data out c3 a h => OnData_snapshot env fuel c c3 data out a hle h⟩

/-- Witness of C18: after a `SLOW` frame and one worker iteration `wakes` is 1 and the
snapshot 0; the next call of `OnData` makes them equal. -/
theorem reachable_wakes_ge_snapshot_witness :
    slowServed.worker.wakeSnapshot ≤ slowServed.worker.wakes ∧
      ∀ (fuel : Nat) (data out : Bytes) (c3 : CmdConn) (a : Action),
        OnData demoEnv fuel slowServed data = .ok (c3, out, a) →
        c3.worker.wakeSnapshot = c3.worker.wakes :=
  reachable_wakes_ge_snapshot demoEnv {} slowServed rfl rfl
    (slowServed_reachable wakesFit (by unfold wakesFit; decide))

/-- C19. Output hand-off: in the step model whose steps are one call of `OnData` and one
iteration of the worker's loop, the latter taken only while neither `wakes` nor `outCount`
would wrap, every state reached from a connection with both wake counters at zero and an empty
output queue has `outCount` equal to the number of queued buffers. In such a state the flush
at the head of `OnData` does not block and yields the queued buffers concatenated oldest
first, and every call of `OnData` that returns has them as the prefix of its output and
leaves `outCount` at zero and the queue empty. The call does return, with exactly these
outputs, in three cases: the wake call (no data, an empty group under construction that is
not MULTI, and an empty backlog or a connection that the event loop does not own) returns the
queued buffers; a call on a loop-owned connection at rest whose input is one complete frame
of a non-worker command that is not a control word returns the queued buffers followed by the
reply of the command; and a call on a closing connection returns the queued buffers. -/
theorem reachable_out_handoff (env : Env) (c0 c : CmdConn)
    (hw : c0.worker.wakes = 0) (hs : c0.worker.wakeSnapshot = 0)
    (hq : c0.worker.outCh = []) (hn : c0.worker.outCount = 0)
    (hr : Reachable env countersFit c0 c) :
    c.worker.outCount = c.worker.outCh.length ∧
      (∀ data : Bytes, ∃ c2,
        flushWrites (takeInput c data).1 = .ok (c2, c.worker.outCh.flatten)) ∧
      (∀ (fuel : Nat) (data out : Bytes) (c3 : CmdConn) (a : Action),
        OnData env fuel c data = .ok (c3, out, a) →
        c.worker.outCh.flatten <+: out ∧ c3.worker.outCount = 0 ∧ c3.worker.outCh = []) ∧
      (∀ fuel : Nat, (c.backlog = [] ∨ c.ownership ≠ loopOwner) →
        (c.next.getD {}).list = [] → (c.next.getD {}).isMulti = false →
        ∃ c3, OnData env fuel c [] = .ok (c3, c.worker.outCh.flatten, c.Action) ∧
          c3.worker.outCount = 0 ∧ c3.worker.outCh = []) ∧
      (∀ (fuel : Nat) (data : Bytes), c.Action = Action.None → c.ownership = loopOwner →
        c.backlog = [] → (c.next.getD {}).list = [] → (c.next.getD {}).isMulti = false →
        data ≠ [] →
        (env.ParseNextCommand (c.leftovers ++ data)).err = none →
        (env.ParseNextCommand (c.leftovers ++ data)).complete = true →
        (env.ParseNextCommand (c.leftovers ++ data)).args ≠ [] →
        ¬ isControl env (env.ParseNextCommand (c.leftovers ++ data)).args →
        (env.ParseNextCommand (c.leftovers ++ data)).leftover = [] →
        (lookup env (env.ParseNextCommand (c.leftovers ++ data)).packet
          (env.ParseNextCommand (c.leftovers ++ data)).args).IsWorker = false →
        stops (env.ParseNextCommand []) → (env.ParseNextCommand []).leftover = [] →
        ∃ c3, OnData env (fuel + 2) c data =
            .ok (c3, c.worker.outCh.flatten ++
              (lookup env (env.ParseNextCommand (c.leftovers ++ data)).packet
                (env.ParseNextCommand (c.leftovers ++ data)).args).reply, Action.None) ∧
          c3.worker.outCount = 0 ∧ c3.worker.outCh = []) ∧
      (c.Action = Action.Close → ∀ (fuel : Nat) (data : Bytes),
        ∃ c3, OnData env fuel c data = .ok (c3, c.worker.outCh.flatten, Action.Close) ∧
          c3.worker.outCount = 0 ∧ c3.worker.outCh = []) := by
  have h0 : handOff c0 := ⟨by rw [hn, hq]; rfl, by rw [hw, hs], fun _ => hq⟩
  have h := reachable_handOff env c0 c h0 hr
  refine ⟨h.1, fun data => flush_handOff c data h, fun fuel data out c3 a hrun => ?_,
    fun fuel hb hn1 hn2 => OnData_wake_handOff env fuel c h hb hn1 hn2,
    fun fuel data hA ho hb hn1 hn2 hdata herr hc ha hnc hleft hnw hstop hstopl =>
      OnData_reply_after_flush env fuel c data h hA ho hb hn1 hn2 hdata herr hc ha hnc hleft
        hnw hstop hstopl,
    fun hA fuel data => ?_⟩
  · obtain ⟨h1, h2, h3, _⟩ := OnData_handOff env fuel c c3 data out a h hrun
    exact ⟨h1, h2, h3⟩
  · obtain ⟨d3, g0, _, _, _, _, _, g2, g3⟩ := OnData_closed_handOff env fuel c data h hA
    exact ⟨d3, g0, g2, g3⟩

/-- Witness of C19: after a `SLOW` frame and one worker iteration one buffer, `+DONE`, is
queued and `outCount` is 1. The wake call returns `+DONE` and empties the queue; a call with
a `PING` frame returns `+DONE` followed by `+PONG` and empties the queue. -/
theorem reachable_out_handoff_witness :
    slowServed.worker.outCount = slowServed.worker.outCh.length ∧
    slowServed.worker.outCh.flatten = ascii "+DONE\r\n" ∧
    (∃ c3, OnData demoEnv 0 slowServed [] =
        .ok (c3, slowServed.worker.outCh.flatten, slowServed.Action) ∧
      c3.worker.outCount = 0 ∧ c3.worker.outCh = []) ∧
    (∃ c3, OnData demoEnv (0 + 2) slowServed (frame ["PING"]) =
        .ok (c3, slowServed.worker.outCh.flatten ++
          (lookup demoEnv
            (demoEnv.ParseNextCommand (slowServed.leftovers ++ frame ["PING"])).packet
            (demoEnv.ParseNextCommand (slowServed.leftovers ++ frame ["PING"])).args).reply,
          Action.None) ∧
      c3.worker.outCount = 0 ∧ c3.worker.outCh = []) ∧
    (lookup demoEnv
      (demoEnv.ParseNextCommand (slowServed.leftovers ++ frame ["PING"])).packet
      (demoEnv.ParseNextCommand (slowServed.leftovers ++ frame ["PING"])).args).reply =
        ascii "+PONG\r\n" ∧
    slowServed.Action = Action.None :=
  ⟨(reachable_out_handoff demoEnv {} slowServed rfl rfl rfl rfl
      (slowServed_reachable countersFit
        ⟨by unfold wakesFit; decide, by unfold outFits; decide⟩)).1,
    by decide,
    (reachable_out_handoff demoEnv {} slowServed rfl rfl rfl rfl
      (slowServed_reachable countersFit
        ⟨by unfold wakesFit; decide, by unfold outFits; decide⟩)).2.2.2.1 0
      (Or.inl rfl) rfl rfl,
    (reachable_out_handoff demoEnv {} slowServed rfl rfl rfl rfl
      (slowServed_reachable countersFit
        ⟨by unfold wakesFit; decide, by unfold outFits; decide⟩)).2.2.2.2.1 0
      (frame ["PING"]) rfl rfl rfl rfl rfl (by decide) (by decide) (by decide) (by decide)
      (by
        have e : (demoEnv.ParseNextCommand (slowServed.leftovers ++ frame ["PING"])).args =
            [ascii "PING"] := by decide
        rw [e]
        rintro ⟨name, h1, h2⟩
        cases h1
        revert h2
        decide)
      (by decide) (by decide) ⟨by decide, Or.inl (by decide)⟩ (by decide),
    by decide, rfl⟩

/-- C20. Transactional protocol errors are not fatal: on a loop-owned connection with action
`None`, no leftovers, an empty backlog and an empty group under construction that is neither
MULTI nor worker-bound, a call whose data is the single frame `EXEC` returns the flushed
worker output (none when no wake is pending) followed by `-ERR exec not expected`, with action
`None`; the single frame `DISCARD` likewise returns `-ERR discard not expected`. In both
cases the backlog, the ownership and the MULTI state are the same after the call as before. -/
theorem OnData_exec_discard_not_expected (env : Env) (fuel : Nat) (c c2 : CmdConn)
    (data flushed name : Bytes)
    (hA : c.Action = Action.None) (hl : c.leftovers = []) (ho : c.ownership = loopOwner)
    (hb : c.backlog = [])
    (hn1 : (c.next.getD {}).list = []) (hn2 : (c.next.getD {}).isMulti = false)
    (hn3 : (c.next.getD {}).isWorker = false)
    (hdata : data ≠ [])
    (herr : (env.ParseNextCommand data).err = none)
    (hc : (env.ParseNextCommand data).complete = true)
    (hargs : (env.ParseNextCommand data).args = [name])
    (hleft : (env.ParseNextCommand data).leftover = [])
    (hstop : stops (env.ParseNextCommand [])) (hstopl : (env.ParseNextCommand []).leftover = [])
    (hflush : flushWrites (takeInput c data).1 = .ok (c2, flushed)) :
    (env.ToLower name = ascii "exec" →
      ∃ c3, OnData env (fuel + 2) c data =
          .ok (c3, flushed ++ AppendError [] (ascii "ERR exec not expected"), Action.None) ∧
        c3.backlog = c.backlog ∧ c3.ownership = c.ownership ∧
        (c3.next.getD {}).isMulti = (c.next.getD {}).isMulti ∧
        c3.Action = Action.None ∧ c3.leftovers = []) ∧
    (env.ToLower name = ascii "discard" →
      ∃ c3, OnData env (fuel + 2) c data =
          .ok (c3, flushed ++ AppendError [] (ascii "ERR discard not expected"), Action.None) ∧
        c3.backlog = c.backlog ∧ c3.ownership = c.ownership ∧
        (c3.next.getD {}).isMulti = (c.next.getD {}).isMulti ∧
        c3.Action = Action.None ∧ c3.leftovers = []) ∧
    (c.worker.wakes ≤ c.worker.wakeSnapshot → flushed = []) := by
  have ha : (env.ParseNextCommand data).args ≠ [] := by rw [hargs]; simp
  refine ⟨fun hw => ?_, fun hw => ?_, fun hidle => ?_⟩
  · exact OnData_inline_error env fuel c c2 data flushed (Err (ascii "ERR exec not expected"))
      hA hl ho hb hn1 hn2 hn3 hdata herr hc ha hleft hstop hstopl hflush
      (by rw [hargs, parseFrame_exec_outside env [] _ none _ name hw hn2])
  · exact OnData_inline_error env fuel c c2 data flushed
      (Err (ascii "ERR discard not expected"))
      hA hl ho hb hn1 hn2 hn3 hdata herr hc ha hleft hstop hstopl hflush
      (by rw [hargs, parseFrame_discard_outside env [] _ none _ name hw hn2])
  · rw [takeInput_nonempty c data hdata] at hflush
    have h := flushWrites_idle
      { c with leftovers := [],
               stats := { c.stats with ingress := uint64 (c.stats.ingress + data.length) } }
      hidle
    rw [h] at hflush
    simp only [Except.ok.injEq, Prod.mk.injEq] at hflush
    exact hflush.2.symm

/-- Witness of C20: on a fresh connection the frame `EXEC` is answered
`-ERR exec not expected` and the frame `DISCARD` is answered `-ERR discard not expected`. -/
theorem OnData_exec_discard_not_expected_witness :
    (∃ c3, OnData demoEnv 2 {} (frame ["EXEC"]) =
        .ok (c3, ascii "-ERR exec not expected\r\n", Action.None) ∧
      c3.backlog = [] ∧ c3.ownership = loopOwner ∧ (c3.next.getD {}).isMulti = false ∧
      c3.Action = Action.None ∧ c3.leftovers = []) ∧
    (∃ c3, OnData demoEnv 2 {} (frame ["DISCARD"]) =
        .ok (c3, ascii "-ERR discard not expected\r\n", Action.None) ∧
      c3.backlog = [] ∧ c3.ownership = loopOwner ∧ (c3.next.getD {}).isMulti = false ∧
      c3.Action = Action.None ∧ c3.leftovers = []) :=
  ⟨(OnData_exec_discard_not_expected demoEnv 0 {} { next := none, stats := { ingress := 14 } }
      (frame ["EXEC"]) [] (ascii "EXEC") (by decide) (by decide) (by decide) (by decide)
      (by decide) (by decide) (by decide) (by decide) (by decide) (by decide) (by decide)
      (by decide) ⟨by decide, Or.inl (by decide)⟩ (by decide) (by decide)).1 (by decide),
    (OnData_exec_discard_not_expected demoEnv 0 {} { next := none, stats := { ingress := 17 } }
      (frame ["DISCARD"]) [] (ascii "DISCARD") (by decide) (by decide) (by decide) (by decide)
      (by decide) (by decide) (by decide) (by decide) (by decide) (by decide) (by decide)
      (by decide) ⟨by decide, Or.inl (by decide)⟩ (by decide) (by decide)).2.1 (by decide)⟩

/-- C21. The backlog loop terminates: with a budget of passes above the number of MULTI groups
in the backlog the loop never exhausts it, so it makes at most as many restarts as there are
MULTI groups, and more budget does not change its result. It returns, not through a restart,
or panics on an index out of range; on a backlog of well-formed groups it returns. The reason
is the one the claim gives: the body takes the exit `restart` only for a MULTI group, which
it leaves cleared and no longer MULTI, no group becomes MULTI, and so a pass that ends in a
restart leaves fewer MULTI groups than it found. -/
theorem drain_terminates (backlog : List cmdGroup) (out : Bytes) (fuel : Nat)
    (h : multiCount backlog < fuel) :
    drain fuel backlog out = drain (multiCount backlog + 1) backlog out ∧
    ((∃ exit b o, drain fuel backlog out = .ok (exit, b, o) ∧ exit ≠ .restart) ∨
      drain fuel backlog out = .error .panic) ∧
    ((∀ g ∈ backlog, wellFormed g) →
      ∃ exit b o, drain fuel backlog out = .ok (exit, b, o) ∧ exit ≠ .restart) ∧
    (∀ (seen b : List cmdGroup) (exit : loopExit) (o : Bytes),
      drainPass seen backlog out = .ok (exit, b, o) →
      multiCount b ≤ multiCount seen + multiCount backlog ∧
        (exit = .restart → multiCount b < multiCount seen + multiCount backlog)) ∧
    (∀ (group g : cmdGroup) (exit : loopExit) (o1 o2 : Bytes),
      drainGroup group o1 = .ok (exit, g, o2) →
      (g.isMulti = true → group.isMulti = true) ∧
        (exit = .restart → group.isMulti = true ∧ g.isMulti = false)) := by
  refine ⟨drain_budget fuel (multiCount backlog + 1) backlog out h (Nat.lt_succ_self _),
    drain_result fuel backlog out h, fun hwf => drain_wellFormed fuel backlog out h hwf,
    fun seen b exit o hp => ?_, fun group g exit o1 o2 hd => ?_⟩
  · rcases drainPass_result backlog seen out with ⟨exit2, b2, o2, hp2, hle, hlt⟩ | hp2
    · rw [hp] at hp2
      simp only [Except.ok.injEq, Prod.mk.injEq] at hp2
      obtain ⟨e1, e2, _⟩ := hp2
      subst e1 e2
      exact ⟨hle, hlt⟩
    · rw [hp] at hp2
      exact absurd hp2 (by simp)
  · rcases drainGroup_result group o1 with ⟨exit2, g2, o3, hd2, hk, hr⟩ | hd2
    · rw [hd] at hd2
      simp only [Except.ok.injEq, Prod.mk.injEq] at hd2
      obtain ⟨e1, e2, _⟩ := hd2
      subst e1 e2
      exact ⟨hk, hr⟩
    · rw [hd] at hd2
      exact absurd hd2 (by simp)

/-- Witness of C21: the backlog `[multiPing, multiBad]` holds two MULTI groups; a budget of
three passes is enough, and the abort of `multiBad` causes one restart. -/
theorem drain_terminates_witness :
    drain 3 [multiPing, multiBad] [] = drain (multiCount [multiPing, multiBad] + 1)
      [multiPing, multiBad] [] ∧
    ((∃ exit b o, drain 3 [multiPing, multiBad] [] = .ok (exit, b, o) ∧ exit ≠ .restart) ∨
      drain 3 [multiPing, multiBad] [] = .error .panic) ∧
    ((∀ g ∈ [multiPing, multiBad], wellFormed g) →
      ∃ exit b o, drain 3 [multiPing, multiBad] [] = .ok (exit, b, o) ∧ exit ≠ .restart) ∧
    (∀ (seen b : List cmdGroup) (exit : loopExit) (o : Bytes),
      drainPass seen [multiPing, multiBad] [] = .ok (exit, b, o) →
      multiCount b ≤ multiCount seen + multiCount [multiPing, multiBad] ∧
        (exit = .restart → multiCount b < multiCount seen + multiCount [multiPing, multiBad])) ∧
    (∀ (group g : cmdGroup) (exit : loopExit) (o1 o2 : Bytes),
      drainGroup group o1 = .ok (exit, g, o2) →
      (g.isMulti = true → group.isMulti = true) ∧
        (exit = .restart → group.isMulti = true ∧ g.isMulti = false)) :=
  drain_terminates [multiPing, multiBad] [] 3 (by decide)


end Kiru
